import Mathlib

/-!
# The Bandwidth Benchmark: timing loop, aggregator and validator of `src/main.c`

A shallow embedding of `main` and `check`, and the properties of the specification
proved or refuted on it.

Conventions of the embedding.

* The value of a C `double` is a rational number. The arithmetic of the source is
  embedded in two readings.
  - The exact reading (`accumulate`, `printRow`, `trackerStep`, `expected`, `observed`,
    `compare`, `check`, `main`, `contractKernels`) carries out every operation without
    rounding. It is used for the properties that do not depend on the rounding of a
    result: which statements are executed and in which order, which cells and which
    timings are read and written, which branch a comparison of given values takes, and
    the formulas the results are computed by.
  - The rounded reading (the same names with the suffix `D`) rounds the result of
    every addition, multiplication and division, of every decimal constant and of
    every conversion of a `size_t` to the nearest `double` (`roundDouble`: 53
    significant binary digits, ties to the even significand). Every operation is
    rounded on its own: no intermediate result is kept in a wider format, and no
    multiplication is fused with the addition that follows it. It is used for the
    properties that compare or equate computed values: the closed form of the
    recurrence, the end-to-end validation, and the position of the average and of the
    rate from the average relative to the minimum and the maximum.
  In both readings overflow to infinity, NaN operands and gradual underflow are outside
  the model (the exponent is not bounded). The one operation whose IEEE 754 outcome is
  not a number even on finite operands, division by zero, is modelled by `fdiv` and
  `fdivD`, which return an infinity or NaN as a separate constructor.
* A `double*` buffer is a function from the index to the cell; the number of cells is
  carried separately (`N`). Reading or writing a cell outside the buffer has no defined
  outcome in C, so a step that does it yields `none`.
* `int` and `size_t` values are integers with their range made explicit where the source
  depends on it (`INT_MAX`, arithmetic modulo `2 ^ 64`).
* The compile-time constants `SIZE` and `NTIMES` are parameters (`N`, `ntimes`) of the
  functions that use them; the reference values are `SIZE` and `NTIMES` below.
* The eight kernels and `allocate` are declared in `main.c` but defined elsewhere. The
  harness is embedded over an arbitrary implementation of the kernels (`Kernels`); the
  documented contracts are the instances `contractKernels` and `contractKernelsD`.
  `allocate` is taken to succeed, and what the allocated and the uninitialised memory
  holds is an argument.
* The order of the kernel calls is made observable by a log: `timingLoopLog` runs the
  statements of the loop body one by one and records every call; it is proved to compute
  the same variables as `timingLoop`.
* Output is modelled by the values handed to `printf`, before formatting. The lines that
  only the `_OPENMP` and `VERBOSE` builds print are left out.
-/

namespace BandwidthBenchmark

/-! ## Constants and helper expressions -/

/-- Reference value of `#define SIZE 20000000ull`. -/
def SIZE : Nat := 20000000

/-- Reference value of `#define NTIMES 10`. -/
def NTIMES : Nat := 10

/-- Number of benchmark kernels, the last enumerator of `enum benchmark`. -/
def NUMBENCH : Nat := 8

/-- The value of `FLT_MAX` from `float.h`: `(2 - 2 ^ (-23)) * 2 ^ 127`. -/
def FLT_MAX : ℚ := 340282346638528859811704183484516925440

/-- Largest value of a 32-bit `int`. -/
def INT_MAX : Nat := 2147483647

/-- The value of `EXIT_SUCCESS` from `stdlib.h`. -/
def EXIT_SUCCESS : Int := 0

/-- The value of `sizeof(double)`. -/
def sizeofDouble : Nat := 8

/-- Multiplication of two `size_t` values (64 bit, wrapping). -/
def mulSizeT (x y : Nat) : Nat := (x * y) % 2 ^ 64

/-- The `MIN(x,y)` expression: `((x)<(y)?(x):(y))`. -/
def MIN (x y : ℚ) : ℚ := if x < y then x else y

/-- The `MAX(x,y)` expression: `((x)>(y)?(x):(y))`. -/
def MAX (x y : ℚ) : ℚ := if x > y then x else y

/-- The `ABS(a)` expression: `((a) >= 0 ? (a) : -(a))`. -/
def ABS (a : ℚ) : ℚ := if a ≥ 0 then a else -a

/-- The enumeration `benchmark`. -/
inductive benchmark where
  | INIT | SUM | COPY | UPDATE | TRIAD | DAXPY | STRIAD | SDAXPY
  deriving DecidableEq, Repr

/-- Integer value of an enumerator, used as an array index. -/
def benchmark.idx : benchmark → Nat
  | .INIT => 0
  | .SUM => 1
  | .COPY => 2
  | .UPDATE => 3
  | .TRIAD => 4
  | .DAXPY => 5
  | .STRIAD => 6
  | .SDAXPY => 7

/-- Outcome of a `double` division. A non-zero divisor gives the quotient; a zero divisor
gives an infinity of the sign of the dividend, or NaN for `0 / 0`. -/
inductive DivResult where
  | finite (q : ℚ)
  | posInf
  | negInf
  | nan
  deriving DecidableEq, Repr

/-- The `double` division `x / y`. -/
def fdiv (x y : ℚ) : DivResult :=
  if y ≠ 0 then .finite (x / y)
  else if 0 < x then .posInf
  else if x < 0 then .negInf
  else .nan

/-- The comparison `r > e` of a division outcome with a finite `double`; any comparison
with NaN is false. -/
def DivResult.gt (r : DivResult) (e : ℚ) : Bool :=
  match r with
  | .finite q => decide (q > e)
  | .posInf => true
  | .negInf => false
  | .nan => false

/-! ## Buffers and kernels -/

/-- Contents of a `double*` buffer, by index. -/
abbrev Arr := Nat → ℚ

/-- Assignment `x[i] = v`. -/
def setCell (x : Arr) (i : Nat) (v : ℚ) : Arr := fun n => if n = i then v else x n

/-- The kernels declared by `main.c`, as the harness sees them: each call receives its
buffers (which it may overwrite), the scalar where there is one and the `int` element
count, and returns the buffers after the call together with the elapsed time it reports.
The first argument is the number of the repetition in which the call is made; it stands
for whatever makes two calls with equal arguments report different times. -/
structure Kernels where
  init : Nat → Arr → ℚ → Int → Arr × ℚ
  sum : Nat → Arr → Int → Arr × ℚ
  copy : Nat → Arr → Arr → Int → Arr × Arr × ℚ
  update : Nat → Arr → ℚ → Int → Arr × ℚ
  triad : Nat → Arr → Arr → Arr → ℚ → Int → Arr × Arr × Arr × ℚ
  daxpy : Nat → Arr → Arr → ℚ → Int → Arr × Arr × ℚ
  striad : Nat → Arr → Arr → Arr → Arr → Int → Arr × Arr × Arr × Arr × ℚ
  sdaxpy : Nat → Arr → Arr → Arr → Int → Arr × Arr × Arr × ℚ

/-- One linear pass `x[i] = f i` for `0 ≤ i < N`, leaving the other cells alone. -/
def pass (x : Arr) (N : Int) (f : Nat → ℚ) : Arr :=
  fun i => if (i : Int) < N then f i else x i

/-- Modelled from the spec: the bodies of the eight kernels `init`, `sum`, `copy`,
`update`, `triad`, `daxpy`, `striad` and `sdaxpy`, which `main.c` only declares. Each
performs the effect of the contract table (Init `b[i] = s`; Sum read-only; Copy
`c[i] = a[i]`; Update `a[i] = a[i] * s`; Triad `a[i] = b[i] + s*c[i]`; Daxpy
`a[i] = a[i] + s*b[i]`; STriad `a[i] = b[i] + c[i]*d[i]`; SDaxpy
`a[i] = a[i] + b[i]*c[i]`) for all `i` below the element count, and writes nothing else.
The time kernel `j` reports in repetition `k` is `timer j k`. -/
def contractKernels (timer : Nat → Nat → ℚ) : Kernels where
  init k b s N := (pass b N (fun _ => s), timer 0 k)
  sum k a _ := (a, timer 1 k)
  copy k c a N := (pass c N (fun i => a i), a, timer 2 k)
  update k a s N := (pass a N (fun i => a i * s), timer 3 k)
  triad k a b c s N := (pass a N (fun i => b i + s * c i), b, c, timer 4 k)
  daxpy k a b s N := (pass a N (fun i => a i + s * b i), b, timer 5 k)
  striad k a b c d N := (pass a N (fun i => b i + c i * d i), b, c, d, timer 6 k)
  sdaxpy k a b c N := (pass a N (fun i => a i + b i * c i), b, c, timer 7 k)

/-! ## `main`: initialisation and timing loop -/

/-- The variables of `main` that the timing loop reads and writes: the four buffers and
the timing record `times[NUMBENCH][NTIMES]`. -/
structure LoopState where
  a : Arr
  b : Arr
  c : Arr
  d : Arr
  times : Nat → Nat → ℚ

/-- Assignment `times[j][k] = v`. -/
def setTime (times : Nat → Nat → ℚ) (j k : Nat) (v : ℚ) : Nat → Nat → ℚ :=
  fun j1 k1 => if j1 = j ∧ k1 = k then v else times j1 k1

/-- The initialisation loop of `main`: `a[i] = 2.0; b[i] = 2.0; c[i] = 0.5; d[i] = 1.0`
for `i < N`. The argument holds what the freshly allocated buffers and the
uninitialised `times` contain. -/
def initArrays (N : Nat) (u : LoopState) : LoopState where
  a := fun i => if i < N then 2.0 else u.a i
  b := fun i => if i < N then 2.0 else u.b i
  c := fun i => if i < N then 0.5 else u.c i
  d := fun i => if i < N then 1.0 else u.d i
  times := u.times

/-- The Sum step of a repetition: `tmp = a[10]; times[SUM][k] = sum(a, N); a[10] = tmp;`.
The result is the buffer `a` after the step and the time `sum` returned. The buffer has
`N` cells, so `tmp = a[10]` and `a[10] = tmp` are defined only when `10 < N`. -/
def sumStep (K : Kernels) (N : Nat) (k : Nat) (a : Arr) : Option (Arr × ℚ) :=
  if 10 < N then
    let tmp := a 10
    let r1 := K.sum k a N
    some (setCell r1.1 10 tmp, r1.2)
  else none

/-- Body of the timing loop of `main` for repetition `k`. -/
def repetition (K : Kernels) (scalar : ℚ) (N : Nat) (k : Nat) (s : LoopState) :
    Option LoopState :=
  let r0 := K.init k s.b scalar N
  let b := r0.1
  let times := setTime s.times benchmark.INIT.idx k r0.2
  match sumStep K N k s.a with
  | none => none
  | some r1 =>
    let a := r1.1
    let times := setTime times benchmark.SUM.idx k r1.2
    let r2 := K.copy k s.c a N
    let c := r2.1
    let a := r2.2.1
    let times := setTime times benchmark.COPY.idx k r2.2.2
    let r3 := K.update k a scalar N
    let a := r3.1
    let times := setTime times benchmark.UPDATE.idx k r3.2
    let r4 := K.triad k a b c scalar N
    let a := r4.1
    let b := r4.2.1
    let c := r4.2.2.1
    let times := setTime times benchmark.TRIAD.idx k r4.2.2.2
    let r5 := K.daxpy k a b scalar N
    let a := r5.1
    let b := r5.2.1
    let times := setTime times benchmark.DAXPY.idx k r5.2.2
    let r6 := K.striad k a b c s.d N
    let a := r6.1
    let b := r6.2.1
    let c := r6.2.2.1
    let d := r6.2.2.2.1
    let times := setTime times benchmark.STRIAD.idx k r6.2.2.2.2
    let r7 := K.sdaxpy k a b c N
    let a := r7.1
    let b := r7.2.1
    let c := r7.2.2.1
    let times := setTime times benchmark.SDAXPY.idx k r7.2.2.2
    some { a := a, b := b, c := c, d := d, times := times }

/-- The timing loop `for (k = 0; k < ntimes; k++)`: repetitions `0, ..., ntimes - 1` in
order, each on the state the previous one left. -/
def timingLoop (K : Kernels) (scalar : ℚ) (N : Nat) : Nat → LoopState → Option LoopState
  | 0, s => some s
  | k + 1, s => (timingLoop K scalar N k s).bind (repetition K scalar N k)

/-- The part of `main` from the initialisation loop to the end of the timing loop. The
counter of the initialisation loop is an `int` that has to reach `N`, and `N` is passed to
the kernels and to `check` as an `int`, so the run is defined only for `N ≤ INT_MAX`. -/
def runKernels (K : Kernels) (N ntimes : Nat) (u : LoopState) : Option LoopState :=
  if N ≤ INT_MAX then timingLoop K 3.0 N ntimes (initArrays N u) else none

/-! ## `main`: aggregation and report -/

/-- The arrays `avgtime`, `maxtime` and `mintime` of `main`. -/
structure Stats where
  avgtime : Nat → ℚ
  maxtime : Nat → ℚ
  mintime : Nat → ℚ

/-- The loop `avgtime[i] = 0; maxtime[i] = 0; mintime[i] = FLT_MAX` over `i < NUMBENCH`,
from whatever the arrays held before. -/
def initStats (u : Stats) : Stats :=
  (List.range NUMBENCH).foldl
    (fun s i =>
      { avgtime := setCell s.avgtime i 0
        maxtime := setCell s.maxtime i 0
        mintime := setCell s.mintime i FLT_MAX })
    u

/-- Body of the aggregation loop for kernel `j` and repetition `k`. -/
def accumulate (times : Nat → Nat → ℚ) (j k : Nat) (s : Stats) : Stats where
  avgtime := setCell s.avgtime j (s.avgtime j + times j k)
  mintime := setCell s.mintime j (MIN (s.mintime j) (times j k))
  maxtime := setCell s.maxtime j (MAX (s.maxtime j) (times j k))

/-- The aggregation loops: `for (j = 0; j < NUMBENCH; j++) for (k = 1; k < ntimes; k++)`. -/
def aggregate (ntimes : Nat) (times : Nat → Nat → ℚ) (s : Stats) : Stats :=
  (List.range NUMBENCH).foldl
    (fun s j => (List.range' 1 (ntimes - 1)).foldl (fun s k => accumulate times j k s) s)
    s

/-- The initialiser of `bytes[NUMBENCH]`; the products are `size_t` products, converted
to `double` on initialisation. -/
def bytes (N : Nat) : List ℚ :=
  [ ((mulSizeT (mulSizeT 1 sizeofDouble) N : Nat) : ℚ),
    ((mulSizeT (mulSizeT 1 sizeofDouble) N : Nat) : ℚ),
    ((mulSizeT (mulSizeT 2 sizeofDouble) N : Nat) : ℚ),
    ((mulSizeT (mulSizeT 2 sizeofDouble) N : Nat) : ℚ),
    ((mulSizeT (mulSizeT 3 sizeofDouble) N : Nat) : ℚ),
    ((mulSizeT (mulSizeT 3 sizeofDouble) N : Nat) : ℚ),
    ((mulSizeT (mulSizeT 4 sizeofDouble) N : Nat) : ℚ),
    ((mulSizeT (mulSizeT 4 sizeofDouble) N : Nat) : ℚ) ]

/-- The initialiser of `label[NUMBENCH]`. -/
def label : List String :=
  [ "Init:       ",
    "Sum:        ",
    "Copy:       ",
    "Update:     ",
    "Triad:      ",
    "Daxpy:      ",
    "STriad:     ",
    "SDaxpy:     " ]

/-- One printed line of the table: the label and the four numbers handed to `printf`, in
the order of its arguments. -/
structure Row where
  name : String
  rate : DivResult
  avgtime : DivResult
  mintime : ℚ
  maxtime : ℚ
  deriving DecidableEq, Repr

/-- Body of the printing loop for kernel `j`: `avgtime[j] = avgtime[j]/(double)(ntimes-1)`
and the `printf` of the row. -/
def printRow (N ntimes : Nat) (s : Stats) (j : Nat) : Row where
  name := label.getD j ""
  rate := fdiv (1.0e-6 * (bytes N).getD j 0) (s.mintime j)
  avgtime := fdiv (s.avgtime j) ((((ntimes : Int) - 1 : Int) : ℚ))
  mintime := s.mintime j
  maxtime := s.maxtime j

/-- The printing loop: one row per kernel, in enumeration order. -/
def report (N ntimes : Nat) (s : Stats) : List Row :=
  (List.range NUMBENCH).map (printRow N ntimes s)

/-! ## `check` -/

/-- The scalar trackers `aj`, `bj`, `cj`, `dj` of `check`. -/
structure Trackers where
  aj : ℚ
  bj : ℚ
  cj : ℚ
  dj : ℚ
  deriving DecidableEq, Repr

/-- The trackers after "reproduce initialization". -/
def trackerInit : Trackers := { aj := 2.0, bj := 2.0, cj := 0.5, dj := 1.0 }

set_option linter.unusedVariables false in
/-- Body of the loop of `check` that re-executes one repetition on the trackers. The
assignments are kept one by one, including those whose value is overwritten unread. -/
def trackerStep (scalar : ℚ) (t : Trackers) : Trackers :=
  let bj := scalar
  let cj := t.aj
  let aj := t.aj * scalar
  let aj := bj + scalar * cj
  let aj := aj + scalar * bj
  let aj := bj + cj * t.dj
  let aj := aj + bj * cj
  { aj := aj, bj := bj, cj := cj, dj := t.dj }

/-- The trackers after the loop `for (k = 0; k < ntimes; k++)` of `check`, with
`scalar = 3.0`. -/
def trackers : Nat → Trackers
  | 0 => trackerInit
  | k + 1 => trackerStep 3.0 (trackers k)

/-- The expected sums: each tracker multiplied by `(double) (N)`. -/
def expected (ntimes : Nat) (N : Int) : Trackers :=
  let t := trackers ntimes
  { aj := t.aj * (N : ℚ), bj := t.bj * (N : ℚ), cj := t.cj * (N : ℚ), dj := t.dj * (N : ℚ) }

/-- The sums `asum`, `bsum`, `csum`, `dsum` of `check`. -/
structure Sums where
  asum : ℚ
  bsum : ℚ
  csum : ℚ
  dsum : ℚ
  deriving DecidableEq, Repr

/-- The summation loop `for (i = 0; i < N; i++)` of `check`, from all sums `0.0`. -/
def observed (a b c d : Arr) (N : Int) : Sums :=
  (List.range N.toNat).foldl
    (fun s i =>
      { asum := s.asum + a i, bsum := s.bsum + b i, csum := s.csum + c i,
        dsum := s.dsum + d i })
    { asum := 0.0, bsum := 0.0, csum := 0.0, dsum := 0.0 }

/-- The tolerance `epsilon = 1.e-8` of `check`. -/
def epsilon : ℚ := 1.0e-8

/-- The four buffers by name. -/
inductive ArrayName where
  | a | b | c | d
  deriving DecidableEq, Repr

/-- One `printf` of `check`: `Failed Validation on array X[]`, `Expected  : v`,
`Observed  : v`, or `Solution Validates`. -/
inductive Line where
  | failedValidation (x : ArrayName)
  | expectedValue (v : ℚ)
  | observedValue (v : ℚ)
  | solutionValidates
  deriving DecidableEq, Repr

/-- The condition `ABS(e-o)/o > epsilon` of `check`. -/
def exceeds (e o : ℚ) : Bool := (fdiv (ABS (e - o)) o).gt epsilon

/-- The `if ... else if ... else` chain at the end of `check`, as the list of lines it
prints. -/
def compare (e : Trackers) (o : Sums) : List Line :=
  if exceeds e.aj o.asum then
    [.failedValidation .a, .expectedValue e.aj, .observedValue o.asum]
  else if exceeds e.bj o.bsum then
    [.failedValidation .b, .expectedValue e.bj, .observedValue o.bsum]
  else if exceeds e.cj o.csum then
    [.failedValidation .c, .expectedValue e.cj, .observedValue o.csum]
  else if exceeds e.dj o.dsum then
    [.failedValidation .d, .expectedValue e.dj, .observedValue o.dsum]
  else
    [.solutionValidates]

/-- The function `check`, with `NTIMES` as the parameter `ntimes`; the result is what it
prints. -/
def check (ntimes : Nat) (a b c d : Arr) (N : Int) : List Line :=
  compare (expected ntimes N) (observed a b c d N)

/-! ## `main` as a whole -/

/-- What a run of `main` produces: the rows of the printed table, the lines `check`
printed, and the value returned. -/
structure Output where
  table : List Row
  validation : List Line
  status : Int

/-- The function `main`. `u` and `v` hold the contents of the uninitialised memory the
run starts from. -/
def main (K : Kernels) (N ntimes : Nat) (u : LoopState) (v : Stats) : Option Output :=
  match runKernels K N ntimes u with
  | none => none
  | some s =>
    let stats := aggregate ntimes s.times (initStats v)
    let table := report N ntimes stats
    let validation := check ntimes s.a s.b s.c s.d N
    some { table := table, validation := validation, status := EXIT_SUCCESS }

/-- Uninitialised memory filled with zeros, for concrete runs. -/
def zeroState : LoopState where
  a := fun _ => 0
  b := fun _ => 0
  c := fun _ => 0
  d := fun _ => 0
  times := fun _ _ => 0

/-- Uninitialised statistics arrays filled with zeros, for concrete runs. -/
def zeroStats : Stats where
  avgtime := fun _ => 0
  maxtime := fun _ => 0
  mintime := fun _ => 0

/-! ## Predicates used to state the properties -/

/-- Every cell `i < N` of the four buffers of `s` holds the value of the tracker of the
same name. -/
def Uniform (N : Nat) (s : LoopState) (t : Trackers) : Prop :=
  ∀ i, i < N → s.a i = t.aj ∧ s.b i = t.bj ∧ s.c i = t.cj ∧ s.d i = t.dj

/-- The relative-error test in the words of the specification:
`|expected - observed| / observed > 1e-8`. For `observed = 0` the quotient is the one
`double` division gives: `+∞` for a non-zero numerator, not a number for `0 / 0`. -/
def relativeErrorExceeds (e o : ℚ) : Prop :=
  if o = 0 then e ≠ 0 else |e - o| / o > 1 / 10 ^ 8

instance (e o : ℚ) : Decidable (relativeErrorExceeds e o) := by
  unfold relativeErrorExceeds
  infer_instance

/-- The four comparisons of `check` in the order a, b, c, d: the name of the array, the
expected value and the observed sum. -/
def comparisons (e : Trackers) (o : Sums) : List (ArrayName × ℚ × ℚ) :=
  [(.a, e.aj, o.asum), (.b, e.bj, o.bsum), (.c, e.cj, o.csum), (.d, e.dj, o.dsum)]

/-- Whether a printed line is a `Failed Validation on array X[]` line. -/
def Line.isFailure : Line → Bool
  | .failedValidation _ => true
  | _ => false

/-- Bytes moved per element by each kernel, in units of the element size, as the contract
table of the specification lists them. -/
def multiplier : benchmark → Nat
  | .INIT => 1
  | .SUM => 1
  | .COPY => 2
  | .UPDATE => 2
  | .TRIAD => 3
  | .DAXPY => 3
  | .STRIAD => 4
  | .SDAXPY => 4

/-- The timings of kernel `j` that the aggregator reads: repetitions `1, ..., ntimes - 1`,
in the order of the loop. -/
def timings (ntimes : Nat) (times : Nat → Nat → ℚ) (j : Nat) : List ℚ :=
  (List.range' 1 (ntimes - 1)).map (times j)

/-- The value `m` is the minimum of `f k` over `k` in `[1, n)`. -/
def IsMinimumOf (m : ℚ) (n : Nat) (f : Nat → ℚ) : Prop :=
  (∃ k, 1 ≤ k ∧ k < n ∧ f k = m) ∧ ∀ k, 1 ≤ k → k < n → m ≤ f k

/-- The value `m` is the maximum of `f k` over `k` in `[1, n)`. -/
def IsMaximumOf (m : ℚ) (n : Nat) (f : Nat → ℚ) : Prop :=
  (∃ k, 1 ≤ k ∧ k < n ∧ f k = m) ∧ ∀ k, 1 ≤ k → k < n → f k ≤ m

/-- Kernels that write nothing and report a zero time: a kernel set that violates the
contracts, used to exhibit a run in which validation fails. -/
def idleKernels : Kernels where
  init _ b _ _ := (b, 0)
  sum _ a _ := (a, 0)
  copy _ c a _ := (c, a, 0)
  update _ a _ _ := (a, 0)
  triad _ a b c _ _ := (a, b, c, 0)
  daxpy _ a b _ _ := (a, b, 0)
  striad _ a b c d _ := (a, b, c, d, 0)
  sdaxpy _ a b c _ := (a, b, c, 0)

/-! ## The loop body statement by statement -/

/-- The order in which the body of the timing loop calls the kernels. -/
def order : List benchmark :=
  [.INIT, .SUM, .COPY, .UPDATE, .TRIAD, .DAXPY, .STRIAD, .SDAXPY]

/-- The value kernel `j` returns when the statement of the loop body that calls it is
executed in repetition `k` on the variables `s`. -/
def returned (K : Kernels) (scalar : ℚ) (N k : Nat) (j : benchmark) (s : LoopState) : ℚ :=
  match j with
  | .INIT => (K.init k s.b scalar N).2
  | .SUM => (K.sum k s.a N).2
  | .COPY => (K.copy k s.c s.a N).2.2
  | .UPDATE => (K.update k s.a scalar N).2
  | .TRIAD => (K.triad k s.a s.b s.c scalar N).2.2.2
  | .DAXPY => (K.daxpy k s.a s.b scalar N).2.2
  | .STRIAD => (K.striad k s.a s.b s.c s.d N).2.2.2.2
  | .SDAXPY => (K.sdaxpy k s.a s.b s.c N).2.2.2

/-- The statement `times[j][k] = kernel_j(...)` of the loop body (for Sum together with
the save and restore of `a[10]`), as a step on the variables of `main`. -/
def step (K : Kernels) (scalar : ℚ) (N k : Nat) (j : benchmark) (s : LoopState) :
    Option LoopState :=
  match j with
  | .INIT =>
    let r := K.init k s.b scalar N
    some { s with b := r.1, times := setTime s.times benchmark.INIT.idx k r.2 }
  | .SUM =>
    match sumStep K N k s.a with
    | none => none
    | some r => some { s with a := r.1, times := setTime s.times benchmark.SUM.idx k r.2 }
  | .COPY =>
    let r := K.copy k s.c s.a N
    some { s with c := r.1, a := r.2.1, times := setTime s.times benchmark.COPY.idx k r.2.2 }
  | .UPDATE =>
    let r := K.update k s.a scalar N
    some { s with a := r.1, times := setTime s.times benchmark.UPDATE.idx k r.2 }
  | .TRIAD =>
    let r := K.triad k s.a s.b s.c scalar N
    some { s with a := r.1, b := r.2.1, c := r.2.2.1,
                  times := setTime s.times benchmark.TRIAD.idx k r.2.2.2 }
  | .DAXPY =>
    let r := K.daxpy k s.a s.b scalar N
    some { s with a := r.1, b := r.2.1, times := setTime s.times benchmark.DAXPY.idx k r.2.2 }
  | .STRIAD =>
    let r := K.striad k s.a s.b s.c s.d N
    some { s with a := r.1, b := r.2.1, c := r.2.2.1, d := r.2.2.2.1,
                  times := setTime s.times benchmark.STRIAD.idx k r.2.2.2.2 }
  | .SDAXPY =>
    let r := K.sdaxpy k s.a s.b s.c N
    some { s with a := r.1, b := r.2.1, c := r.2.2.1,
                  times := setTime s.times benchmark.SDAXPY.idx k r.2.2.2 }

/-- The statements of the loop body that call the kernels `js`, executed in that order. -/
def steps (K : Kernels) (scalar : ℚ) (N k : Nat) : List benchmark → LoopState → Option LoopState
  | [], s => some s
  | j :: js, s => (step K scalar N k j s).bind (steps K scalar N k js)

/-- A record of one executed statement `times[j][k] = kernel_j(...)` of the loop body: the
kernel called, the repetition, and the value the call returned. -/
structure Event where
  kernel : benchmark
  rep : Nat
  value : ℚ

/-- The statements of the loop body that call the kernels `js`, in that order, with the
record of every call appended to the log. -/
def stepsLog (K : Kernels) (scalar : ℚ) (N k : Nat) :
    List benchmark → LoopState × List Event → Option (LoopState × List Event)
  | [], p => some p
  | j :: js, p =>
    (step K scalar N k j p.1).bind fun s1 =>
      stepsLog K scalar N k js (s1, p.2 ++ [⟨j, k, returned K scalar N k j p.1⟩])

/-- The timing loop with the log of the kernel calls. -/
def timingLoopLog (K : Kernels) (scalar : ℚ) (N : Nat) :
    Nat → LoopState × List Event → Option (LoopState × List Event)
  | 0, p => some p
  | k + 1, p => (timingLoopLog K scalar N k p).bind (stepsLog K scalar N k order)

/-- The timing record `s.times` holds every value of the log at its place, and agrees with
`s0.times` at the places the log does not mention. -/
def Recorded (s0 s : LoopState) (log : List Event) : Prop :=
  (∀ e ∈ log, s.times e.kernel.idx e.rep = e.value) ∧
  ∀ j k, (∀ e ∈ log, ¬ (e.kernel.idx = j ∧ e.rep = k)) → s.times j k = s0.times j k

/-- A kernel set whose `sum` overwrites the whole buffer it is given with zeros; the other
kernels are idle. -/
def scribbleKernels : Kernels :=
  { idleKernels with sum := fun _ _ _ => (fun _ => 0, 0) }

/-! ## Rounded `double` arithmetic -/

/-- Rounding of a rational number to the nearest integer, a tie going to the even one. -/
def roundHalfEven (x : ℚ) : ℤ :=
  if x - ⌊x⌋ < 1 / 2 then ⌊x⌋
  else if 1 / 2 < x - ⌊x⌋ then ⌊x⌋ + 1
  else if ⌊x⌋ % 2 = 0 then ⌊x⌋
  else ⌊x⌋ + 1

/-- The `double` nearest to `q`: the result of an arithmetic operation, a conversion or a
decimal constant whose exact value is `q`. For `2 ^ e ≤ |q| < 2 ^ (e + 1)` the doubles
around `q` are the multiples of `2 ^ (e - 52)` (53 significant binary digits), and `q` is
rounded to the nearest of them, a tie going to the one with the even significand, which
is the rounding of IEEE 754 binary64 arithmetic in its default mode. The exponent `e` is
not bounded. -/
def roundDouble (q : ℚ) : ℚ :=
  if q = 0 then 0
  else roundHalfEven (q / 2 ^ (Int.log 2 |q| - 52)) * 2 ^ (Int.log 2 |q| - 52)

/-- The `double` division `x / y` with the quotient rounded. -/
def fdivD (x y : ℚ) : DivResult :=
  if y ≠ 0 then .finite (roundDouble (x / y))
  else if 0 < x then .posInf
  else if x < 0 then .negInf
  else .nan

/-- Modelled from the spec: the bodies of the eight kernels as in `contractKernels`, with
every multiplication and addition of the contract table rounded to a `double`. -/
def contractKernelsD (timer : Nat → Nat → ℚ) : Kernels where
  init k b s N := (pass b N (fun _ => s), timer 0 k)
  sum k a _ := (a, timer 1 k)
  copy k c a N := (pass c N (fun i => a i), a, timer 2 k)
  update k a s N := (pass a N (fun i => roundDouble (a i * s)), timer 3 k)
  triad k a b c s N :=
    (pass a N (fun i => roundDouble (b i + roundDouble (s * c i))), b, c, timer 4 k)
  daxpy k a b s N :=
    (pass a N (fun i => roundDouble (a i + roundDouble (s * b i))), b, timer 5 k)
  striad k a b c d N :=
    (pass a N (fun i => roundDouble (b i + roundDouble (c i * d i))), b, c, d, timer 6 k)
  sdaxpy k a b c N :=
    (pass a N (fun i => roundDouble (a i + roundDouble (b i * c i))), b, c, timer 7 k)

/-- Body of the aggregation loop for kernel `j` and repetition `k`, the sum
`avgtime[j] + times[j][k]` rounded. `MIN` and `MAX` select one of their arguments and do
not round. -/
def accumulateD (times : Nat → Nat → ℚ) (j k : Nat) (s : Stats) : Stats where
  avgtime := setCell s.avgtime j (roundDouble (s.avgtime j + times j k))
  mintime := setCell s.mintime j (MIN (s.mintime j) (times j k))
  maxtime := setCell s.maxtime j (MAX (s.maxtime j) (times j k))

/-- The aggregation loops `for (j = 0; j < NUMBENCH; j++) for (k = 1; k < ntimes; k++)`
with the rounded body. -/
def aggregateD (ntimes : Nat) (times : Nat → Nat → ℚ) (s : Stats) : Stats :=
  (List.range NUMBENCH).foldl
    (fun s j => (List.range' 1 (ntimes - 1)).foldl (fun s k => accumulateD times j k s) s)
    s

/-- The initialiser of `bytes[NUMBENCH]`, each `size_t` product converted to the nearest
`double`. -/
def bytesD (N : Nat) : List ℚ :=
  (bytes N).map roundDouble

/-- Body of the printing loop for kernel `j` in rounded arithmetic:
`avgtime[j] = avgtime[j]/(double)(ntimes-1)` and the `printf` of the row, whose rate is
`(1.0E-06 * bytes[j]) / mintime[j]` with the constant, the product and the quotient each
rounded. The conversion of the `int` value `ntimes - 1` is exact. -/
def printRowD (N ntimes : Nat) (s : Stats) (j : Nat) : Row where
  name := label.getD j ""
  rate := fdivD (roundDouble (roundDouble 1.0e-6 * (bytesD N).getD j 0)) (s.mintime j)
  avgtime := fdivD (s.avgtime j) ((((ntimes : Int) - 1 : Int) : ℚ))
  mintime := s.mintime j
  maxtime := s.maxtime j

/-- The printing loop in rounded arithmetic: one row per kernel, in enumeration order. -/
def reportD (N ntimes : Nat) (s : Stats) : List Row :=
  (List.range NUMBENCH).map (printRowD N ntimes s)

set_option linter.unusedVariables false in
/-- Body of the loop of `check` that re-executes one repetition on the trackers, every
product and every sum rounded. The assignments are kept one by one, including those
whose value is overwritten unread. -/
def trackerStepD (scalar : ℚ) (t : Trackers) : Trackers :=
  let bj := scalar
  let cj := t.aj
  let aj := roundDouble (t.aj * scalar)
  let aj := roundDouble (bj + roundDouble (scalar * cj))
  let aj := roundDouble (aj + roundDouble (scalar * bj))
  let aj := roundDouble (bj + roundDouble (cj * t.dj))
  let aj := roundDouble (aj + roundDouble (bj * cj))
  { aj := aj, bj := bj, cj := cj, dj := t.dj }

/-- The trackers after the loop `for (k = 0; k < ntimes; k++)` of `check` in rounded
arithmetic, with `scalar = 3.0`. -/
def trackersD : Nat → Trackers
  | 0 => trackerInit
  | k + 1 => trackerStepD 3.0 (trackersD k)

/-- The expected sums in rounded arithmetic: each tracker multiplied by `(double) (N)`,
the product rounded. The conversion of the `int` value `N` is exact. -/
def expectedD (ntimes : Nat) (N : Int) : Trackers :=
  let t := trackersD ntimes
  { aj := roundDouble (t.aj * (N : ℚ)), bj := roundDouble (t.bj * (N : ℚ)),
    cj := roundDouble (t.cj * (N : ℚ)), dj := roundDouble (t.dj * (N : ℚ)) }

/-- The summation loop `for (i = 0; i < N; i++)` of `check`, from all sums `0.0`, every
addition rounded. -/
def observedD (a b c d : Arr) (N : Int) : Sums :=
  (List.range N.toNat).foldl
    (fun s i =>
      { asum := roundDouble (s.asum + a i), bsum := roundDouble (s.bsum + b i),
        csum := roundDouble (s.csum + c i), dsum := roundDouble (s.dsum + d i) })
    { asum := 0.0, bsum := 0.0, csum := 0.0, dsum := 0.0 }

/-- The tolerance of `check` as a `double`: the constant `1.e-8` rounded. -/
def epsilonD : ℚ := roundDouble 1.0e-8

/-- The condition `ABS(e-o)/o > epsilon` of `check` in rounded arithmetic: the
difference and the quotient are rounded, the change of sign in `ABS` is exact. -/
def exceedsD (e o : ℚ) : Bool := (fdivD (ABS (roundDouble (e - o))) o).gt epsilonD

/-- The `if ... else if ... else` chain at the end of `check`, with the rounded
conditions. -/
def compareD (e : Trackers) (o : Sums) : List Line :=
  if exceedsD e.aj o.asum then
    [.failedValidation .a, .expectedValue e.aj, .observedValue o.asum]
  else if exceedsD e.bj o.bsum then
    [.failedValidation .b, .expectedValue e.bj, .observedValue o.bsum]
  else if exceedsD e.cj o.csum then
    [.failedValidation .c, .expectedValue e.cj, .observedValue o.csum]
  else if exceedsD e.dj o.dsum then
    [.failedValidation .d, .expectedValue e.dj, .observedValue o.dsum]
  else
    [.solutionValidates]

/-- The function `check` in rounded arithmetic, with `NTIMES` as the parameter `ntimes`;
the result is what it prints. -/
def checkD (ntimes : Nat) (a b c d : Arr) (N : Int) : List Line :=
  compareD (expectedD ntimes N) (observedD a b c d N)

/-- The function `main` in rounded arithmetic. -/
def mainD (K : Kernels) (N ntimes : Nat) (u : LoopState) (v : Stats) : Option Output :=
  match runKernels K N ntimes u with
  | none => none
  | some s =>
    let stats := aggregateD ntimes s.times (initStats v)
    let table := reportD N ntimes stats
    let validation := checkD ntimes s.a s.b s.c s.d N
    some { table := table, validation := validation, status := EXIT_SUCCESS }

/-- The `double` nearest to `0.1`. -/
def tenth : ℚ := 3602879701896397 / 36028797018963968

/-- The `double` nearest to `0.7`. -/
def sevenTenths : ℚ := 3152519739159347 / 4503599627370496

/-! ## The timing loop under the kernel contracts -/

theorem setCell_self (x : Arr) (i : Nat) : setCell x i (x i) = x := by
  funext n
  unfold setCell
  split
  · next h => rw [h]
  · rfl

theorem pass_apply_lt (x : Arr) (N : Nat) (f : Nat → ℚ) (i : Nat) (h : i < N) :
    pass x (N : Int) f i = f i := by
  unfold pass
  have : (i : Int) < (N : Int) := by exact_mod_cast h
  simp [this]

theorem sumStep_of_lt (K : Kernels) (N k : Nat) (a : Arr) (hN : 10 < N) :
    sumStep K N k a = some (setCell (K.sum k a N).1 10 (a 10), (K.sum k a N).2) :=
  if_pos hN

theorem sumStep_of_not_lt (K : Kernels) (N k : Nat) (a : Arr) (hN : ¬ 10 < N) :
    sumStep K N k a = none :=
  if_neg hN

theorem repetition_of_not_lt (K : Kernels) (scalar : ℚ) (N k : Nat) (s : LoopState)
    (hN : ¬ 10 < N) : repetition K scalar N k s = none := by
  unfold repetition
  rw [sumStep_of_not_lt K N k s.a hN]

/-- With the contract kernels and `10 < N`, one repetition is defined and does to every
cell what `trackerStep` does to the trackers. -/
theorem repetition_contract (timer : Nat → Nat → ℚ) (scalar : ℚ) (N k : Nat)
    (s : LoopState) (hN : 10 < N) :
    ∃ s1, repetition (contractKernels timer) scalar N k s = some s1 ∧
      ∀ t, Uniform N s t → Uniform N s1 (trackerStep scalar t) := by
  refine ⟨_, by unfold repetition; rw [sumStep_of_lt _ N k s.a hN], ?_⟩
  intro t ht i hi
  obtain ⟨ha, hb, hc, hd⟩ := ht i hi
  simp only [contractKernels, setCell_self, pass_apply_lt _ _ _ _ hi, trackerStep, ha, hb,
    hc, hd]
  simp

theorem timingLoop_contract (timer : Nat → Nat → ℚ) (N : Nat) (s0 : LoopState)
    (hN : 10 < N) (h0 : Uniform N s0 trackerInit) (n : Nat) :
    ∃ s, timingLoop (contractKernels timer) 3.0 N n s0 = some s ∧
      Uniform N s (trackers n) := by
  induction n with
  | zero => exact ⟨s0, rfl, h0⟩
  | succ n ih =>
    obtain ⟨s, hs, hu⟩ := ih
    obtain ⟨s1, hs1, hstep⟩ := repetition_contract timer 3.0 N n s hN
    exact ⟨s1, by simp [timingLoop, hs, hs1], hstep _ hu⟩

theorem initArrays_uniform (N : Nat) (u : LoopState) :
    Uniform N (initArrays N u) trackerInit := by
  intro i hi
  simp [initArrays, trackerInit, hi]

theorem runKernels_contract (timer : Nat → Nat → ℚ) (N n : Nat) (u : LoopState)
    (hN : N ≤ INT_MAX) (h : n = 0 ∨ 10 < N) :
    ∃ s, runKernels (contractKernels timer) N n u = some s ∧ Uniform N s (trackers n) := by
  unfold runKernels
  rw [if_pos hN]
  rcases h with h | h
  · subst h
    exact ⟨_, rfl, initArrays_uniform N u⟩
  · exact timingLoop_contract timer N _ h (initArrays_uniform N u) n

theorem trackers_ten :
    trackers 10 = { aj := 3145727, bj := 3, cj := 786431, dj := 1 } := by
  norm_num [trackers, trackerStep, trackerInit]

/-! ## The summation loop and the comparison of `check` -/

theorem observed_foldl_uniform (a b c d : Arr) (N : Nat) (t : Trackers)
    (h : ∀ i, i < N → a i = t.aj ∧ b i = t.bj ∧ c i = t.cj ∧ d i = t.dj) (n : Nat)
    (hn : n ≤ N) :
    (List.range n).foldl
      (fun s i =>
        ({ asum := s.asum + a i, bsum := s.bsum + b i, csum := s.csum + c i,
           dsum := s.dsum + d i } : Sums))
      { asum := 0.0, bsum := 0.0, csum := 0.0, dsum := 0.0 }
    = { asum := t.aj * n, bsum := t.bj * n, csum := t.cj * n, dsum := t.dj * n } := by
  induction n with
  | zero => norm_num
  | succ n ih =>
    obtain ⟨ha, hb, hc, hd⟩ := h n (by omega)
    rw [List.range_succ, List.foldl_append, ih (by omega)]
    simp only [List.foldl_cons, List.foldl_nil, ha, hb, hc, hd]
    push_cast
    congr 1 <;> ring

/-- On buffers whose first `N` cells all hold the tracker values, the summation loop of
`check` yields the tracker values times `N`. -/
theorem observed_uniform (a b c d : Arr) (N : Nat) (t : Trackers)
    (h : ∀ i, i < N → a i = t.aj ∧ b i = t.bj ∧ c i = t.cj ∧ d i = t.dj) :
    observed a b c d (N : Int) =
      { asum := t.aj * N, bsum := t.bj * N, csum := t.cj * N, dsum := t.dj * N } := by
  unfold observed
  rw [Int.toNat_ofNat]
  exact observed_foldl_uniform a b c d N t h N le_rfl

theorem ABS_eq_abs (x : ℚ) : ABS x = |x| := by
  unfold ABS
  split
  · next h => exact (abs_of_nonneg h).symm
  · next h => exact (abs_of_neg (not_le.mp h)).symm

theorem epsilon_eq : epsilon = 1 / 10 ^ 8 := by
  norm_num [epsilon]

/-- The condition computed by `check` is the relative-error test of the specification. -/
theorem exceeds_iff (e o : ℚ) : exceeds e o = true ↔ relativeErrorExceeds e o := by
  unfold exceeds relativeErrorExceeds fdiv
  rw [ABS_eq_abs, epsilon_eq]
  by_cases ho : o = 0
  · subst ho
    by_cases he : e = 0
    · subst he
      simp [DivResult.gt]
    · have hpos : 0 < |e - 0| := by simpa using he
      simp [DivResult.gt, hpos, he]
  · simp [DivResult.gt, ho]

theorem decide_relativeErrorExceeds (e o : ℚ) :
    decide (relativeErrorExceeds e o) = exceeds e o := by
  rw [Bool.eq_iff_iff, decide_eq_true_iff, exceeds_iff]

theorem exceeds_self (e : ℚ) : exceeds e e = false := by
  rw [← decide_relativeErrorExceeds]
  unfold relativeErrorExceeds
  by_cases h : e = 0
  · simp [h]
  · simp [h]

theorem compare_eq_find (e : Trackers) (o : Sums) :
    compare e o =
      match (comparisons e o).find? (fun x => decide (relativeErrorExceeds x.2.1 x.2.2)) with
      | some x => [.failedValidation x.1, .expectedValue x.2.1, .observedValue x.2.2]
      | none => [.solutionValidates] := by
  simp only [compare, comparisons, List.find?, decide_relativeErrorExceeds]
  cases exceeds e.aj o.asum <;> cases exceeds e.bj o.bsum <;> cases exceeds e.cj o.csum <;>
    cases exceeds e.dj o.dsum <;> rfl

theorem compare_failures_le_one (e : Trackers) (o : Sums) :
    ((compare e o).filter Line.isFailure).length ≤ 1 := by
  unfold compare
  split_ifs <;> simp [Line.isFailure]

theorem compare_validates_iff (e : Trackers) (o : Sums) :
    Line.solutionValidates ∈ compare e o ↔
      ∀ x ∈ comparisons e o, ¬ relativeErrorExceeds x.2.1 x.2.2 := by
  simp only [comparisons, List.mem_cons, List.mem_singleton, forall_eq_or_imp, forall_eq,
    ← exceeds_iff, List.not_mem_nil, false_imp_iff, implies_true, and_true]
  unfold compare
  split_ifs <;> simp_all

/-- The lines of `check` on sums that equal the expected values. -/
theorem compare_exact (e : Trackers) :
    compare e { asum := e.aj, bsum := e.bj, csum := e.cj, dsum := e.dj } =
      [.solutionValidates] := by
  simp [compare, exceeds_self]

/-! ## The aggregation loops, kernel by kernel -/

theorem setCell_same (x : Arr) (i : Nat) (v : ℚ) : setCell x i v i = v := by
  simp [setCell]

theorem setCell_other (x : Arr) (i j : Nat) (v : ℚ) (h : j ≠ i) : setCell x i v j = x j := by
  simp [setCell, h]

theorem inner_self (times : Nat → Nat → ℚ) (j : Nat) (l : List Nat) (s : Stats) :
    (l.foldl (fun s k => accumulate times j k s) s).avgtime j =
        (l.map (times j)).foldl (· + ·) (s.avgtime j) ∧
    (l.foldl (fun s k => accumulate times j k s) s).mintime j =
        (l.map (times j)).foldl MIN (s.mintime j) ∧
    (l.foldl (fun s k => accumulate times j k s) s).maxtime j =
        (l.map (times j)).foldl MAX (s.maxtime j) := by
  induction l generalizing s with
  | nil => exact ⟨rfl, rfl, rfl⟩
  | cons k l ih =>
    simp only [List.foldl_cons, List.map_cons]
    have := ih (accumulate times j k s)
    simpa only [accumulate, setCell_same] using this

theorem inner_other (times : Nat → Nat → ℚ) (j i : Nat) (h : i ≠ j) (l : List Nat)
    (s : Stats) :
    (l.foldl (fun s k => accumulate times j k s) s).avgtime i = s.avgtime i ∧
    (l.foldl (fun s k => accumulate times j k s) s).mintime i = s.mintime i ∧
    (l.foldl (fun s k => accumulate times j k s) s).maxtime i = s.maxtime i := by
  induction l generalizing s with
  | nil => exact ⟨rfl, rfl, rfl⟩
  | cons k l ih =>
    simp only [List.foldl_cons]
    have := ih (accumulate times j k s)
    simpa only [accumulate, setCell_other _ _ _ _ h] using this

theorem outer_fold (times : Nat → Nat → ℚ) (l : List Nat) (js : List Nat) (hnd : js.Nodup)
    (j : Nat) (hj : j ∈ js) (s : Stats) :
    (js.foldl (fun s j => l.foldl (fun s k => accumulate times j k s) s) s).avgtime j =
        (l.map (times j)).foldl (· + ·) (s.avgtime j) ∧
    (js.foldl (fun s j => l.foldl (fun s k => accumulate times j k s) s) s).mintime j =
        (l.map (times j)).foldl MIN (s.mintime j) ∧
    (js.foldl (fun s j => l.foldl (fun s k => accumulate times j k s) s) s).maxtime j =
        (l.map (times j)).foldl MAX (s.maxtime j) := by
  induction js generalizing s with
  | nil => simp at hj
  | cons j0 js ih =>
    simp only [List.foldl_cons]
    have hnd0 := List.nodup_cons.mp hnd
    by_cases h : j = j0
    · subst h
      have hnot : j ∉ js := hnd0.1
      have key : ∀ (t : Stats),
          (js.foldl (fun s j => l.foldl (fun s k => accumulate times j k s) s) t).avgtime j
            = t.avgtime j ∧
          (js.foldl (fun s j => l.foldl (fun s k => accumulate times j k s) s) t).mintime j
            = t.mintime j ∧
          (js.foldl (fun s j => l.foldl (fun s k => accumulate times j k s) s) t).maxtime j
            = t.maxtime j := by
        intro t
        clear ih hnd hnd0 hj
        induction js generalizing t with
        | nil => exact ⟨rfl, rfl, rfl⟩
        | cons j1 js ih1 =>
          simp only [List.foldl_cons]
          have hne : j ≠ j1 := fun h => hnot (h ▸ List.mem_cons_self _ _)
          have h1 := ih1 (fun h => hnot (List.mem_cons_of_mem _ h))
            (l.foldl (fun s k => accumulate times j1 k s) t)
          have h2 := inner_other times j1 j hne l t
          exact ⟨h1.1.trans h2.1, h1.2.1.trans h2.2.1, h1.2.2.trans h2.2.2⟩
      have h1 := key (l.foldl (fun s k => accumulate times j k s) s)
      have h2 := inner_self times j l s
      exact ⟨h1.1.trans h2.1, h1.2.1.trans h2.2.1, h1.2.2.trans h2.2.2⟩
    · have hj1 : j ∈ js := by
        rcases List.mem_cons.mp hj with h1 | h1
        · exact absurd h1 h
        · exact h1
      have h1 := ih hnd0.2 hj1 (l.foldl (fun s k => accumulate times j0 k s) s)
      have h2 := inner_other times j0 j h l s
      rw [h2.1, h2.2.1, h2.2.2] at h1
      exact h1

theorem aggregate_at (ntimes : Nat) (times : Nat → Nat → ℚ) (s : Stats) (j : Nat)
    (hj : j < NUMBENCH) :
    (aggregate ntimes times s).avgtime j =
        (timings ntimes times j).foldl (· + ·) (s.avgtime j) ∧
    (aggregate ntimes times s).mintime j = (timings ntimes times j).foldl MIN (s.mintime j) ∧
    (aggregate ntimes times s).maxtime j = (timings ntimes times j).foldl MAX (s.maxtime j) :=
  outer_fold times _ _ (List.nodup_range _) j (List.mem_range.mpr hj) s

theorem initStats_at (u : Stats) (j : Nat) (hj : j < NUMBENCH) :
    (initStats u).avgtime j = 0 ∧ (initStats u).mintime j = FLT_MAX ∧
      (initStats u).maxtime j = 0 := by
  unfold NUMBENCH at hj
  unfold initStats NUMBENCH
  simp only [List.range_succ, List.range_zero, List.nil_append, List.cons_append,
    List.foldl_cons, List.foldl_nil]
  interval_cases j <;> simp [setCell]

theorem MIN_eq_min (x y : ℚ) : MIN x y = min x y := by
  unfold MIN
  split
  · next h => exact (min_eq_left h.le).symm
  · next h => exact (min_eq_right (not_lt.mp h)).symm

theorem MAX_eq_max (x y : ℚ) : MAX x y = max x y := by
  unfold MAX
  split
  · next h => exact (max_eq_left (le_of_lt h)).symm
  · next h => exact (max_eq_right (not_lt.mp h)).symm

theorem foldl_add_eq (l : List ℚ) (m : ℚ) : l.foldl (· + ·) m = m + l.sum := by
  induction l generalizing m with
  | nil => simp
  | cons x l ih => simp [ih, add_assoc]

theorem foldl_MIN_le_init (l : List ℚ) (m : ℚ) : l.foldl MIN m ≤ m := by
  induction l generalizing m with
  | nil => exact le_rfl
  | cons x l ih =>
    simp only [List.foldl_cons]
    exact (ih _).trans (by rw [MIN_eq_min]; exact min_le_left _ _)

theorem foldl_MIN_le_mem (l : List ℚ) (m x : ℚ) (hx : x ∈ l) : l.foldl MIN m ≤ x := by
  induction l generalizing m with
  | nil => simp at hx
  | cons y l ih =>
    simp only [List.foldl_cons]
    rcases List.mem_cons.mp hx with h | h
    · subst h
      exact (foldl_MIN_le_init l _).trans (by rw [MIN_eq_min]; exact min_le_right _ _)
    · exact ih _ h

theorem foldl_MIN_mem (l : List ℚ) (m : ℚ) : l.foldl MIN m = m ∨ l.foldl MIN m ∈ l := by
  induction l generalizing m with
  | nil => exact Or.inl rfl
  | cons y l ih =>
    simp only [List.foldl_cons]
    rcases ih (MIN m y) with h | h
    · rw [h, MIN_eq_min]
      rcases min_choice m y with h1 | h1
      · exact Or.inl h1
      · exact Or.inr (by rw [h1]; exact List.mem_cons_self _ _)
    · exact Or.inr (List.mem_cons_of_mem _ h)

theorem foldl_MAX_ge_init (l : List ℚ) (m : ℚ) : m ≤ l.foldl MAX m := by
  induction l generalizing m with
  | nil => exact le_rfl
  | cons x l ih =>
    simp only [List.foldl_cons]
    exact le_trans (by rw [MAX_eq_max]; exact le_max_left _ _) (ih _)

theorem foldl_MAX_ge_mem (l : List ℚ) (m x : ℚ) (hx : x ∈ l) : x ≤ l.foldl MAX m := by
  induction l generalizing m with
  | nil => simp at hx
  | cons y l ih =>
    simp only [List.foldl_cons]
    rcases List.mem_cons.mp hx with h | h
    · subst h
      exact le_trans (by rw [MAX_eq_max]; exact le_max_right _ _) (foldl_MAX_ge_init l _)
    · exact ih _ h

theorem mem_timings (ntimes : Nat) (times : Nat → Nat → ℚ) (j : Nat) (x : ℚ) :
    x ∈ timings ntimes times j ↔ ∃ k, 1 ≤ k ∧ k < ntimes ∧ times j k = x := by
  unfold timings
  simp only [List.mem_map, List.mem_range'_1]
  constructor
  · rintro ⟨k, ⟨h1, h2⟩, rfl⟩
    exact ⟨k, h1, by omega, rfl⟩
  · rintro ⟨k, h1, h2, rfl⟩
    exact ⟨k, ⟨h1, by omega⟩, rfl⟩

theorem length_timings (ntimes : Nat) (times : Nat → Nat → ℚ) (j : Nat) :
    (timings ntimes times j).length = ntimes - 1 := by
  simp [timings]

theorem timings_congr (ntimes : Nat) (t1 t2 : Nat → Nat → ℚ) (j : Nat)
    (h : ∀ k, 1 ≤ k → k < ntimes → t1 j k = t2 j k) :
    timings ntimes t1 j = timings ntimes t2 j := by
  unfold timings
  apply List.map_congr_left
  intro k hk
  rw [List.mem_range'_1] at hk
  exact h k hk.1 (by omega)

/-- The statistics of kernel `j` after initialisation and aggregation, as folds over its
non-warm-up timings. -/
theorem aggregate_initStats (ntimes : Nat) (times : Nat → Nat → ℚ) (v : Stats) (j : Nat)
    (hj : j < NUMBENCH) :
    (aggregate ntimes times (initStats v)).avgtime j = (timings ntimes times j).sum ∧
    (aggregate ntimes times (initStats v)).mintime j =
      (timings ntimes times j).foldl MIN FLT_MAX ∧
    (aggregate ntimes times (initStats v)).maxtime j =
      (timings ntimes times j).foldl MAX 0 := by
  obtain ⟨h1, h2, h3⟩ := aggregate_at ntimes times (initStats v) j hj
  obtain ⟨i1, i2, i3⟩ := initStats_at v j hj
  rw [h1, h2, h3, i1, i2, i3, foldl_add_eq, zero_add]
  exact ⟨rfl, rfl, rfl⟩

theorem int_pred_cast (n : Nat) : ((((n : Int) - 1 : Int)) : ℚ) = (n : ℚ) - 1 := by
  push_cast
  ring

theorem timings_example (x : ℚ) (j : Nat) :
    timings 4 (fun _ k => [x, 1, 2, 3].getD k 0) j = [1, 2, 3] := by
  simp [timings, List.range']

theorem bytes_no_overflow (N : Nat) (h : 4 * sizeofDouble * N < 2 ^ 64) :
    bytes N = [1, 1, 2, 2, 3, 3, 4, 4].map (fun m : Nat => ((N * sizeofDouble * m : Nat) : ℚ)) := by
  unfold sizeofDouble at h
  norm_num at h
  have e1 : mulSizeT (mulSizeT 1 sizeofDouble) N = N * sizeofDouble * 1 := by
    unfold mulSizeT sizeofDouble
    norm_num
    rw [Nat.mod_eq_of_lt (by omega)]
    ring
  have e2 : mulSizeT (mulSizeT 2 sizeofDouble) N = N * sizeofDouble * 2 := by
    unfold mulSizeT sizeofDouble
    norm_num
    rw [Nat.mod_eq_of_lt (by omega)]
    ring
  have e3 : mulSizeT (mulSizeT 3 sizeofDouble) N = N * sizeofDouble * 3 := by
    unfold mulSizeT sizeofDouble
    norm_num
    rw [Nat.mod_eq_of_lt (by omega)]
    ring
  have e4 : mulSizeT (mulSizeT 4 sizeofDouble) N = N * sizeofDouble * 4 := by
    unfold mulSizeT sizeofDouble
    norm_num
    rw [Nat.mod_eq_of_lt (by omega)]
    ring
  simp only [bytes, e1, e2, e3, e4, List.map_cons, List.map_nil]

theorem main_eq_some (K : Kernels) (N n : Nat) (u : LoopState) (v : Stats) (out : Output)
    (h : main K N n u v = some out) :
    ∃ s, runKernels K N n u = some s ∧
      out = { table := report N n (aggregate n s.times (initStats v))
              validation := check n s.a s.b s.c s.d (N : Int)
              status := EXIT_SUCCESS } := by
  unfold main at h
  cases hr : runKernels K N n u with
  | none => simp [hr] at h
  | some s =>
    simp only [hr, Option.some.injEq] at h
    exact ⟨s, rfl, h.symm⟩

theorem main_of_runKernels (K : Kernels) (N n : Nat) (u : LoopState) (v : Stats)
    (s : LoopState) (h : runKernels K N n u = some s) :
    main K N n u v =
      some { table := report N n (aggregate n s.times (initStats v))
             validation := check n s.a s.b s.c s.d (N : Int)
             status := EXIT_SUCCESS } := by
  simp only [main, h]

theorem timingLoop_defined (K : Kernels) (scalar : ℚ) (N : Nat) (hN : 10 < N) (n : Nat)
    (s0 : LoopState) : ∃ s, timingLoop K scalar N n s0 = some s := by
  induction n with
  | zero => exact ⟨s0, rfl⟩
  | succ n ih =>
    obtain ⟨s, hs⟩ := ih
    exact ⟨_, by
      simp only [timingLoop, hs, Option.some_bind]
      unfold repetition
      rw [sumStep_of_lt _ N n s.a hN]⟩

theorem runKernels_defined (K : Kernels) (N n : Nat) (u : LoopState) (hN : N ≤ INT_MAX)
    (h : n = 0 ∨ 10 < N) : ∃ s, runKernels K N n u = some s := by
  unfold runKernels
  rw [if_pos hN]
  rcases h with h | h
  · subst h
    exact ⟨_, rfl⟩
  · exact timingLoop_defined K 3.0 N h n _

theorem idle_repetition (scalar : ℚ) (N k : Nat) (s : LoopState) (hN : 10 < N) :
    ∃ s1, repetition idleKernels scalar N k s = some s1 ∧
      s1.a = s.a ∧ s1.b = s.b ∧ s1.c = s.c ∧ s1.d = s.d := by
  refine ⟨_, by unfold repetition; rw [sumStep_of_lt _ N k s.a hN], ?_, ?_, ?_, ?_⟩ <;>
    simp only [idleKernels, setCell_self]

theorem idle_run : ∃ s, runKernels idleKernels 11 1 zeroState = some s ∧
    Uniform 11 s trackerInit := by
  obtain ⟨s1, h1, ha, hb, hc, hd⟩ :=
    idle_repetition 3.0 11 0 (initArrays 11 zeroState) (by decide)
  refine ⟨s1, ?_, ?_⟩
  · unfold runKernels
    rw [if_pos (by decide)]
    simp only [timingLoop, Option.some_bind]
    exact h1
  · intro i hi
    rw [ha, hb, hc, hd]
    exact initArrays_uniform 11 zeroState i hi

theorem observed_negative_example :
    observed (fun _ => -1) (fun _ => 3) (fun _ => 786431) (fun _ => 1) 5 =
      { asum := -5, bsum := 15, csum := 3932155, dsum := 5 } := by
  have h := observed_uniform (fun _ => -1) (fun _ => 3) (fun _ => 786431) (fun _ => 1) 5
    { aj := -1, bj := 3, cj := 786431, dj := 1 } (fun _ _ => ⟨rfl, rfl, rfl, rfl⟩)
  norm_num at h
  exact h

theorem observed_exact_example :
    observed (fun _ => 3145727) (fun _ => 3) (fun _ => 786431) (fun _ => 1) 5 =
      { asum := (expected 10 5).aj, bsum := (expected 10 5).bj, csum := (expected 10 5).cj,
        dsum := (expected 10 5).dj } := by
  have h := observed_uniform (fun _ => 3145727) (fun _ => 3) (fun _ => 786431) (fun _ => 1)
    5 { aj := 3145727, bj := 3, cj := 786431, dj := 1 } (fun _ _ => ⟨rfl, rfl, rfl, rfl⟩)
  simp only [expected, trackers_ten]
  norm_num at h ⊢
  exact h

/-! ## The loop body as a sequence of statements, and its log -/

/-- The body of the timing loop is its eight statements in the order of `order`. -/
theorem repetition_eq_steps (K : Kernels) (scalar : ℚ) (N k : Nat) (s : LoopState) :
    repetition K scalar N k s = steps K scalar N k order s := by
  by_cases hN : 10 < N
  · simp only [repetition, order, steps, step, sumStep_of_lt K N k _ hN, Option.some_bind]
  · rw [repetition_of_not_lt K scalar N k s hN]
    simp only [order, steps, step, sumStep_of_not_lt K N k _ hN, Option.some_bind,
      Option.none_bind]

theorem idx_injective (i j : benchmark) (h : i.idx = j.idx) : i = j := by
  cases i <;> cases j <;> first | rfl | (simp [benchmark.idx] at h)

theorem order_nodup : order.Nodup := by
  decide

theorem mem_order (j : benchmark) : j ∈ order := by
  cases j <;> decide

theorem step_times (K : Kernels) (scalar : ℚ) (N k : Nat) (j : benchmark) (s : LoopState)
    (hN : 10 < N) :
    ∃ s1, step K scalar N k j s = some s1 ∧
      s1.times = setTime s.times j.idx k (returned K scalar N k j s) := by
  cases j <;> simp only [step, returned, sumStep_of_lt K N k _ hN] <;> exact ⟨_, rfl, rfl⟩

theorem stepsLog_fst (K : Kernels) (scalar : ℚ) (N k : Nat) (js : List benchmark)
    (s : LoopState) (log : List Event) :
    (stepsLog K scalar N k js (s, log)).map Prod.fst = steps K scalar N k js s := by
  induction js generalizing s log with
  | nil => rfl
  | cons j js ih =>
    simp only [stepsLog, steps]
    cases step K scalar N k j s with
    | none => rfl
    | some s1 => simpa only [Option.some_bind] using ih s1 _

theorem timingLoopLog_fst (K : Kernels) (scalar : ℚ) (N n : Nat) (s : LoopState)
    (log : List Event) :
    (timingLoopLog K scalar N n (s, log)).map Prod.fst = timingLoop K scalar N n s := by
  induction n with
  | zero => rfl
  | succ n ih =>
    simp only [timingLoopLog, timingLoop]
    rw [← ih]
    cases timingLoopLog K scalar N n (s, log) with
    | none => rfl
    | some p =>
      simp only [Option.some_bind, Option.map_some']
      rw [repetition_eq_steps]
      exact stepsLog_fst K scalar N n order p.1 p.2

theorem setTime_same (times : Nat → Nat → ℚ) (j k : Nat) (v : ℚ) :
    setTime times j k v j k = v := by
  simp [setTime]

theorem setTime_other (times : Nat → Nat → ℚ) (j k j1 k1 : Nat) (v : ℚ)
    (h : ¬ (j1 = j ∧ k1 = k)) : setTime times j k v j1 k1 = times j1 k1 := by
  simp only [setTime, if_neg h]

theorem recorded_step (s0 s s1 : LoopState) (log : List Event) (j : benchmark) (k : Nat)
    (v : ℚ) (hrec : Recorded s0 s log) (hfresh : ∀ e ∈ log, e.rep = k → e.kernel ≠ j)
    (ht : s1.times = setTime s.times j.idx k v) :
    Recorded s0 s1 (log ++ [⟨j, k, v⟩]) := by
  obtain ⟨h1, h2⟩ := hrec
  constructor
  · intro e he
    rcases List.mem_append.mp he with he | he
    · rw [ht, setTime_other, h1 e he]
      rintro ⟨hi, hk⟩
      exact hfresh e he hk (idx_injective _ _ hi)
    · rw [List.mem_singleton.mp he, ht]
      exact setTime_same _ _ _ _
  · intro j1 k1 hno
    have hne : ¬ (j1 = j.idx ∧ k1 = k) := by
      rintro ⟨rfl, rfl⟩
      exact hno ⟨j, k1, v⟩ (List.mem_append.mpr (Or.inr (List.mem_singleton_self _))) ⟨rfl, rfl⟩
    rw [ht, setTime_other _ _ _ _ _ _ hne]
    exact h2 j1 k1 (fun e he => hno e (List.mem_append.mpr (Or.inl he)))

theorem stepsLog_spec (K : Kernels) (scalar : ℚ) (N k : Nat) (hN : 10 < N) (s0 : LoopState)
    (js : List benchmark) (hnd : js.Nodup) (s : LoopState) (log : List Event)
    (hfresh : ∀ e ∈ log, e.rep = k → e.kernel ∉ js) (hrec : Recorded s0 s log) :
    ∃ s1 log1, stepsLog K scalar N k js (s, log) = some (s1, log1) ∧ Recorded s0 s1 log1 ∧
      log1.map (fun e => (e.rep, e.kernel)) =
        log.map (fun e => (e.rep, e.kernel)) ++ js.map (fun j => (k, j)) := by
  induction js generalizing s log with
  | nil => exact ⟨s, log, rfl, hrec, by simp⟩
  | cons j js ih =>
    obtain ⟨s1, hs1, ht⟩ := step_times K scalar N k j s hN
    have hnd1 := List.nodup_cons.mp hnd
    have hrec1 := recorded_step s0 s s1 log j k (returned K scalar N k j s) hrec
      (fun e he hk h => hfresh e he hk (h ▸ List.mem_cons_self _ _)) ht
    have hfresh1 : ∀ e ∈ log ++ [(⟨j, k, returned K scalar N k j s⟩ : Event)],
        e.rep = k → e.kernel ∉ js := by
      intro e he hk
      rcases List.mem_append.mp he with he | he
      · exact fun h => hfresh e he hk (List.mem_cons_of_mem _ h)
      · rw [List.mem_singleton.mp he]
        exact hnd1.1
    obtain ⟨s2, log2, h2, hrec2, hkeys⟩ := ih hnd1.2 s1 _ hfresh1 hrec1
    refine ⟨s2, log2, ?_, hrec2, ?_⟩
    · simp only [stepsLog, hs1, Option.some_bind]
      exact h2
    · rw [hkeys]
      simp

theorem product_range_succ (n : Nat) (l : List benchmark) :
    List.range (n + 1) ×ˢ l = List.range n ×ˢ l ++ l.map (fun j => (n, j)) := by
  simp [List.range_succ, SProd.sprod, List.product, List.flatMap_append]

theorem timingLoopLog_spec (K : Kernels) (scalar : ℚ) (N : Nat) (hN : 10 < N)
    (s0 : LoopState) (n : Nat) :
    ∃ s log, timingLoopLog K scalar N n (s0, []) = some (s, log) ∧ Recorded s0 s log ∧
      log.map (fun e => (e.rep, e.kernel)) = List.range n ×ˢ order := by
  induction n with
  | zero =>
    refine ⟨s0, [], rfl, ⟨?_, fun _ _ _ => rfl⟩, by simp⟩
    intro e he
    simp at he
  | succ n ih =>
    obtain ⟨s, log, hs, hrec, hkeys⟩ := ih
    have hfresh : ∀ e ∈ log, e.rep = n → e.kernel ∉ order := by
      intro e he hk
      have hmem : (e.rep, e.kernel) ∈ List.range n ×ˢ order := by
        rw [← hkeys]
        exact List.mem_map.mpr ⟨e, he, rfl⟩
      have := (List.mem_product.mp hmem).1
      rw [List.mem_range, hk] at this
      exact absurd this (lt_irrefl n)
    obtain ⟨s1, log1, h1, hrec1, hkeys1⟩ :=
      stepsLog_spec K scalar N n hN s0 order order_nodup s log hfresh hrec
    refine ⟨s1, log1, ?_, hrec1, ?_⟩
    · simp only [timingLoopLog, hs, Option.some_bind]
      exact h1
    · rw [hkeys1, hkeys, product_range_succ]

/-! ## Positivity of the aggregated minimum -/

theorem FLT_MAX_pos : 0 < FLT_MAX := by
  norm_num [FLT_MAX]

theorem foldl_MIN_pos (l : List ℚ) (h : ∀ x ∈ l, 0 < x) : 0 < l.foldl MIN FLT_MAX := by
  rcases foldl_MIN_mem l FLT_MAX with h1 | h1
  · rw [h1]
    exact FLT_MAX_pos
  · exact h _ h1

theorem foldl_MIN_isMinimum (ntimes : Nat) (times : Nat → Nat → ℚ) (j : Nat)
    (h : ∃ k, 1 ≤ k ∧ k < ntimes ∧ times j k ≤ FLT_MAX) :
    IsMinimumOf ((timings ntimes times j).foldl MIN FLT_MAX) ntimes (times j) := by
  obtain ⟨k, hk1, hk2, hk⟩ := h
  constructor
  · rcases foldl_MIN_mem (timings ntimes times j) FLT_MAX with h | h
    · exact ⟨k, hk1, hk2, le_antisymm (hk.trans (le_of_eq h.symm))
        (foldl_MIN_le_mem _ _ _ ((mem_timings _ _ _ _).mpr ⟨k, hk1, hk2, rfl⟩))⟩
    · exact (mem_timings _ _ _ _).mp h
  · intro k1 h1 h2
    exact foldl_MIN_le_mem _ _ _ ((mem_timings _ _ _ _).mpr ⟨k1, h1, h2, rfl⟩)

theorem filter_key_length_one {α β : Type} [DecidableEq β] (f : α → β) (l : List α)
    (hnd : (l.map f).Nodup) (b : β) (hb : b ∈ l.map f) :
    (l.filter (fun a => decide (f a = b))).length = 1 := by
  induction l with
  | nil => simp at hb
  | cons a l ih =>
    rw [List.map_cons, List.nodup_cons] at hnd
    by_cases hab : f a = b
    · have hnil : l.filter (fun a => decide (f a = b)) = [] := by
        rw [List.filter_eq_nil_iff]
        intro x hx hfx
        exact hnd.1 (by rw [hab, ← of_decide_eq_true hfx]; exact List.mem_map_of_mem f hx)
      simp [List.filter_cons, hab, hnil]
    · have hb1 : b ∈ l.map f := by
        rcases List.mem_cons.mp hb with h | h
        · exact absurd h.symm hab
        · exact h
      simp [List.filter_cons, hab, ih hnd.2 hb1]

/-! ## Properties of the rounding -/

theorem roundHalfEven_intCast (m : ℤ) : roundHalfEven (m : ℚ) = m := by
  simp [roundHalfEven]

theorem floor_le_roundHalfEven (x : ℚ) : ⌊x⌋ ≤ roundHalfEven x := by
  unfold roundHalfEven
  split_ifs <;> omega

theorem roundHalfEven_le_floor_succ (x : ℚ) : roundHalfEven x ≤ ⌊x⌋ + 1 := by
  unfold roundHalfEven
  split_ifs <;> omega

theorem roundHalfEven_sub_le (x : ℚ) : (roundHalfEven x : ℚ) - x ≤ 1 / 2 := by
  have h1 := Int.floor_le x
  have h2 := Int.lt_floor_add_one x
  unfold roundHalfEven
  split_ifs with h3 h4 h5
  · linarith
  · push_cast
    linarith
  · linarith
  · push_cast
    linarith

theorem sub_roundHalfEven_le (x : ℚ) : x - (roundHalfEven x : ℚ) ≤ 1 / 2 := by
  have h1 := Int.floor_le x
  have h2 := Int.lt_floor_add_one x
  unfold roundHalfEven
  split_ifs with h3 h4 h5
  · linarith
  · push_cast
    linarith
  · linarith
  · push_cast
    linarith

theorem roundHalfEven_mono {x y : ℚ} (h : x ≤ y) : roundHalfEven x ≤ roundHalfEven y := by
  have hfl : ⌊x⌋ ≤ ⌊y⌋ := Int.floor_le_floor h
  rcases lt_or_eq_of_le hfl with hlt | heq
  · exact (roundHalfEven_le_floor_succ x).trans (le_trans (by omega) (floor_le_roundHalfEven y))
  · unfold roundHalfEven
    rw [← heq]
    split_ifs <;> first | omega | (exfalso; linarith)

theorem ulp_pos (e : ℤ) : (0 : ℚ) < 2 ^ e := by
  positivity

theorem roundDouble_of_pos {q : ℚ} (hq : 0 < q) :
    roundDouble q =
      roundHalfEven (q / 2 ^ (Int.log 2 q - 52)) * 2 ^ (Int.log 2 q - 52) := by
  unfold roundDouble
  rw [if_neg (ne_of_gt hq), abs_of_pos hq]

theorem log_eq_of_bounds {q : ℚ} {e : ℤ} (h1 : (2 : ℚ) ^ e ≤ q) (h2 : q < 2 ^ (e + 1)) :
    Int.log 2 q = e := by
  have hq : 0 < q := lt_of_lt_of_le (ulp_pos e) h1
  apply le_antisymm
  · have := (Int.lt_zpow_iff_log_lt (b := 2) (by norm_num) hq).mp (by exact_mod_cast h2)
    omega
  · exact (Int.zpow_le_iff_le_log (b := 2) (by norm_num) hq).mp (by exact_mod_cast h1)

theorem roundDouble_of_bounds {q : ℚ} {e : ℤ} (h1 : (2 : ℚ) ^ e ≤ q) (h2 : q < 2 ^ (e + 1)) :
    roundDouble q = roundHalfEven (q / 2 ^ (e - 52)) * 2 ^ (e - 52) := by
  have hq : 0 < q := lt_of_lt_of_le (ulp_pos e) h1
  rw [roundDouble_of_pos hq, log_eq_of_bounds h1 h2]

theorem log_bounds {q : ℚ} (hq : 0 < q) :
    (2 : ℚ) ^ Int.log 2 q ≤ q ∧ q < 2 ^ (Int.log 2 q + 1) := by
  constructor
  · exact_mod_cast Int.zpow_log_le_self (b := 2) (by norm_num) hq
  · exact_mod_cast Int.lt_zpow_succ_log_self (b := 2) (by norm_num) q

theorem zpow_split (e : ℤ) :
    (2 : ℚ) ^ e = 2 ^ 52 * 2 ^ (e - 52) ∧ (2 : ℚ) ^ (e + 1) = 2 ^ 53 * 2 ^ (e - 52) := by
  constructor
  · rw [← zpow_natCast, ← zpow_add₀ (by norm_num : (2 : ℚ) ≠ 0)]
    congr 1
    push_cast
    ring
  · rw [← zpow_natCast, ← zpow_add₀ (by norm_num : (2 : ℚ) ≠ 0)]
    congr 1
    push_cast
    ring

/-- The scaled value of a positive `q` lies in `[2 ^ 52, 2 ^ 53)`. -/
theorem scaled_bounds {q : ℚ} {e : ℤ} (h1 : (2 : ℚ) ^ e ≤ q) (h2 : q < 2 ^ (e + 1)) :
    (2 : ℚ) ^ 52 ≤ q / 2 ^ (e - 52) ∧ q / 2 ^ (e - 52) < 2 ^ 53 := by
  have hu := ulp_pos (e - 52)
  obtain ⟨s1, s2⟩ := zpow_split e
  constructor
  · rw [le_div_iff₀ hu, ← s1]
    exact h1
  · rw [div_lt_iff₀ hu, ← s2]
    exact h2

theorem roundHalfEven_scaled_bounds {z : ℚ} (h1 : (2 : ℚ) ^ 52 ≤ z) (h2 : z < 2 ^ 53) :
    (2 : ℤ) ^ 52 ≤ roundHalfEven z ∧ roundHalfEven z ≤ 2 ^ 53 := by
  constructor
  · have := roundHalfEven_mono (x := (((2 : ℤ) ^ 52 : ℤ) : ℚ)) (y := z) (by push_cast; exact h1)
    rwa [roundHalfEven_intCast] at this
  · have := roundHalfEven_mono (x := z) (y := (((2 : ℤ) ^ 53 : ℤ) : ℚ)) (by push_cast; exact h2.le)
    rwa [roundHalfEven_intCast] at this

/-- A positive number rounds into the closed binade it lies in. -/
theorem roundDouble_binade {q : ℚ} {e : ℤ} (h1 : (2 : ℚ) ^ e ≤ q) (h2 : q < 2 ^ (e + 1)) :
    (2 : ℚ) ^ e ≤ roundDouble q ∧ roundDouble q ≤ 2 ^ (e + 1) := by
  have hu := ulp_pos (e - 52)
  obtain ⟨s1, s2⟩ := zpow_split e
  obtain ⟨z1, z2⟩ := scaled_bounds h1 h2
  obtain ⟨r1, r2⟩ := roundHalfEven_scaled_bounds z1 z2
  rw [roundDouble_of_bounds h1 h2, s1, s2]
  constructor
  · apply mul_le_mul_of_nonneg_right _ hu.le
    exact_mod_cast r1
  · apply mul_le_mul_of_nonneg_right _ hu.le
    exact_mod_cast r2

theorem roundDouble_zero : roundDouble 0 = 0 := by
  simp [roundDouble]

theorem roundDouble_pos {q : ℚ} (hq : 0 < q) : 0 < roundDouble q := by
  obtain ⟨h1, h2⟩ := log_bounds hq
  exact lt_of_lt_of_le (ulp_pos _) (roundDouble_binade h1 h2).1

theorem roundDouble_nonneg {q : ℚ} (hq : 0 ≤ q) : 0 ≤ roundDouble q := by
  rcases eq_or_lt_of_le hq with h | h
  · rw [← h, roundDouble_zero]
  · exact (roundDouble_pos h).le

/-- Rounding is monotone on the non-negative numbers. -/
theorem roundDouble_mono {x y : ℚ} (hx : 0 ≤ x) (h : x ≤ y) : roundDouble x ≤ roundDouble y := by
  rcases eq_or_lt_of_le hx with h0 | hpos
  · rw [← h0, roundDouble_zero]
    exact roundDouble_nonneg (hx.trans h)
  · have hy : 0 < y := lt_of_lt_of_le hpos h
    obtain ⟨x1, x2⟩ := log_bounds hpos
    obtain ⟨y1, y2⟩ := log_bounds hy
    have hlog : Int.log 2 x ≤ Int.log 2 y := Int.log_mono_right hpos h
    rcases lt_or_eq_of_le hlog with hlt | heq
    · calc roundDouble x ≤ 2 ^ (Int.log 2 x + 1) := (roundDouble_binade x1 x2).2
        _ ≤ 2 ^ Int.log 2 y := zpow_le_zpow_right₀ (by norm_num) (by omega)
        _ ≤ roundDouble y := (roundDouble_binade y1 y2).1
    · rw [roundDouble_of_pos hpos, roundDouble_of_pos hy, heq]
      apply mul_le_mul_of_nonneg_right _ (ulp_pos _).le
      exact_mod_cast roundHalfEven_mono (div_le_div_of_nonneg_right h (ulp_pos _).le)

/-- Rounding changes a non-negative number by at most the relative error `2 ^ (-53)`. -/
theorem roundDouble_rel {q : ℚ} (hq : 0 ≤ q) :
    q * (1 - 1 / 2 ^ 53) ≤ roundDouble q ∧ roundDouble q ≤ q * (1 + 1 / 2 ^ 53) := by
  rcases eq_or_lt_of_le hq with h0 | hpos
  · rw [← h0, roundDouble_zero]
    simp
  · obtain ⟨h1, h2⟩ := log_bounds hpos
    have hu := ulp_pos (Int.log 2 q - 52)
    obtain ⟨s1, -⟩ := zpow_split (Int.log 2 q)
    rw [s1] at h1
    have e1 := roundHalfEven_sub_le (q / 2 ^ (Int.log 2 q - 52))
    have e2 := sub_roundHalfEven_le (q / 2 ^ (Int.log 2 q - 52))
    rw [roundDouble_of_pos hpos]
    have hq' : q / 2 ^ (Int.log 2 q - 52) * 2 ^ (Int.log 2 q - 52) = q :=
      div_mul_cancel₀ q (ne_of_gt hu)
    constructor
    · have := mul_le_mul_of_nonneg_right e2 hu.le
      rw [sub_mul, hq'] at this
      nlinarith
    · have := mul_le_mul_of_nonneg_right e1 hu.le
      rw [sub_mul, hq'] at this
      nlinarith

/-- A number with at most 53 significant bits is a double: rounding leaves it alone. -/
theorem roundDouble_dyadic (m k : ℤ) (h0 : 0 ≤ m) (hm : m < 2 ^ 53) :
    roundDouble ((m : ℚ) * 2 ^ k) = (m : ℚ) * 2 ^ k := by
  rcases eq_or_lt_of_le h0 with hz | hpos
  · rw [← hz]
    simp [roundDouble_zero]
  · have hk := ulp_pos k
    have hq : (0 : ℚ) < (m : ℚ) * 2 ^ k := mul_pos (by exact_mod_cast hpos) hk
    obtain ⟨l1, -⟩ := log_bounds hq
    have hlt : (2 : ℚ) ^ Int.log 2 ((m : ℚ) * 2 ^ k) < 2 ^ (53 + k) := by
      calc (2 : ℚ) ^ Int.log 2 ((m : ℚ) * 2 ^ k) ≤ (m : ℚ) * 2 ^ k := l1
        _ < 2 ^ 53 * 2 ^ k := mul_lt_mul_of_pos_right (by exact_mod_cast hm) hk
        _ = 2 ^ (53 + k) := by
            rw [← zpow_natCast, ← zpow_add₀ (by norm_num : (2 : ℚ) ≠ 0)]
            rfl
    have he : Int.log 2 ((m : ℚ) * 2 ^ k) < 53 + k :=
      (zpow_lt_zpow_iff_right₀ (by norm_num : (1 : ℚ) < 2)).mp hlt
    obtain ⟨n, hn⟩ : ∃ n : ℕ, (n : ℤ) = k - (Int.log 2 ((m : ℚ) * 2 ^ k) - 52) :=
      ⟨(k - (Int.log 2 ((m : ℚ) * 2 ^ k) - 52)).toNat, Int.toNat_of_nonneg (by omega)⟩
    have hu := ulp_pos (Int.log 2 ((m : ℚ) * 2 ^ k) - 52)
    have hsplit : (2 : ℚ) ^ k = 2 ^ n * 2 ^ (Int.log 2 ((m : ℚ) * 2 ^ k) - 52) := by
      rw [← zpow_natCast, ← zpow_add₀ (by norm_num : (2 : ℚ) ≠ 0), hn]
      congr 1
      ring
    have hz : (m : ℚ) * 2 ^ k / 2 ^ (Int.log 2 ((m : ℚ) * 2 ^ k) - 52) =
        ((m * 2 ^ n : ℤ) : ℚ) := by
      rw [div_eq_iff (ne_of_gt hu)]
      push_cast
      rw [mul_assoc, ← hsplit]
    rw [roundDouble_of_pos hq, hz, roundHalfEven_intCast]
    push_cast
    rw [mul_assoc, ← hsplit]

theorem roundDouble_natCast (n : ℕ) (h : n < 2 ^ 53) : roundDouble (n : ℚ) = n := by
  have := roundDouble_dyadic (n : ℤ) 0 (by positivity) (by exact_mod_cast h)
  simpa using this

theorem roundHalfEven_down {z : ℚ} (f : ℤ) (h1 : (f : ℚ) ≤ z) (h2 : z < f + 1 / 2) :
    roundHalfEven z = f := by
  have hf : ⌊z⌋ = f := Int.floor_eq_iff.mpr ⟨h1, by linarith⟩
  unfold roundHalfEven
  rw [hf, if_pos (by linarith)]

theorem roundHalfEven_up {z : ℚ} (f : ℤ) (h1 : (f : ℚ) + 1 / 2 < z) (h2 : z < f + 1) :
    roundHalfEven z = f + 1 := by
  have hf : ⌊z⌋ = f := Int.floor_eq_iff.mpr ⟨by linarith, h2⟩
  unfold roundHalfEven
  rw [hf, if_neg (by linarith), if_pos (by linarith)]

theorem roundHalfEven_tie_even {z : ℚ} (f : ℤ) (hz : z = f + 1 / 2) (hf : f % 2 = 0) :
    roundHalfEven z = f := by
  have hfl : ⌊z⌋ = f := Int.floor_eq_iff.mpr ⟨by linarith, by linarith⟩
  unfold roundHalfEven
  rw [hfl, if_neg (by linarith), if_neg (by linarith), if_pos hf]

theorem roundHalfEven_tie_odd {z : ℚ} (f : ℤ) (hz : z = f + 1 / 2) (hf : f % 2 = 1) :
    roundHalfEven z = f + 1 := by
  have hfl : ⌊z⌋ = f := Int.floor_eq_iff.mpr ⟨by linarith, by linarith⟩
  unfold roundHalfEven
  rw [hfl, if_neg (by linarith), if_neg (by linarith), if_neg (by omega)]

/-- Rounding of a positive number from its binade and the rounded scaled value. -/
theorem roundDouble_cert {q : ℚ} (e r : ℤ) (h1 : (2 : ℚ) ^ e ≤ q) (h2 : q < 2 ^ (e + 1))
    (hr : roundHalfEven (q / 2 ^ (e - 52)) = r) :
    roundDouble q = (r : ℚ) * 2 ^ (e - 52) := by
  rw [roundDouble_of_bounds h1 h2, hr]

theorem roundHalfEven_neg (x : ℚ) : roundHalfEven (-x) = -roundHalfEven x := by
  have h1 := Int.floor_le x
  have h2 := Int.lt_floor_add_one x
  rcases lt_trichotomy (x - ⌊x⌋) (1 / 2) with h | h | h
  · rcases eq_or_lt_of_le h1 with h0 | h0
    · rw [← h0, ← Int.cast_neg, roundHalfEven_intCast, roundHalfEven_intCast]
    · have e1 := @roundHalfEven_down x ⌊x⌋ h1 (by linarith)
      have e2 := @roundHalfEven_up (-x) (-⌊x⌋ - 1) (by push_cast; linarith)
        (by push_cast; linarith)
      rw [e1, e2]
      ring
  · rcases Int.emod_two_eq_zero_or_one ⌊x⌋ with he | ho
    · have e1 := @roundHalfEven_tie_even x ⌊x⌋ (by linarith) he
      have e2 := @roundHalfEven_tie_odd (-x) (-⌊x⌋ - 1) (by push_cast; linarith) (by omega)
      rw [e1, e2]
      ring
    · have e1 := @roundHalfEven_tie_odd x ⌊x⌋ (by linarith) ho
      have e2 := @roundHalfEven_tie_even (-x) (-⌊x⌋ - 1) (by push_cast; linarith) (by omega)
      rw [e1, e2]
      ring
  · have e1 := @roundHalfEven_up x ⌊x⌋ (by linarith) h2
    have e2 := @roundHalfEven_down (-x) (-⌊x⌋ - 1) (by push_cast; linarith)
      (by push_cast; linarith)
    rw [e1, e2]
    ring

/-- Rounding commutes with the change of sign. -/
theorem roundDouble_neg (q : ℚ) : roundDouble (-q) = -roundDouble q := by
  unfold roundDouble
  by_cases h : q = 0
  · simp [h]
  · rw [if_neg h, if_neg (neg_ne_zero.mpr h), abs_neg, neg_div, roundHalfEven_neg]
    push_cast
    ring

/-- An integer of magnitude below `2 ^ 53` is a double. -/
theorem roundDouble_intCast (m : ℤ) (h : |m| < 2 ^ 53) : roundDouble (m : ℚ) = m := by
  rcases le_total 0 m with h0 | h0
  · have := roundDouble_dyadic m 0 h0 (by rwa [abs_of_nonneg h0] at h)
    simpa using this
  · have := roundDouble_dyadic (-m) 0 (by omega) (by rwa [abs_of_nonpos h0] at h)
    simp only [zpow_zero, mul_one, Int.cast_neg] at this
    rw [roundDouble_neg] at this
    exact neg_injective this

/-- The result of a rounding is a double: rounding it again changes nothing. -/
theorem roundDouble_idempotent {q : ℚ} (hq : 0 ≤ q) :
    roundDouble (roundDouble q) = roundDouble q := by
  rcases eq_or_lt_of_le hq with h0 | hpos
  · rw [← h0, roundDouble_zero, roundDouble_zero]
  · obtain ⟨l1, l2⟩ := log_bounds hpos
    obtain ⟨z1, z2⟩ := scaled_bounds l1 l2
    obtain ⟨b1, b2⟩ := roundHalfEven_scaled_bounds z1 z2
    rw [roundDouble_of_pos hpos]
    rcases lt_or_eq_of_le b2 with hlt | heq
    · exact roundDouble_dyadic _ _ (by linarith [pow_pos (by norm_num : (0 : ℤ) < 2) 52]) hlt
    · rw [heq]
      have e : (((2 : ℤ) ^ 53 : ℤ) : ℚ) * 2 ^ (Int.log 2 q - 52) =
          ((1 : ℤ) : ℚ) * 2 ^ (Int.log 2 q + 1) := by
        rw [(zpow_split (Int.log 2 q)).2]
        push_cast
        ring
      rw [e]
      exact roundDouble_dyadic 1 _ (by norm_num) (by norm_num)

/-! ## The recurrence of `check` in rounded arithmetic -/

/-- A natural number below `2 ^ 53` is a double. -/
theorem roundDouble_eq_nat {q : ℚ} (n : ℕ) (hq : q = n) (h : n < 2 ^ 53) :
    roundDouble q = n := by
  rw [hq]
  exact roundDouble_natCast n h

/-- One iteration of the loop of `check` on integer trackers is exact as long as the new
value of `aj` stays below `2 ^ 53`. -/
theorem trackerStepD_exact (A : ℕ) (hA : 4 * A + 3 < 2 ^ 53) (t : Trackers)
    (ha : t.aj = A) (hd : t.dj = 1) :
    trackerStepD 3.0 t = { aj := ((4 * A + 3 : ℕ) : ℚ), bj := 3, cj := A, dj := 1 } := by
  have h3 : (3.0 : ℚ) = 3 := by norm_num
  unfold trackerStepD
  simp only [ha, hd, h3]
  have e1 : roundDouble ((A : ℚ) * 1) = A := roundDouble_eq_nat A (by ring) (by omega)
  have e2 : roundDouble ((3 : ℚ) * A) = ((3 * A : ℕ) : ℚ) :=
    roundDouble_eq_nat (3 * A) (by push_cast; ring) (by omega)
  have e3 : roundDouble ((3 : ℚ) + A) = ((3 + A : ℕ) : ℚ) :=
    roundDouble_eq_nat (3 + A) (by push_cast; ring) (by omega)
  have e4 : roundDouble ((((3 + A : ℕ) : ℚ)) + ((3 * A : ℕ) : ℚ)) = ((4 * A + 3 : ℕ) : ℚ) :=
    roundDouble_eq_nat (4 * A + 3) (by push_cast; ring) hA
  rw [e1, e2, e3, e4]

theorem trackersD_one : trackersD 1 = { aj := 11, bj := 3, cj := 2, dj := 1 } := by
  have h := trackerStepD_exact 2 (by norm_num) trackerInit (by norm_num [trackerInit])
    (by norm_num [trackerInit])
  have e : trackersD 1 = trackerStepD 3.0 trackerInit := rfl
  rw [e, h]
  norm_num

/-- Up to 25 iterations the rounded recurrence is exact. -/
theorem trackersD_closed (k : Nat) (hk : k + 1 ≤ 25) :
    trackersD (k + 1) =
      { aj := ((3 * 4 ^ (k + 1) - 1 : ℕ) : ℚ), bj := 3, cj := ((3 * 4 ^ k - 1 : ℕ) : ℚ),
        dj := 1 } := by
  induction k with
  | zero =>
    rw [trackersD_one]
    norm_num
  | succ k ih =>
    have hp : 4 ^ (k + 1 + 1) ≤ 4 ^ 25 := Nat.pow_le_pow_right (by norm_num) hk
    have hs : 4 ^ (k + 1 + 1) = 4 * 4 ^ (k + 1) := by ring
    have h1 : 1 ≤ 4 ^ (k + 1) := Nat.one_le_pow _ _ (by norm_num)
    norm_num at hp
    have hb : 4 * (3 * 4 ^ (k + 1) - 1) + 3 < 2 ^ 53 := by
      norm_num
      omega
    have e : trackersD (k + 1 + 1) = trackerStepD 3.0 (trackersD (k + 1)) := rfl
    rw [e, trackerStepD_exact (3 * 4 ^ (k + 1) - 1) hb _ (by rw [ih (by omega)])
      (by rw [ih (by omega)])]
    have hn : 4 * (3 * 4 ^ (k + 1) - 1) + 3 = 3 * 4 ^ (k + 1 + 1) - 1 := by omega
    rw [hn]

theorem trackersD_aj (k : Nat) (hk : k ≤ 25) : (trackersD k).aj = 3 * 4 ^ k - 1 := by
  rcases k with _ | k
  · norm_num [trackersD, trackerInit]
  · rw [trackersD_closed k hk]
    have h1 : 1 ≤ 3 * 4 ^ (k + 1) := by
      have : 1 ≤ 4 ^ (k + 1) := Nat.one_le_pow _ _ (by norm_num)
      omega
    push_cast [Nat.cast_sub h1]
    ring

theorem trackersD_bj (k : Nat) : (trackersD (k + 1)).bj = 3 := by
  show (3.0 : ℚ) = 3
  norm_num

theorem trackersD_dj (k : Nat) : (trackersD k).dj = 1 := by
  induction k with
  | zero => norm_num [trackersD, trackerInit]
  | succ k ih => exact ih

theorem trackersD_cj (k : Nat) : (trackersD (k + 1)).cj = (trackersD k).aj := rfl

theorem trackersD_ten :
    trackersD 10 = { aj := 3145727, bj := 3, cj := 786431, dj := 1 } := by
  rw [trackersD_closed 9 (by norm_num)]
  norm_num

/-- The 26th iteration rounds: `3 * aj` is `10133099161583613`, an odd number above
`2 ^ 53`, and becomes `10133099161583612`. -/
theorem trackersD_twentysix : (trackersD 26).aj = 13510798882111486 := by
  have e : trackersD 26 = trackerStepD 3.0 (trackersD 25) := rfl
  have h3 : (3.0 : ℚ) = 3 := by norm_num
  rw [e, trackersD_closed 24 (by norm_num)]
  unfold trackerStepD
  simp only [h3]
  norm_num
  have e1 : roundDouble 10133099161583613 = 10133099161583612 := by
    rw [roundDouble_cert 53 5066549580791806 (by norm_num) (by norm_num)
      (roundHalfEven_tie_even 5066549580791806 (by norm_num) (by norm_num))]
    norm_num
  have e2 : roundDouble 3377699720527871 = 3377699720527871 :=
    roundDouble_eq_nat 3377699720527871 (by norm_num) (by norm_num)
  have e3 : roundDouble 3377699720527874 = 3377699720527874 :=
    roundDouble_eq_nat 3377699720527874 (by norm_num) (by norm_num)
  have e4 : roundDouble 13510798882111486 = 13510798882111486 := by
    have := roundDouble_dyadic 6755399441055743 1 (by norm_num) (by norm_num)
    norm_num at this
    exact this
  rw [e1, e2]
  norm_num
  rw [e3]
  norm_num
  exact e4

theorem expectedD_ten (N : Int) (h1 : -2147483648 ≤ N) (h2 : N ≤ INT_MAX) :
    expectedD NTIMES N = { aj := 3145727 * N, bj := 3 * N, cj := 786431 * N, dj := N } := by
  have h : trackersD NTIMES = { aj := 3145727, bj := 3, cj := 786431, dj := 1 } :=
    trackersD_ten
  have hb : |N| ≤ 2147483648 := by
    rw [abs_le]
    unfold INT_MAX at h2
    constructor <;> omega
  have hr : ∀ m : ℤ, |m| ≤ 3145727 → roundDouble ((m : ℚ) * N) = m * N := by
    intro m hm
    have := roundDouble_intCast (m * N) (by
      rw [abs_mul]
      calc |m| * |N| ≤ 3145727 * 2147483648 :=
            mul_le_mul hm hb (abs_nonneg _) (by norm_num)
        _ < 2 ^ 53 := by norm_num)
    push_cast at this
    exact this
  simp only [expectedD, h]
  have a1 := hr 3145727 (by norm_num)
  have a2 := hr 3 (by norm_num)
  have a3 := hr 786431 (by norm_num)
  have a4 := hr 1 (by norm_num)
  norm_num at a1 a2 a3 a4
  rw [a1, a2, a3, one_mul, a4]

/-! ## The aggregation loops in rounded arithmetic -/

theorem inner_selfD (times : Nat → Nat → ℚ) (j : Nat) (l : List Nat) (s : Stats) :
    (l.foldl (fun s k => accumulateD times j k s) s).avgtime j =
        (l.map (times j)).foldl (fun s t => roundDouble (s + t)) (s.avgtime j) ∧
    (l.foldl (fun s k => accumulateD times j k s) s).mintime j =
        (l.map (times j)).foldl MIN (s.mintime j) ∧
    (l.foldl (fun s k => accumulateD times j k s) s).maxtime j =
        (l.map (times j)).foldl MAX (s.maxtime j) := by
  induction l generalizing s with
  | nil => exact ⟨rfl, rfl, rfl⟩
  | cons k l ih =>
    simp only [List.foldl_cons, List.map_cons]
    have := ih (accumulateD times j k s)
    simpa only [accumulateD, setCell_same] using this

theorem inner_otherD (times : Nat → Nat → ℚ) (j i : Nat) (h : i ≠ j) (l : List Nat)
    (s : Stats) :
    (l.foldl (fun s k => accumulateD times j k s) s).avgtime i = s.avgtime i ∧
    (l.foldl (fun s k => accumulateD times j k s) s).mintime i = s.mintime i ∧
    (l.foldl (fun s k => accumulateD times j k s) s).maxtime i = s.maxtime i := by
  induction l generalizing s with
  | nil => exact ⟨rfl, rfl, rfl⟩
  | cons k l ih =>
    simp only [List.foldl_cons]
    have := ih (accumulateD times j k s)
    simpa only [accumulateD, setCell_other _ _ _ _ h] using this

theorem outer_foldD (times : Nat → Nat → ℚ) (l : List Nat) (js : List Nat) (hnd : js.Nodup)
    (j : Nat) (hj : j ∈ js) (s : Stats) :
    (js.foldl (fun s j => l.foldl (fun s k => accumulateD times j k s) s) s).avgtime j =
        (l.map (times j)).foldl (fun s t => roundDouble (s + t)) (s.avgtime j) ∧
    (js.foldl (fun s j => l.foldl (fun s k => accumulateD times j k s) s) s).mintime j =
        (l.map (times j)).foldl MIN (s.mintime j) ∧
    (js.foldl (fun s j => l.foldl (fun s k => accumulateD times j k s) s) s).maxtime j =
        (l.map (times j)).foldl MAX (s.maxtime j) := by
  induction js generalizing s with
  | nil => simp at hj
  | cons j0 js ih =>
    simp only [List.foldl_cons]
    have hnd0 := List.nodup_cons.mp hnd
    by_cases h : j = j0
    · subst h
      have hnot : j ∉ js := hnd0.1
      have key : ∀ (t : Stats),
          (js.foldl (fun s j => l.foldl (fun s k => accumulateD times j k s) s) t).avgtime j
            = t.avgtime j ∧
          (js.foldl (fun s j => l.foldl (fun s k => accumulateD times j k s) s) t).mintime j
            = t.mintime j ∧
          (js.foldl (fun s j => l.foldl (fun s k => accumulateD times j k s) s) t).maxtime j
            = t.maxtime j := by
        intro t
        clear ih hnd hnd0 hj
        induction js generalizing t with
        | nil => exact ⟨rfl, rfl, rfl⟩
        | cons j1 js ih1 =>
          simp only [List.foldl_cons]
          have hne : j ≠ j1 := fun h => hnot (h ▸ List.mem_cons_self _ _)
          have h1 := ih1 (fun h => hnot (List.mem_cons_of_mem _ h))
            (l.foldl (fun s k => accumulateD times j1 k s) t)
          have h2 := inner_otherD times j1 j hne l t
          exact ⟨h1.1.trans h2.1, h1.2.1.trans h2.2.1, h1.2.2.trans h2.2.2⟩
      have h1 := key (l.foldl (fun s k => accumulateD times j k s) s)
      have h2 := inner_selfD times j l s
      exact ⟨h1.1.trans h2.1, h1.2.1.trans h2.2.1, h1.2.2.trans h2.2.2⟩
    · have hj1 : j ∈ js := by
        rcases List.mem_cons.mp hj with h1 | h1
        · exact absurd h1 h
        · exact h1
      have h1 := ih hnd0.2 hj1 (l.foldl (fun s k => accumulateD times j0 k s) s)
      have h2 := inner_otherD times j0 j h l s
      rw [h2.1, h2.2.1, h2.2.2] at h1
      exact h1

theorem aggregateD_at (ntimes : Nat) (times : Nat → Nat → ℚ) (s : Stats) (j : Nat)
    (hj : j < NUMBENCH) :
    (aggregateD ntimes times s).avgtime j =
        (timings ntimes times j).foldl (fun s t => roundDouble (s + t)) (s.avgtime j) ∧
    (aggregateD ntimes times s).mintime j = (timings ntimes times j).foldl MIN (s.mintime j) ∧
    (aggregateD ntimes times s).maxtime j = (timings ntimes times j).foldl MAX (s.maxtime j) :=
  outer_foldD times _ _ (List.nodup_range _) j (List.mem_range.mpr hj) s

/-- The statistics of kernel `j` after initialisation and rounded aggregation, as folds
over its non-warm-up timings. -/
theorem aggregateD_initStats (ntimes : Nat) (times : Nat → Nat → ℚ) (v : Stats) (j : Nat)
    (hj : j < NUMBENCH) :
    (aggregateD ntimes times (initStats v)).avgtime j =
      (timings ntimes times j).foldl (fun s t => roundDouble (s + t)) 0 ∧
    (aggregateD ntimes times (initStats v)).mintime j =
      (timings ntimes times j).foldl MIN FLT_MAX ∧
    (aggregateD ntimes times (initStats v)).maxtime j =
      (timings ntimes times j).foldl MAX 0 := by
  obtain ⟨h1, h2, h3⟩ := aggregateD_at ntimes times (initStats v) j hj
  obtain ⟨i1, i2, i3⟩ := initStats_at v j hj
  rw [h1, h2, h3, i1, i2, i3]
  exact ⟨rfl, rfl, rfl⟩

/-- The rounded accumulation of non-negative numbers stays within the relative error
`2 ^ (-53)` per addition of the exact sum. -/
theorem foldl_roundDouble_bounds (l : List ℚ) (m : ℚ) (hm : 0 ≤ m) (hl : ∀ x ∈ l, 0 ≤ x) :
    0 ≤ l.foldl (fun s t => roundDouble (s + t)) m ∧
    (m + l.sum) * (1 - 1 / 2 ^ 53) ^ l.length ≤ l.foldl (fun s t => roundDouble (s + t)) m ∧
    l.foldl (fun s t => roundDouble (s + t)) m ≤ (m + l.sum) * (1 + 1 / 2 ^ 53) ^ l.length := by
  induction l generalizing m with
  | nil => simp [hm]
  | cons x l ih =>
    have hx : 0 ≤ x := hl x (List.mem_cons_self _ _)
    have hl1 : ∀ y ∈ l, 0 ≤ y := fun y hy => hl y (List.mem_cons_of_mem _ hy)
    have hs : 0 ≤ l.sum := List.sum_nonneg hl1
    have hmx : 0 ≤ m + x := add_nonneg hm hx
    obtain ⟨r1, r2⟩ := roundDouble_rel hmx
    obtain ⟨i0, i1, i2⟩ := ih (roundDouble (m + x)) (roundDouble_nonneg hmx) hl1
    have hd1 : (0 : ℚ) ≤ 1 - 1 / 2 ^ 53 := by norm_num
    have hd2 : (1 : ℚ) - 1 / 2 ^ 53 ≤ 1 := by norm_num
    have hu1 : (1 : ℚ) ≤ 1 + 1 / 2 ^ 53 := by norm_num
    have hp1 : (0 : ℚ) ≤ (1 - 1 / 2 ^ 53) ^ l.length := pow_nonneg hd1 _
    have hp2 : (0 : ℚ) ≤ (1 + 1 / 2 ^ 53) ^ l.length := pow_nonneg (by norm_num) _
    simp only [List.foldl_cons, List.sum_cons, List.length_cons]
    refine ⟨i0, le_trans ?_ i1, le_trans i2 ?_⟩
    · rw [pow_succ (1 - 1 / 2 ^ 53) l.length, ← mul_assoc, mul_right_comm]
      apply mul_le_mul_of_nonneg_right _ hp1
      nlinarith
    · rw [pow_succ (1 + 1 / 2 ^ 53) l.length, ← mul_assoc, mul_right_comm]
      apply mul_le_mul_of_nonneg_right _ hp2
      nlinarith

theorem length_timings_cast (ntimes : Nat) (times : Nat → Nat → ℚ) (j : Nat)
    (hn : 1 ≤ ntimes) : ((timings ntimes times j).length : ℚ) = (ntimes : ℚ) - 1 := by
  rw [length_timings]
  push_cast [Nat.cast_sub hn]
  ring

/-- The printed average in rounded arithmetic lies between the aggregated minimum and
maximum up to the relative error of the `ntimes - 1` additions and the division. -/
theorem average_bounds (ntimes : Nat) (times : Nat → Nat → ℚ) (j : Nat) (hn : 2 ≤ ntimes)
    (hnonneg : ∀ k, 1 ≤ k → k < ntimes → 0 ≤ times j k) :
    (timings ntimes times j).foldl MIN FLT_MAX * (1 - 1 / 2 ^ 53) ^ ntimes ≤
      roundDouble ((timings ntimes times j).foldl (fun s t => roundDouble (s + t)) 0 /
        ((ntimes : ℚ) - 1)) ∧
    roundDouble ((timings ntimes times j).foldl (fun s t => roundDouble (s + t)) 0 /
        ((ntimes : ℚ) - 1)) ≤
      (timings ntimes times j).foldl MAX 0 * (1 + 1 / 2 ^ 53) ^ ntimes := by
  have hpos : (0 : ℚ) < (ntimes : ℚ) - 1 := by
    have : (2 : ℚ) ≤ (ntimes : ℚ) := by exact_mod_cast hn
    linarith
  have hlen := length_timings_cast ntimes times j (by omega)
  have hlen1 : (timings ntimes times j).length = ntimes - 1 := length_timings _ _ _
  have hl : ∀ x ∈ timings ntimes times j, 0 ≤ x := by
    intro x hx
    obtain ⟨k, h1, h2, rfl⟩ := (mem_timings _ _ _ _).mp hx
    exact hnonneg k h1 h2
  obtain ⟨b0, b1, b2⟩ := foldl_roundDouble_bounds (timings ntimes times j) 0 le_rfl hl
  rw [zero_add, hlen1] at b1 b2
  have hlow := List.card_nsmul_le_sum (timings ntimes times j)
    ((timings ntimes times j).foldl MIN FLT_MAX) (fun x hx => foldl_MIN_le_mem _ _ x hx)
  have hhigh := List.sum_le_card_nsmul (timings ntimes times j)
    ((timings ntimes times j).foldl MAX 0) (fun x hx => foldl_MAX_ge_mem _ _ x hx)
  rw [nsmul_eq_mul, hlen] at hlow hhigh
  have hq : 0 ≤ (timings ntimes times j).foldl (fun s t => roundDouble (s + t)) 0 /
      ((ntimes : ℚ) - 1) := div_nonneg b0 hpos.le
  obtain ⟨r1, r2⟩ := roundDouble_rel hq
  have hd1 : (0 : ℚ) ≤ 1 - 1 / 2 ^ 53 := by norm_num
  have hu1 : (0 : ℚ) ≤ 1 + 1 / 2 ^ 53 := by norm_num
  have hp1 : (0 : ℚ) ≤ (1 - 1 / 2 ^ 53) ^ (ntimes - 1) := pow_nonneg hd1 _
  have hp2 : (0 : ℚ) ≤ (1 + 1 / 2 ^ 53) ^ (ntimes - 1) := pow_nonneg hu1 _
  have hsplit : ∀ x : ℚ, x ^ ntimes = x ^ (ntimes - 1) * x := fun x => by
    rw [← pow_succ, Nat.sub_add_cancel (by omega)]
  constructor
  · refine le_trans ?_ r1
    have h1 : (timings ntimes times j).foldl MIN FLT_MAX * (1 - 1 / 2 ^ 53) ^ (ntimes - 1) ≤
        (timings ntimes times j).foldl (fun s t => roundDouble (s + t)) 0 /
          ((ntimes : ℚ) - 1) := by
      rw [le_div_iff₀ hpos]
      refine le_trans ?_ b1
      rw [mul_right_comm]
      exact mul_le_mul_of_nonneg_right (by linarith) hp1
    calc (timings ntimes times j).foldl MIN FLT_MAX * (1 - 1 / 2 ^ 53) ^ ntimes
        = (timings ntimes times j).foldl MIN FLT_MAX * (1 - 1 / 2 ^ 53) ^ (ntimes - 1) *
            (1 - 1 / 2 ^ 53) := by
          rw [hsplit (1 - 1 / 2 ^ 53), mul_assoc]
      _ ≤ _ := mul_le_mul_of_nonneg_right h1 hd1
  · refine le_trans r2 ?_
    have h1 : (timings ntimes times j).foldl (fun s t => roundDouble (s + t)) 0 /
          ((ntimes : ℚ) - 1) ≤
        (timings ntimes times j).foldl MAX 0 * (1 + 1 / 2 ^ 53) ^ (ntimes - 1) := by
      rw [div_le_iff₀ hpos]
      refine le_trans b2 ?_
      rw [mul_right_comm]
      exact mul_le_mul_of_nonneg_right (by linarith) hp2
    calc _ ≤ (timings ntimes times j).foldl MAX 0 * (1 + 1 / 2 ^ 53) ^ (ntimes - 1) *
            (1 + 1 / 2 ^ 53) := mul_le_mul_of_nonneg_right h1 hu1
      _ = (timings ntimes times j).foldl MAX 0 * (1 + 1 / 2 ^ 53) ^ ntimes := by
          rw [hsplit (1 + 1 / 2 ^ 53), mul_assoc]

/-- With at least one non-warm-up repetition the aggregated minimum is at most the
aggregated maximum. -/
theorem foldl_MIN_le_foldl_MAX (ntimes : Nat) (times : Nat → Nat → ℚ) (j : Nat)
    (hn : 2 ≤ ntimes) :
    (timings ntimes times j).foldl MIN FLT_MAX ≤ (timings ntimes times j).foldl MAX 0 := by
  have hm : times j 1 ∈ timings ntimes times j :=
    (mem_timings _ _ _ _).mpr ⟨1, le_rfl, by omega, rfl⟩
  exact (foldl_MIN_le_mem _ _ _ hm).trans (foldl_MAX_ge_mem _ _ _ hm)

theorem bytesD_getD_nonneg (N j : Nat) : 0 ≤ (bytesD N).getD j 0 := by
  unfold bytesD bytes
  rcases j with _ | _ | _ | _ | _ | _ | _ | _ | j <;> simp <;>
    exact roundDouble_nonneg (by positivity)

/-- The numerator `1.0E-06 * bytes[j]` of the printed rate is not negative. -/
theorem rate_numerator_nonneg (N j : Nat) :
    0 ≤ roundDouble (roundDouble 1.0e-6 * (bytesD N).getD j 0) :=
  roundDouble_nonneg (mul_nonneg (roundDouble_nonneg (by norm_num)) (bytesD_getD_nonneg N j))

/-! ## Nine equal timings in rounded arithmetic -/

theorem tenth_sum_1 :
    roundDouble (0 + 3602879701896397 / 36028797018963968) =
      3602879701896397 / 36028797018963968 := by
  rw [roundDouble_cert (-4) 7205759403792794 (by norm_num) (by norm_num)
    (roundHalfEven_down 7205759403792794 (by norm_num) (by norm_num))]
  norm_num

theorem tenth_sum_2 :
    roundDouble (3602879701896397 / 36028797018963968 + 3602879701896397 / 36028797018963968) =
      3602879701896397 / 18014398509481984 := by
  rw [roundDouble_cert (-3) 7205759403792794 (by norm_num) (by norm_num)
    (roundHalfEven_down 7205759403792794 (by norm_num) (by norm_num))]
  norm_num

theorem tenth_sum_3 :
    roundDouble (3602879701896397 / 18014398509481984 + 3602879701896397 / 36028797018963968) =
      1351079888211149 / 4503599627370496 := by
  rw [roundDouble_cert (-2) 5404319552844596 (by norm_num) (by norm_num)
    (roundHalfEven_tie_odd 5404319552844595 (by norm_num) (by norm_num))]
  norm_num

theorem tenth_sum_4 :
    roundDouble (1351079888211149 / 4503599627370496 + 3602879701896397 / 36028797018963968) =
      3602879701896397 / 9007199254740992 := by
  rw [roundDouble_cert (-2) 7205759403792794 (by norm_num) (by norm_num)
    (roundHalfEven_tie_even 7205759403792794 (by norm_num) (by norm_num))]
  norm_num

theorem tenth_sum_5 :
    roundDouble (3602879701896397 / 9007199254740992 + 3602879701896397 / 36028797018963968) =
      1 / 2 := by
  rw [roundDouble_cert (-1) 4503599627370496 (by norm_num) (by norm_num)
    (roundHalfEven_down 4503599627370496 (by norm_num) (by norm_num))]
  norm_num

theorem tenth_sum_6 :
    roundDouble (1 / 2 + 3602879701896397 / 36028797018963968) =
      5404319552844595 / 9007199254740992 := by
  rw [roundDouble_cert (-1) 5404319552844595 (by norm_num) (by norm_num)
    (roundHalfEven_down 5404319552844595 (by norm_num) (by norm_num))]
  norm_num

theorem tenth_sum_7 :
    roundDouble (5404319552844595 / 9007199254740992 + 3602879701896397 / 36028797018963968) =
      3152519739159347 / 4503599627370496 := by
  rw [roundDouble_cert (-1) 6305039478318694 (by norm_num) (by norm_num)
    (roundHalfEven_down 6305039478318694 (by norm_num) (by norm_num))]
  norm_num

theorem tenth_sum_8 :
    roundDouble (3152519739159347 / 4503599627370496 + 3602879701896397 / 36028797018963968) =
      7205759403792793 / 9007199254740992 := by
  rw [roundDouble_cert (-1) 7205759403792793 (by norm_num) (by norm_num)
    (roundHalfEven_down 7205759403792793 (by norm_num) (by norm_num))]
  norm_num

theorem tenth_sum_9 :
    roundDouble (7205759403792793 / 9007199254740992 + 3602879701896397 / 36028797018963968) =
      2026619832316723 / 2251799813685248 := by
  rw [roundDouble_cert (-1) 8106479329266892 (by norm_num) (by norm_num)
    (roundHalfEven_down 8106479329266892 (by norm_num) (by norm_num))]
  norm_num

theorem tenth_avg :
    roundDouble ((2026619832316723 / 2251799813685248) / 9) =
      7205759403792793 / 72057594037927936 := by
  rw [roundDouble_cert (-4) 7205759403792793 (by norm_num) (by norm_num)
    (roundHalfEven_up 7205759403792792 (by norm_num) (by norm_num))]
  norm_num

theorem sevenTenths_sum_1 :
    roundDouble (0 + 3152519739159347 / 4503599627370496) =
      3152519739159347 / 4503599627370496 := by
  rw [roundDouble_cert (-1) 6305039478318694 (by norm_num) (by norm_num)
    (roundHalfEven_down 6305039478318694 (by norm_num) (by norm_num))]
  norm_num

theorem sevenTenths_sum_2 :
    roundDouble (3152519739159347 / 4503599627370496 + 3152519739159347 / 4503599627370496) =
      3152519739159347 / 2251799813685248 := by
  rw [roundDouble_cert 0 6305039478318694 (by norm_num) (by norm_num)
    (roundHalfEven_down 6305039478318694 (by norm_num) (by norm_num))]
  norm_num

theorem sevenTenths_sum_3 :
    roundDouble (3152519739159347 / 2251799813685248 + 3152519739159347 / 4503599627370496) =
      1182194902184755 / 562949953421312 := by
  rw [roundDouble_cert 1 4728779608739020 (by norm_num) (by norm_num)
    (roundHalfEven_tie_even 4728779608739020 (by norm_num) (by norm_num))]
  norm_num

theorem sevenTenths_sum_4 :
    roundDouble (1182194902184755 / 562949953421312 + 3152519739159347 / 4503599627370496) =
      3152519739159347 / 1125899906842624 := by
  rw [roundDouble_cert 1 6305039478318694 (by norm_num) (by norm_num)
    (roundHalfEven_tie_odd 6305039478318693 (by norm_num) (by norm_num))]
  norm_num

theorem sevenTenths_sum_5 :
    roundDouble (3152519739159347 / 1125899906842624 + 3152519739159347 / 4503599627370496) =
      7 / 2 := by
  rw [roundDouble_cert 1 7881299347898368 (by norm_num) (by norm_num)
    (roundHalfEven_tie_odd 7881299347898367 (by norm_num) (by norm_num))]
  norm_num

theorem sevenTenths_sum_6 :
    roundDouble (7 / 2 + 3152519739159347 / 4503599627370496) =
      4728779608739021 / 1125899906842624 := by
  rw [roundDouble_cert 2 4728779608739021 (by norm_num) (by norm_num)
    (roundHalfEven_up 4728779608739020 (by norm_num) (by norm_num))]
  norm_num

theorem sevenTenths_sum_7 :
    roundDouble (4728779608739021 / 1125899906842624 + 3152519739159347 / 4503599627370496) =
      2758454771764429 / 562949953421312 := by
  rw [roundDouble_cert 2 5516909543528858 (by norm_num) (by norm_num)
    (roundHalfEven_up 5516909543528857 (by norm_num) (by norm_num))]
  norm_num

theorem sevenTenths_sum_8 :
    roundDouble (2758454771764429 / 562949953421312 + 3152519739159347 / 4503599627370496) =
      6305039478318695 / 1125899906842624 := by
  rw [roundDouble_cert 2 6305039478318695 (by norm_num) (by norm_num)
    (roundHalfEven_up 6305039478318694 (by norm_num) (by norm_num))]
  norm_num

theorem sevenTenths_sum_9 :
    roundDouble (6305039478318695 / 1125899906842624 + 3152519739159347 / 4503599627370496) =
      1773292353277133 / 281474976710656 := by
  rw [roundDouble_cert 2 7093169413108532 (by norm_num) (by norm_num)
    (roundHalfEven_up 7093169413108531 (by norm_num) (by norm_num))]
  norm_num

theorem sevenTenths_avg :
    roundDouble ((1773292353277133 / 281474976710656) / 9) =
      6305039478318695 / 9007199254740992 := by
  rw [roundDouble_cert (-1) 6305039478318695 (by norm_num) (by norm_num)
    (roundHalfEven_down 6305039478318695 (by norm_num) (by norm_num))]
  norm_num

theorem micro_const :
    roundDouble (1.0e-6) =
      4722366482869645 / 4722366482869645213696 := by
  rw [roundDouble_cert (-20) 4722366482869645 (by norm_num) (by norm_num)
    (roundHalfEven_down 4722366482869645 (by norm_num) (by norm_num))]
  norm_num

theorem micro_bytes :
    roundDouble ((4722366482869645 / 4722366482869645213696) * 160000000) =
      160 := by
  rw [roundDouble_cert 7 5629499534213120 (by norm_num) (by norm_num)
    (roundHalfEven_up 5629499534213119 (by norm_num) (by norm_num))]
  norm_num

theorem rate_tenth :
    roundDouble (160 / (3602879701896397 / 36028797018963968)) =
      1600 := by
  rw [roundDouble_cert 10 7036874417766400 (by norm_num) (by norm_num)
    (roundHalfEven_up 7036874417766399 (by norm_num) (by norm_num))]
  norm_num

theorem rate_tenth_avg :
    roundDouble (160 / (7205759403792793 / 72057594037927936)) =
      7036874417766401 / 4398046511104 := by
  rw [roundDouble_cert 10 7036874417766401 (by norm_num) (by norm_num)
    (roundHalfEven_up 7036874417766400 (by norm_num) (by norm_num))]
  norm_num

theorem timings_const (x : ℚ) (j : Nat) :
    timings NTIMES (fun _ _ => x) j = [x, x, x, x, x, x, x, x, x] := by
  simp [timings, NTIMES, List.range']

/-- The decimal constant `0.1` denotes the double `tenth`. -/
theorem tenth_nearest : roundDouble 0.1 = tenth := by
  rw [roundDouble_cert (-4) 7205759403792794 (by norm_num) (by norm_num)
    (roundHalfEven_up 7205759403792793 (by norm_num) (by norm_num))]
  norm_num [tenth]

/-- The decimal constant `0.7` denotes the double `sevenTenths`. -/
theorem sevenTenths_nearest : roundDouble 0.7 = sevenTenths := by
  rw [roundDouble_cert (-1) 6305039478318694 (by norm_num) (by norm_num)
    (roundHalfEven_down 6305039478318694 (by norm_num) (by norm_num))]
  norm_num [sevenTenths]

theorem roundDouble_tenth : roundDouble tenth = tenth := by
  have h := roundDouble_dyadic 3602879701896397 (-55) (by norm_num) (by norm_num)
  norm_num at h
  unfold tenth
  exact h

theorem roundDouble_sevenTenths : roundDouble sevenTenths = sevenTenths := by
  have h := roundDouble_dyadic 3152519739159347 (-52) (by norm_num) (by norm_num)
  norm_num at h
  unfold sevenTenths
  exact h

/-- Nine timings of `0.1` accumulate to `0.8999999999999999` and average to
`0.09999999999999999`. -/
theorem tenth_average :
    fdivD ((timings NTIMES (fun _ _ => tenth) 0).foldl (fun s t => roundDouble (s + t)) 0)
        ((((NTIMES : Int) - 1 : Int)) : ℚ) =
      .finite (7205759403792793 / 72057594037927936) := by
  have h9 : ((((NTIMES : Int) - 1 : Int)) : ℚ) = 9 := by norm_num [NTIMES]
  rw [timings_const, h9]
  simp only [List.foldl_cons, List.foldl_nil, tenth]
  rw [tenth_sum_1, tenth_sum_2, tenth_sum_3, tenth_sum_4, tenth_sum_5, tenth_sum_6,
    tenth_sum_7, tenth_sum_8, tenth_sum_9]
  unfold fdivD
  rw [if_pos (by norm_num), tenth_avg]

/-- Nine timings of `0.7` accumulate to `6.300000000000001` and average to
`0.7000000000000001`. -/
theorem sevenTenths_average :
    fdivD
        ((timings NTIMES (fun _ _ => sevenTenths) 0).foldl (fun s t => roundDouble (s + t)) 0)
        ((((NTIMES : Int) - 1 : Int)) : ℚ) =
      .finite (6305039478318695 / 9007199254740992) := by
  have h9 : ((((NTIMES : Int) - 1 : Int)) : ℚ) = 9 := by norm_num [NTIMES]
  rw [timings_const, h9]
  simp only [List.foldl_cons, List.foldl_nil, sevenTenths]
  rw [sevenTenths_sum_1, sevenTenths_sum_2, sevenTenths_sum_3, sevenTenths_sum_4,
    sevenTenths_sum_5, sevenTenths_sum_6, sevenTenths_sum_7, sevenTenths_sum_8,
    sevenTenths_sum_9]
  unfold fdivD
  rw [if_pos (by norm_num), sevenTenths_avg]

theorem foldl_MIN_const (x : ℚ) (hx : x ≤ FLT_MAX) :
    (timings NTIMES (fun _ _ => x) 0).foldl MIN FLT_MAX = x := by
  rw [timings_const]
  simp only [List.foldl_cons, List.foldl_nil, MIN_eq_min]
  simp [hx]

theorem foldl_MAX_const (x : ℚ) (hx : 0 ≤ x) :
    (timings NTIMES (fun _ _ => x) 0).foldl MAX 0 = x := by
  rw [timings_const]
  simp only [List.foldl_cons, List.foldl_nil, MAX_eq_max]
  simp [hx]

/-- The numerator of the rate of kernel `0` for `N = SIZE` is `160.0`. -/
theorem rate_numerator_SIZE :
    roundDouble (roundDouble 1.0e-6 * (bytesD SIZE).getD 0 0) = 160 := by
  have hb : (bytesD SIZE).getD 0 0 = 160000000 := by
    have h := roundDouble_natCast 160000000 (by norm_num)
    norm_num at h
    simp only [bytesD, bytes, List.map_cons, List.getD_cons_zero]
    norm_num [mulSizeT, sizeofDouble, SIZE]
    exact h
  rw [hb, micro_const, micro_bytes]

/-! ## The timing loop and `check` under the rounded kernel contracts -/

/-- With the rounded contract kernels and `10 < N`, one repetition is defined and does to
every cell what `trackerStepD` does to the trackers. -/
theorem repetition_contractD (timer : Nat → Nat → ℚ) (scalar : ℚ) (N k : Nat)
    (s : LoopState) (hN : 10 < N) :
    ∃ s1, repetition (contractKernelsD timer) scalar N k s = some s1 ∧
      ∀ t, Uniform N s t → Uniform N s1 (trackerStepD scalar t) := by
  refine ⟨_, by unfold repetition; rw [sumStep_of_lt _ N k s.a hN], ?_⟩
  intro t ht i hi
  obtain ⟨ha, hb, hc, hd⟩ := ht i hi
  simp only [contractKernelsD, setCell_self, pass_apply_lt _ _ _ _ hi, trackerStepD, ha, hb,
    hc, hd]
  simp

theorem timingLoop_contractD (timer : Nat → Nat → ℚ) (N : Nat) (s0 : LoopState)
    (hN : 10 < N) (h0 : Uniform N s0 trackerInit) (n : Nat) :
    ∃ s, timingLoop (contractKernelsD timer) 3.0 N n s0 = some s ∧
      Uniform N s (trackersD n) := by
  induction n with
  | zero => exact ⟨s0, rfl, h0⟩
  | succ n ih =>
    obtain ⟨s, hs, hu⟩ := ih
    obtain ⟨s1, hs1, hstep⟩ := repetition_contractD timer 3.0 N n s hN
    exact ⟨s1, by simp [timingLoop, hs, hs1], hstep _ hu⟩

theorem runKernels_contractD (timer : Nat → Nat → ℚ) (N n : Nat) (u : LoopState)
    (hN : N ≤ INT_MAX) (h : n = 0 ∨ 10 < N) :
    ∃ s, runKernels (contractKernelsD timer) N n u = some s ∧ Uniform N s (trackersD n) := by
  unfold runKernels
  rw [if_pos hN]
  rcases h with h | h
  · subst h
    exact ⟨_, rfl, initArrays_uniform N u⟩
  · exact timingLoop_contractD timer N _ h (initArrays_uniform N u) n

theorem mainD_of_runKernels (K : Kernels) (N n : Nat) (u : LoopState) (v : Stats)
    (s : LoopState) (hs : runKernels K N n u = some s) :
    mainD K N n u v = some
      { table := reportD N n (aggregateD n s.times (initStats v))
        validation := checkD n s.a s.b s.c s.d N
        status := EXIT_SUCCESS } := by
  simp only [mainD, hs]

/-- On buffers whose first `N` cells all hold the tracker values, each sum of `check` is
the rounded accumulation of `N` copies of the tracker. -/
theorem observedD_foldl_uniform (a b c d : Arr) (N : Nat) (t : Trackers)
    (h : ∀ i, i < N → a i = t.aj ∧ b i = t.bj ∧ c i = t.cj ∧ d i = t.dj) (n : Nat)
    (hn : n ≤ N) :
    (List.range n).foldl
      (fun s i =>
        ({ asum := roundDouble (s.asum + a i), bsum := roundDouble (s.bsum + b i),
           csum := roundDouble (s.csum + c i), dsum := roundDouble (s.dsum + d i) } : Sums))
      { asum := 0.0, bsum := 0.0, csum := 0.0, dsum := 0.0 }
    = { asum := (List.range n).foldl (fun s _ => roundDouble (s + t.aj)) 0,
        bsum := (List.range n).foldl (fun s _ => roundDouble (s + t.bj)) 0,
        csum := (List.range n).foldl (fun s _ => roundDouble (s + t.cj)) 0,
        dsum := (List.range n).foldl (fun s _ => roundDouble (s + t.dj)) 0 } := by
  induction n with
  | zero => norm_num
  | succ n ih =>
    obtain ⟨ha, hb, hc, hd⟩ := h n (by omega)
    simp only [List.range_succ, List.foldl_append, ih (by omega), List.foldl_cons,
      List.foldl_nil, ha, hb, hc, hd]

theorem observedD_uniform (a b c d : Arr) (N : Nat) (t : Trackers)
    (h : ∀ i, i < N → a i = t.aj ∧ b i = t.bj ∧ c i = t.cj ∧ d i = t.dj) :
    observedD a b c d (N : Int) =
      { asum := (List.range N).foldl (fun s _ => roundDouble (s + t.aj)) 0,
        bsum := (List.range N).foldl (fun s _ => roundDouble (s + t.bj)) 0,
        csum := (List.range N).foldl (fun s _ => roundDouble (s + t.cj)) 0,
        dsum := (List.range N).foldl (fun s _ => roundDouble (s + t.dj)) 0 } := by
  unfold observedD
  rw [Int.toNat_ofNat]
  exact observedD_foldl_uniform a b c d N t h N le_rfl

/-- Accumulating `n` copies of `m * 2 ^ k` is exact as long as `n * m < 2 ^ 53`. -/
theorem foldl_roundDouble_exact (v : ℚ) (m : ℕ) (k : ℤ) (hv : v = m * 2 ^ k) (n : ℕ)
    (h : n * m < 2 ^ 53) :
    (List.range n).foldl (fun s _ => roundDouble (s + v)) 0 = v * n := by
  induction n with
  | zero => simp
  | succ n ih =>
    have h1 : n * m < 2 ^ 53 := lt_of_le_of_lt (Nat.mul_le_mul_right m (Nat.le_succ n)) h
    simp only [List.range_succ, List.foldl_append, ih h1, List.foldl_cons, List.foldl_nil]
    have hd := roundDouble_dyadic (((n + 1) * m : ℕ) : ℤ) k (by positivity)
      (by exact_mod_cast h)
    have e : v * n + v = ((((n + 1) * m : ℕ) : ℤ) : ℚ) * 2 ^ k := by
      rw [hv]
      push_cast
      ring
    rw [e, hd]
    push_cast
    rw [hv]
    ring

/-- The product of `m * 2 ^ k` and `N` is a double as long as `N * m < 2 ^ 53`. -/
theorem roundDouble_mul_exact (v : ℚ) (m : ℕ) (k : ℤ) (hv : v = m * 2 ^ k) (N : ℕ)
    (h : N * m < 2 ^ 53) : roundDouble (v * N) = v * N := by
  have hd := roundDouble_dyadic ((N * m : ℕ) : ℤ) k (by positivity) (by exact_mod_cast h)
  have e : v * N = (((N * m : ℕ) : ℤ) : ℚ) * 2 ^ k := by
    rw [hv]
    push_cast
    ring
  rw [e, hd]

theorem epsilonD_pos : 0 < epsilonD := roundDouble_pos (by norm_num)

theorem exceedsD_self (e : ℚ) : exceedsD e e = false := by
  unfold exceedsD fdivD
  rw [sub_self, roundDouble_zero]
  have h0 : ABS 0 = 0 := by simp [ABS]
  rw [h0]
  by_cases h : e = 0
  · simp [h, DivResult.gt]
  · simp only [ne_eq, h, not_false_eq_true, if_true, zero_div, roundDouble_zero,
      DivResult.gt, decide_eq_false_iff_not, not_lt]
    exact epsilonD_pos.le

/-- The lines of `check` on sums that equal the expected values. -/
theorem compareD_exact (e : Trackers) :
    compareD e { asum := e.aj, bsum := e.bj, csum := e.cj, dsum := e.dj } =
      [.solutionValidates] := by
  simp [compareD, exceedsD_self]

/-- A bound of `2 ^ 53` on `3 * 4 ^ n - 1` limits `n` to `25`. -/
theorem repetitions_le_of_bound (n : ℕ) (h : 3 * 4 ^ n - 1 < 2 ^ 53) : n ≤ 25 := by
  by_contra hn
  have hp : 4 ^ 26 ≤ 4 ^ n := Nat.pow_le_pow_right (by norm_num) (by omega)
  norm_num at hp h
  omega

/-- When `(3 * 4 ^ n - 1) * N < 2 ^ 53`, each tracker after `n` iterations is an integer
multiple `m * 2 ^ k` of a power of two with `N * m < 2 ^ 53`. -/
theorem trackersD_dyadic (N n : ℕ) (h1 : 1 ≤ N) (hx : (3 * 4 ^ n - 1) * N < 2 ^ 53) :
    (∃ (m : ℕ) (k : ℤ), (trackersD n).aj = m * 2 ^ k ∧ N * m < 2 ^ 53) ∧
    (∃ (m : ℕ) (k : ℤ), (trackersD n).bj = m * 2 ^ k ∧ N * m < 2 ^ 53) ∧
    (∃ (m : ℕ) (k : ℤ), (trackersD n).cj = m * 2 ^ k ∧ N * m < 2 ^ 53) ∧
    (∃ (m : ℕ) (k : ℤ), (trackersD n).dj = m * 2 ^ k ∧ N * m < 2 ^ 53) := by
  rcases n with _ | n
  · have h2 : 2 * N < 2 ^ 53 := by simpa using hx
    refine ⟨⟨2, 0, by norm_num [trackersD, trackerInit], by omega⟩,
      ⟨2, 0, by norm_num [trackersD, trackerInit], by omega⟩,
      ⟨1, -1, by norm_num [trackersD, trackerInit], by omega⟩,
      ⟨1, 0, by norm_num [trackersD, trackerInit], by omega⟩⟩
  · have hA : 3 * 4 ^ (n + 1) - 1 < 2 ^ 53 :=
      lt_of_le_of_lt (Nat.le_mul_of_pos_right _ h1) hx
    have hn : n + 1 ≤ 25 := repetitions_le_of_bound _ hA
    have hp : 4 ^ (n + 1) = 4 * 4 ^ n := by ring
    have hq : 1 ≤ 4 ^ n := Nat.one_le_pow _ _ (by norm_num)
    have hle : ∀ m : ℕ, m ≤ 3 * 4 ^ (n + 1) - 1 → N * m < 2 ^ 53 := by
      intro m hm
      calc N * m ≤ N * (3 * 4 ^ (n + 1) - 1) := Nat.mul_le_mul_left N hm
        _ = (3 * 4 ^ (n + 1) - 1) * N := Nat.mul_comm _ _
        _ < 2 ^ 53 := hx
    rw [trackersD_closed n hn]
    refine ⟨⟨3 * 4 ^ (n + 1) - 1, 0, by simp, hle _ le_rfl⟩,
      ⟨3, 0, by simp, hle _ (by omega)⟩,
      ⟨3 * 4 ^ n - 1, 0, by simp, hle _ (by omega)⟩,
      ⟨1, 0, by simp, hle _ (by omega)⟩⟩

/-- When `(3 * 4 ^ n - 1) * N < 2 ^ 53`, the scaling of the trackers and the summation
loop of `check` on uniform buffers are both exact, and `check` prints
`Solution Validates`. -/
theorem checkD_uniform (a b c d : Arr) (N n : ℕ) (h1 : 1 ≤ N)
    (hx : (3 * 4 ^ n - 1) * N < 2 ^ 53)
    (h : ∀ i, i < N → a i = (trackersD n).aj ∧ b i = (trackersD n).bj ∧
      c i = (trackersD n).cj ∧ d i = (trackersD n).dj) :
    expectedD n (N : Int) =
      { aj := (trackersD n).aj * N, bj := (trackersD n).bj * N,
        cj := (trackersD n).cj * N, dj := (trackersD n).dj * N } ∧
    observedD a b c d (N : Int) =
      { asum := (trackersD n).aj * N, bsum := (trackersD n).bj * N,
        csum := (trackersD n).cj * N, dsum := (trackersD n).dj * N } ∧
    checkD n a b c d (N : Int) = [.solutionValidates] := by
  obtain ⟨⟨ma, ka, ha, ba⟩, ⟨mb, kb, hb, bb⟩, ⟨mc, kc, hc, bc⟩, ⟨md, kd, hd, bd⟩⟩ :=
    trackersD_dyadic N n h1 hx
  have hobs : observedD a b c d (N : Int) =
      { asum := (trackersD n).aj * N, bsum := (trackersD n).bj * N,
        csum := (trackersD n).cj * N, dsum := (trackersD n).dj * N } := by
    rw [observedD_uniform a b c d N (trackersD n) h,
      foldl_roundDouble_exact _ ma ka ha N ba, foldl_roundDouble_exact _ mb kb hb N bb,
      foldl_roundDouble_exact _ mc kc hc N bc, foldl_roundDouble_exact _ md kd hd N bd]
  have hexp : expectedD n (N : Int) =
      { aj := (trackersD n).aj * N, bj := (trackersD n).bj * N,
        cj := (trackersD n).cj * N, dj := (trackersD n).dj * N } := by
    simp only [expectedD, Int.cast_natCast]
    rw [roundDouble_mul_exact _ ma ka ha N ba, roundDouble_mul_exact _ mb kb hb N bb,
      roundDouble_mul_exact _ mc kc hc N bc, roundDouble_mul_exact _ md kd hd N bd]
  refine ⟨hexp, hobs, ?_⟩
  unfold checkD
  rw [hobs, hexp]
  exact compareD_exact _

/-! ## A summation that leaves the exact range: `N = 380000000` after 12 repetitions -/

theorem sum_crossing :
    roundDouble 9007199293887825 =
      9007199293887824 := by
  rw [roundDouble_cert 53 4503599646943912 (by norm_num) (by norm_num)
    (roundHalfEven_tie_even 4503599646943912 (by norm_num) (by norm_num))]
  norm_num

theorem relative_error_big :
    roundDouble (201043024 / 19126026061043024) =
      6353805589077745 / 604462909807314587353088 := by
  rw [roundDouble_cert (-27) 6353805589077745 (by norm_num) (by norm_num)
    (roundHalfEven_down 6353805589077745 (by norm_num) (by norm_num))]
  norm_num

theorem epsilonD_value :
    roundDouble (1.0e-8) =
      3022314549036573 / 302231454903657293676544 := by
  rw [roundDouble_cert (-27) 6044629098073146 (by norm_num) (by norm_num)
    (roundHalfEven_up 6044629098073145 (by norm_num) (by norm_num))]
  norm_num

/-- A number `x` with `x % 4 = 3` between `2 ^ 53` and `2 ^ 55` is not a double; the
nearest one is `x + 1`. -/
theorem roundDouble_three_mod_four (x : ℕ) (hx : x % 4 = 3) (h1 : 2 ^ 53 ≤ x)
    (h2 : x < 2 ^ 55) : roundDouble (x : ℚ) = ((x + 1 : ℕ) : ℚ) := by
  obtain ⟨f, hf⟩ : ∃ f : ℕ, x = 4 * f + 3 := ⟨x / 4, by omega⟩
  have c1 : ((2 ^ 53 : ℕ) : ℚ) ≤ (x : ℚ) := by exact_mod_cast h1
  have c2 : (x : ℚ) < ((2 ^ 55 : ℕ) : ℚ) := by exact_mod_cast h2
  have hxq : (x : ℚ) = 4 * f + 3 := by rw [hf]; push_cast; ring
  by_cases h : x < 2 ^ 54
  · have c3 : (x : ℚ) < ((2 ^ 54 : ℕ) : ℚ) := by exact_mod_cast h
    rw [roundDouble_cert 53 (2 * (f : ℤ) + 1 + 1) (by norm_num at c1 ⊢; exact c1)
      (by norm_num at c3 ⊢; exact c3)
      (roundHalfEven_tie_odd (2 * (f : ℤ) + 1) (by rw [hxq]; norm_num; ring) (by omega))]
    rw [hf]
    push_cast
    norm_num
    ring
  · have c3 : ((2 ^ 54 : ℕ) : ℚ) ≤ (x : ℚ) := by exact_mod_cast not_lt.mp h
    rw [roundDouble_cert 54 ((f : ℤ) + 1) (by norm_num at c3 ⊢; exact c3)
      (by norm_num at c2 ⊢; exact c2)
      (roundHalfEven_up (f : ℤ) (by rw [hxq]; norm_num; linarith)
        (by rw [hxq]; norm_num; linarith))]
    rw [hf]
    push_cast
    norm_num
    ring

theorem foldl_range_succ (f : ℚ → ℚ) (n : ℕ) :
    (List.range (n + 1)).foldl (fun s _ => f s) 0 = f ((List.range n).foldl (fun s _ => f s) 0) := by
  simp only [List.range_succ, List.foldl_append, List.foldl_cons, List.foldl_nil]

/-- The accumulation of copies of `50331647` once it has passed `2 ^ 53`: every further
addition gives a number that is `3` modulo `4` and is rounded up by one. -/
theorem sum_past_exact_range (m : ℕ) (h : 9007199293887824 + m * 50331648 ≤ 2 ^ 55) :
    (List.range (178956975 + m)).foldl (fun s _ => roundDouble (s + 50331647)) 0 =
      ((9007199293887824 + m * 50331648 : ℕ) : ℚ) := by
  induction m with
  | zero =>
    have e := foldl_range_succ (fun s => roundDouble (s + 50331647)) 178956974
    have p := foldl_roundDouble_exact 50331647 50331647 0 (by norm_num) 178956974
      (by norm_num)
    rw [p] at e
    norm_num at e
    rw [sum_crossing] at e
    simpa using e
  | succ m ih =>
    have e := foldl_range_succ (fun s => roundDouble (s + 50331647)) (178956975 + m)
    rw [ih (by omega)] at e
    have hx := roundDouble_three_mod_four (9007199293887824 + m * 50331648 + 50331647)
      (by omega) (by norm_num; omega) (by norm_num at h ⊢; omega)
    have hc : (((9007199293887824 + m * 50331648 : ℕ) : ℚ)) + 50331647 =
        ((9007199293887824 + m * 50331648 + 50331647 : ℕ) : ℚ) := by push_cast; ring
    rw [hc, hx] at e
    rw [show 178956975 + (m + 1) = 178956975 + m + 1 by omega, e]
    congr 1
    omega

theorem sum_big :
    (List.range 380000000).foldl (fun s _ => roundDouble (s + 50331647)) 0 =
      19126026061043024 := by
  have h := sum_past_exact_range 201043025 (by norm_num)
  norm_num at h
  exact h

theorem trackersD_twelve :
    trackersD 12 = { aj := 50331647, bj := 3, cj := 12582911, dj := 1 } := by
  rw [trackersD_closed 11 (by norm_num)]
  norm_num

theorem expectedD_big : (expectedD 12 380000000).aj = 19126025860000000 := by
  simp only [expectedD, trackersD_twelve]
  have e : (50331647 : ℚ) * ((380000000 : ℤ) : ℚ) =
      ((4781506465000000 : ℤ) : ℚ) * 2 ^ (2 : ℤ) := by norm_num
  rw [e, roundDouble_dyadic _ _ (by norm_num) (by norm_num)]
  norm_num

/-- The relative difference of the expected value `19126025860000000` and the observed
sum `19126026061043024` exceeds the tolerance. -/
theorem exceedsD_big : exceedsD 19126025860000000 19126026061043024 = true := by
  unfold exceedsD
  have hsub : (19126025860000000 : ℚ) - 19126026061043024 = ((-201043024 : ℤ) : ℚ) := by
    norm_num
  have habs : ABS (((-201043024 : ℤ) : ℚ)) = 201043024 := by norm_num [ABS]
  rw [hsub, roundDouble_intCast _ (by norm_num), habs]
  unfold fdivD
  rw [if_pos (by norm_num), relative_error_big]
  unfold epsilonD
  rw [epsilonD_value]
  simp only [DivResult.gt]
  norm_num

/-- With `N = 380000000` and 12 repetitions the run is defined and `check` reports a
failure on `a[]`. -/
theorem checkD_big :
    ∃ s, runKernels (contractKernelsD fun _ _ => 0) 380000000 12 zeroState = some s ∧
      checkD 12 s.a s.b s.c s.d 380000000 =
        [.failedValidation .a, .expectedValue 19126025860000000,
          .observedValue 19126026061043024] := by
  obtain ⟨s, hs, hu⟩ := runKernels_contractD (fun _ _ => 0) 380000000 12 zeroState
    (by decide) (Or.inr (by decide))
  refine ⟨s, hs, ?_⟩
  have hobs := observedD_uniform s.a s.b s.c s.d 380000000 (trackersD 12) hu
  have ha : (trackersD 12).aj = 50331647 := by rw [trackersD_twelve]
  rw [ha, sum_big] at hobs
  have hN : ((380000000 : ℕ) : ℤ) = 380000000 := rfl
  rw [hN] at hobs
  unfold checkD compareD
  rw [hobs, expectedD_big]
  rw [if_pos exceedsD_big]

/-- The printed rate in rounded arithmetic: the rate from the average time exceeds the
rate from the minimum time by at most the rounding of the average and of the two
quotients. -/
theorem rate_from_average_le (cb m avg : ℚ) (n : ℕ) (hcb : 0 ≤ cb) (hm : 0 < m)
    (havg : m * (1 - 1 / 2 ^ 53) ^ n ≤ avg) :
    roundDouble (cb / avg) * (1 - 1 / 2 ^ 53) ^ (n + 2) ≤ roundDouble (cb / m) := by
  have hd0 : (0 : ℚ) < 1 - 1 / 2 ^ 53 := by norm_num
  have hpn : (0 : ℚ) < (1 - 1 / 2 ^ 53) ^ n := pow_pos hd0 n
  have hL : 0 < m * (1 - 1 / 2 ^ 53) ^ n := mul_pos hm hpn
  have hapos : 0 < avg := lt_of_lt_of_le hL havg
  obtain ⟨r1, -⟩ := roundDouble_rel (div_nonneg hcb hm.le)
  obtain ⟨-, q2⟩ := roundDouble_rel (div_nonneg hcb hapos.le)
  have h1 : cb / avg ≤ cb / (m * (1 - 1 / 2 ^ 53) ^ n) :=
    div_le_div_of_nonneg_left hcb hL havg
  have h2 : cb / (m * (1 - 1 / 2 ^ 53) ^ n) * (1 - 1 / 2 ^ 53) ^ n = cb / m := by
    rw [div_mul_eq_mul_div, mul_div_mul_right _ _ (ne_of_gt hpn)]
  have hcm : 0 ≤ cb / m := div_nonneg hcb hm.le
  calc roundDouble (cb / avg) * (1 - 1 / 2 ^ 53) ^ (n + 2)
      ≤ cb / avg * (1 + 1 / 2 ^ 53) * (1 - 1 / 2 ^ 53) ^ (n + 2) :=
        mul_le_mul_of_nonneg_right q2 (pow_nonneg hd0.le _)
    _ ≤ cb / (m * (1 - 1 / 2 ^ 53) ^ n) * (1 + 1 / 2 ^ 53) * (1 - 1 / 2 ^ 53) ^ (n + 2) :=
        mul_le_mul_of_nonneg_right (mul_le_mul_of_nonneg_right h1 (by norm_num))
          (pow_nonneg hd0.le _)
    _ = cb / m * ((1 + 1 / 2 ^ 53) * (1 - 1 / 2 ^ 53)) * (1 - 1 / 2 ^ 53) := by
        rw [← h2, pow_add (1 - 1 / 2 ^ 53) n 2]
        ring
    _ ≤ cb / m * 1 * (1 - 1 / 2 ^ 53) :=
        mul_le_mul_of_nonneg_right (mul_le_mul_of_nonneg_left (by norm_num) hcm) hd0.le
    _ = cb / m * (1 - 1 / 2 ^ 53) := by ring
    _ ≤ roundDouble (cb / m) := r1

/-! ## The claims -/

/-- Claim C1, amended. With the kernels modelled by their contracts, for every array
length `N ≤ INT_MAX` and every repetition count `n` such that `n = 0` or `N ≥ 11`, the
run of `main` up to the end of the timing loop is defined and leaves every element
`a[i]`, `b[i]`, `c[i]`, `d[i]` (`i < N`) equal to the trackers `aj`, `bj`, `cj`, `dj` that
the recurrence of `check` holds after `n` iterations. -/
theorem validator_law (timer : Nat → Nat → ℚ) (N n : Nat) (u : LoopState)
    (hN : N ≤ INT_MAX) (h : n = 0 ∨ 10 < N) :
    ∃ s, runKernels (contractKernels timer) N n u = some s ∧
      ∀ i, i < N → s.a i = (trackers n).aj ∧ s.b i = (trackers n).bj ∧
        s.c i = (trackers n).cj ∧ s.d i = (trackers n).dj :=
  runKernels_contract timer N n u hN h

/-- Claim C1, an instance: `N = 11` and the reference `n = NTIMES = 10`, where the
trackers are `3145727`, `3`, `786431` and `1`. -/
theorem validator_law_witness :
    (11 ≤ INT_MAX ∧ (NTIMES = 0 ∨ 10 < 11)) ∧
    ∃ s, runKernels (contractKernels fun _ _ => 0) 11 NTIMES zeroState = some s ∧
      ∀ i, i < 11 → s.a i = 3145727 ∧ s.b i = 3 ∧ s.c i = 786431 ∧ s.d i = 1 := by
  have h := validator_law (fun _ _ => 0) 11 NTIMES zeroState (by decide) (Or.inr (by decide))
  have ht : trackers NTIMES = { aj := 3145727, bj := 3, cj := 786431, dj := 1 } :=
    trackers_ten
  rw [ht] at h
  exact ⟨⟨by decide, Or.inr (by decide)⟩, h⟩

/-- Claim C1 as stated fails: for `N = 4` and one repetition the timing loop reads
`a[10]` outside the buffer, and for `N = 2 ^ 31` the `int` counters cannot reach `N`; in
both cases there is no final state in which the law could hold. -/
theorem validator_law_counterexample :
    (¬ ∃ s, runKernels (contractKernels fun _ _ => 0) 4 1 zeroState = some s ∧
        ∀ i, i < 4 → s.a i = (trackers 1).aj ∧ s.b i = (trackers 1).bj ∧
          s.c i = (trackers 1).cj ∧ s.d i = (trackers 1).dj) ∧
    (¬ ∃ s, runKernels (contractKernels fun _ _ => 0) 2147483648 1 zeroState = some s ∧
        ∀ i, i < 2147483648 → s.a i = (trackers 1).aj ∧ s.b i = (trackers 1).bj ∧
          s.c i = (trackers 1).cj ∧ s.d i = (trackers 1).dj) := by
  constructor
  · rintro ⟨s, hs, -⟩
    simp [runKernels, INT_MAX, timingLoop, repetition_of_not_lt] at hs
  · rintro ⟨s, hs, -⟩
    simp [runKernels, INT_MAX] at hs

/-- Claim C2, amended. In `double` arithmetic, for every `N` with `1 ≤ N ≤ INT_MAX` and
every repetition count `n` such that `n = 0` or `N ≥ 11`, and such that
`(3 * 4 ^ n - 1) * N < 2 ^ 53`, after the timing loop has run `n` times with the contract
kernels on the uniformly initialised arrays, the expected values and the sums computed
by `check` both equal exactly `N` times the trackers of the recurrence, `check` prints
`Solution Validates`, and so does the run of `main`. -/
theorem end_to_end_validation (timer : Nat → Nat → ℚ) (N n : Nat) (u : LoopState)
    (v : Stats) (h1 : 1 ≤ N) (hN : N ≤ INT_MAX) (h : n = 0 ∨ 10 < N)
    (hx : (3 * 4 ^ n - 1) * N < 2 ^ 53) :
    ∃ s, runKernels (contractKernelsD timer) N n u = some s ∧
      expectedD n (N : Int) =
        { aj := (trackersD n).aj * N, bj := (trackersD n).bj * N,
          cj := (trackersD n).cj * N, dj := (trackersD n).dj * N } ∧
      observedD s.a s.b s.c s.d (N : Int) =
        { asum := (trackersD n).aj * N, bsum := (trackersD n).bj * N,
          csum := (trackersD n).cj * N, dsum := (trackersD n).dj * N } ∧
      checkD n s.a s.b s.c s.d (N : Int) = [.solutionValidates] ∧
      ∃ out, mainD (contractKernelsD timer) N n u v = some out ∧
        out.validation = [.solutionValidates] := by
  obtain ⟨s, hs, hu⟩ := runKernels_contractD timer N n u hN h
  obtain ⟨hexp, hobs, hchk⟩ := checkD_uniform s.a s.b s.c s.d N n h1 hx hu
  exact ⟨s, hs, hexp, hobs, hchk, _, mainD_of_runKernels _ N n u v s hs, hchk⟩

/-- Claim C2, two instances: `N = 11`, `n = 2`, scalar `3.0` gives the sums `517`, `33`,
`121`, `11` (the trackers `47`, `3`, `11`, `1` times `11`) and `Solution Validates`; and
the reference configuration `N = SIZE`, `n = NTIMES` satisfies the hypotheses. -/
theorem end_to_end_validation_witness :
    ((1 ≤ 11 ∧ 11 ≤ INT_MAX ∧ (2 = 0 ∨ 10 < 11) ∧ (3 * 4 ^ 2 - 1) * 11 < 2 ^ 53) ∧
      ∃ s, runKernels (contractKernelsD fun _ _ => 0) 11 2 zeroState = some s ∧
        expectedD 2 11 = { aj := 517, bj := 33, cj := 121, dj := 11 } ∧
        observedD s.a s.b s.c s.d 11 =
          { asum := 517, bsum := 33, csum := 121, dsum := 11 } ∧
        checkD 2 s.a s.b s.c s.d 11 = [.solutionValidates] ∧
        ∃ out, mainD (contractKernelsD fun _ _ => 0) 11 2 zeroState zeroStats = some out ∧
          out.validation = [.solutionValidates]) ∧
    ((1 ≤ SIZE ∧ SIZE ≤ INT_MAX ∧ (NTIMES = 0 ∨ 10 < SIZE) ∧
        (3 * 4 ^ NTIMES - 1) * SIZE < 2 ^ 53) ∧
      ∃ out, mainD (contractKernelsD fun _ _ => 0) SIZE NTIMES zeroState zeroStats =
          some out ∧
        out.validation = [.solutionValidates]) := by
  refine ⟨⟨⟨by decide, by decide, Or.inr (by decide), by norm_num⟩, ?_⟩,
    ⟨⟨by decide, by decide, Or.inr (by decide), by norm_num [NTIMES, SIZE]⟩, ?_⟩⟩
  · have h := end_to_end_validation (fun _ _ => 0) 11 2 zeroState zeroStats (by decide)
      (by decide) (Or.inr (by decide)) (by norm_num)
    have ht : trackersD 2 = { aj := 47, bj := 3, cj := 11, dj := 1 } := by
      rw [trackersD_closed 1 (by norm_num)]
      norm_num
    rw [ht] at h
    norm_num at h
    exact h
  · obtain ⟨s, -, -, -, -, hout⟩ := end_to_end_validation (fun _ _ => 0) SIZE NTIMES zeroState
      zeroStats (by decide) (by decide) (Or.inr (by decide)) (by norm_num [NTIMES, SIZE])
    exact hout

/-- Claim C2 as stated fails. At its own example `N = 4`, `n = 2` the timing loop reads
`a[10]` outside the four-element buffer, so the run has no defined outcome and `main`
prints no validation line. At `N = 380000000`, `n = 12`, where the run is defined, every
cell of `a` holds `50331647` and the exact sum `19126025860000000` is the expected value,
but the summation loop of `check` leaves the range in which every integer is a `double`
after `178956974` additions and ends at `19126026061043024`; the relative difference
exceeds the tolerance and `check` prints `Failed Validation on array a[]`. The bound
`(3 * 4 ^ n - 1) * N < 2 ^ 53` does not hold there. -/
theorem end_to_end_counterexample :
    (runKernels (contractKernelsD fun _ _ => 0) 4 2 zeroState = none ∧
      ¬ ∃ out, mainD (contractKernelsD fun _ _ => 0) 4 2 zeroState zeroStats = some out ∧
          out.validation = [.solutionValidates]) ∧
    ((1 ≤ 380000000 ∧ 380000000 ≤ INT_MAX ∧ 10 < 380000000) ∧
      ¬ (3 * 4 ^ 12 - 1) * 380000000 < 2 ^ 53 ∧
      (trackersD 12).aj * 380000000 = 19126025860000000 ∧
      ∃ s out, runKernels (contractKernelsD fun _ _ => 0) 380000000 12 zeroState = some s ∧
        (observedD s.a s.b s.c s.d 380000000).asum = 19126026061043024 ∧
        checkD 12 s.a s.b s.c s.d 380000000 =
          [.failedValidation .a, .expectedValue 19126025860000000,
            .observedValue 19126026061043024] ∧
        mainD (contractKernelsD fun _ _ => 0) 380000000 12 zeroState zeroStats = some out ∧
        out.validation ≠ [.solutionValidates]) := by
  have h : runKernels (contractKernelsD fun _ _ => 0) 4 2 zeroState = none := by
    simp [runKernels, INT_MAX, timingLoop, repetition_of_not_lt]
  refine ⟨⟨h, ?_⟩, ⟨by norm_num, by norm_num [INT_MAX], by norm_num⟩, by norm_num, ?_, ?_⟩
  · rintro ⟨out, hout, -⟩
    simp [mainD, h] at hout
  · rw [trackersD_twelve]
    norm_num
  · obtain ⟨s, hs, hchk⟩ := checkD_big
    have hu := runKernels_contractD (fun _ _ => 0) 380000000 12 zeroState (by decide)
      (Or.inr (by decide))
    obtain ⟨s1, hs1, hu1⟩ := hu
    have e : s1 = s := Option.some.inj (hs1.symm.trans hs)
    subst e
    have hobs := observedD_uniform s1.a s1.b s1.c s1.d 380000000 (trackersD 12) hu1
    have ha : (trackersD 12).aj = 50331647 := by rw [trackersD_twelve]
    rw [ha, sum_big] at hobs
    have hN : ((380000000 : ℕ) : ℤ) = 380000000 := rfl
    rw [hN] at hobs
    refine ⟨s1, _, hs, by rw [hobs], hchk,
      mainD_of_runKernels _ 380000000 12 zeroState zeroStats s1 hs, ?_⟩
    rw [hN, hchk]
    simp

/-- Claim C3. For all array contents and every `N`, `check` prints
`Failed Validation on array X[]` (with the expected and the observed value) for exactly
the first `X` in the order a, b, c, d for which
`|expected_X - observed_X| / observed_X > 1e-8`, prints at most one such line, and prints
`Solution Validates` if and only if no array satisfies that inequality. -/
theorem check_reports_first_failure (ntimes : Nat) (a b c d : Arr) (N : Int) :
    (check ntimes a b c d N =
      match (comparisons (expected ntimes N) (observed a b c d N)).find?
          (fun x => decide (relativeErrorExceeds x.2.1 x.2.2)) with
      | some x => [.failedValidation x.1, .expectedValue x.2.1, .observedValue x.2.2]
      | none => [.solutionValidates]) ∧
    ((check ntimes a b c d N).filter Line.isFailure).length ≤ 1 ∧
    (Line.solutionValidates ∈ check ntimes a b c d N ↔
      ∀ x ∈ comparisons (expected ntimes N) (observed a b c d N),
        ¬ relativeErrorExceeds x.2.1 x.2.2) :=
  ⟨compare_eq_find _ _, compare_failures_le_one _ _, compare_validates_iff _ _⟩

/-- Claim C4, amended. For all array contents and every `N`, whenever `check` prints
`Solution Validates`, every array whose observed sum is not negative satisfies
`|expected_X - observed_X| ≤ 1e-8 * |observed_X|`. -/
theorem validates_sound (ntimes : Nat) (a b c d : Arr) (N : Int)
    (h : Line.solutionValidates ∈ check ntimes a b c d N) :
    ∀ x ∈ comparisons (expected ntimes N) (observed a b c d N),
      0 ≤ x.2.2 → |x.2.1 - x.2.2| ≤ 1 / 10 ^ 8 * |x.2.2| := by
  intro x hx hnonneg
  have hne := (compare_validates_iff _ _).mp h x hx
  unfold relativeErrorExceeds at hne
  by_cases ho : x.2.2 = 0
  · rw [if_pos ho] at hne
    have he : x.2.1 = 0 := not_not.mp hne
    simp [ho, he]
  · rw [if_neg ho] at hne
    have hpos : 0 < x.2.2 := lt_of_le_of_ne hnonneg (Ne.symm ho)
    rw [abs_of_pos hpos]
    have := not_lt.mp hne
    rwa [div_le_iff₀ hpos] at this

/-- Claim C4, an instance: five-element arrays holding the values expected after ten
repetitions validate, and each sum is within the tolerance. -/
theorem validates_sound_witness :
    Line.solutionValidates ∈
      check 10 (fun _ => 3145727) (fun _ => 3) (fun _ => 786431) (fun _ => 1) 5 ∧
    ∀ x ∈ comparisons (expected 10 5)
        (observed (fun _ => 3145727) (fun _ => 3) (fun _ => 786431) (fun _ => 1) 5),
      0 ≤ x.2.2 → |x.2.1 - x.2.2| ≤ 1 / 10 ^ 8 * |x.2.2| := by
  have h : Line.solutionValidates ∈
      check 10 (fun _ => 3145727) (fun _ => 3) (fun _ => 786431) (fun _ => 1) 5 := by
    unfold check
    rw [observed_exact_example, compare_exact]
    exact List.mem_singleton_self _
  exact ⟨h, validates_sound 10 _ _ _ _ 5 h⟩

/-- Claim C4 as stated fails: with `a[i] = -1` for five elements (and `b`, `c`, `d` as
expected after ten repetitions) the observed sum of `a` is `-5`, the expected one is
`15728635`, and `check` prints `Solution Validates`, because the quotient by the negative
observed sum is negative and so never greater than the tolerance. -/
theorem soundness_counterexample :
    check 10 (fun _ => -1) (fun _ => 3) (fun _ => 786431) (fun _ => 1) 5 =
      [.solutionValidates] ∧
    ¬ (|(expected 10 5).aj -
          (observed (fun _ => -1) (fun _ => 3) (fun _ => 786431) (fun _ => 1) 5).asum| ≤
        1 / 10 ^ 8 *
          |(observed (fun _ => -1) (fun _ => 3) (fun _ => 786431) (fun _ => 1) 5).asum|) := by
  rw [observed_negative_example]
  constructor
  · unfold check
    rw [observed_negative_example]
    simp only [compare, expected, trackers_ten, ← decide_relativeErrorExceeds,
      relativeErrorExceeds]
    norm_num
  · simp only [expected, trackers_ten]
    norm_num

/-- Claim C5. The aggregator ignores the warm-up repetition: for every kernel `j` and any
two timing records that agree on the repetitions `1, ..., ntimes - 1` of kernel `j`
(whatever they hold at repetition `0`), `avgtime[j]`, `mintime[j]` and `maxtime[j]` are
identical, and so is the printed row. -/
theorem aggregator_ignores_warmup (N ntimes : Nat) (t1 t2 : Nat → Nat → ℚ) (v1 v2 : Stats)
    (j : Nat) (hj : j < NUMBENCH) (h : ∀ k, 1 ≤ k → k < ntimes → t1 j k = t2 j k) :
    (aggregate ntimes t1 (initStats v1)).avgtime j =
        (aggregate ntimes t2 (initStats v2)).avgtime j ∧
    (aggregate ntimes t1 (initStats v1)).mintime j =
        (aggregate ntimes t2 (initStats v2)).mintime j ∧
    (aggregate ntimes t1 (initStats v1)).maxtime j =
        (aggregate ntimes t2 (initStats v2)).maxtime j ∧
    printRow N ntimes (aggregate ntimes t1 (initStats v1)) j =
        printRow N ntimes (aggregate ntimes t2 (initStats v2)) j := by
  obtain ⟨a1, a2, a3⟩ := aggregate_initStats ntimes t1 v1 j hj
  obtain ⟨b1, b2, b3⟩ := aggregate_initStats ntimes t2 v2 j hj
  have ht := timings_congr ntimes t1 t2 j h
  have e1 := a1.trans ((congrArg List.sum ht).trans b1.symm)
  have e2 := a2.trans ((congrArg (fun l => List.foldl MIN FLT_MAX l) ht).trans b2.symm)
  have e3 := a3.trans ((congrArg (fun l => List.foldl MAX 0 l) ht).trans b3.symm)
  refine ⟨e1, e2, e3, ?_⟩
  simp only [printRow, e1, e2, e3]

/-- Claim C5, an instance: the timings `[100, 1, 2, 3]` (four repetitions) and
`[0, 1, 2, 3]` give the same row, with average `2`, minimum `1` and maximum `3`; the
value `100` appears in no statistic. -/
theorem aggregator_ignores_warmup_witness :
    (0 < NUMBENCH ∧
      ∀ k, 1 ≤ k → k < 4 → [(100 : ℚ), 1, 2, 3].getD k 0 = [(0 : ℚ), 1, 2, 3].getD k 0) ∧
    printRow SIZE 4 (aggregate 4 (fun _ k => [100, 1, 2, 3].getD k 0) (initStats zeroStats)) 0 =
      printRow SIZE 4 (aggregate 4 (fun _ k => [0, 1, 2, 3].getD k 0) (initStats zeroStats)) 0 ∧
    (printRow SIZE 4 (aggregate 4 (fun _ k => [100, 1, 2, 3].getD k 0)
        (initStats zeroStats)) 0).avgtime = .finite 2 ∧
    (printRow SIZE 4 (aggregate 4 (fun _ k => [100, 1, 2, 3].getD k 0)
        (initStats zeroStats)) 0).mintime = 1 ∧
    (printRow SIZE 4 (aggregate 4 (fun _ k => [100, 1, 2, 3].getD k 0)
        (initStats zeroStats)) 0).maxtime = 3 := by
  have hagree : ∀ k, 1 ≤ k → k < 4 →
      [(100 : ℚ), 1, 2, 3].getD k 0 = [(0 : ℚ), 1, 2, 3].getD k 0 := by
    intro k h1 h4
    interval_cases k <;> rfl
  have hj : 0 < NUMBENCH := by decide
  refine ⟨⟨hj, hagree⟩,
    (aggregator_ignores_warmup SIZE 4 (fun _ k => [100, 1, 2, 3].getD k 0)
      (fun _ k => [0, 1, 2, 3].getD k 0) zeroStats zeroStats 0 hj hagree).2.2.2, ?_⟩
  obtain ⟨a1, a2, a3⟩ :=
    aggregate_initStats 4 (fun _ k => [(100 : ℚ), 1, 2, 3].getD k 0) zeroStats 0 hj
  simp only [printRow, a1, a2, a3, timings_example]
  norm_num [fdiv, MIN, MAX, FLT_MAX]

/-- Claim C7, amended. In `double` arithmetic, for every kernel `j`, whenever
`ntimes ≥ 2` and every recorded timing is non-negative, the printed statistics satisfy
`mintime[j] ≤ maxtime[j]` and
`mintime[j] * (1 - 2 ^ (-53)) ^ ntimes ≤ avgtime[j] ≤ maxtime[j] * (1 + 2 ^ (-53)) ^ ntimes`,
the average being a finite number: the average lies between the minimum and the maximum
up to the rounding of the `ntimes - 1` additions and the division that compute it. -/
theorem average_near_min_max (N ntimes : Nat) (times : Nat → Nat → ℚ) (v : Stats) (j : Nat)
    (hj : j < NUMBENCH) (hn : 2 ≤ ntimes) (hnonneg : ∀ i k, 0 ≤ times i k) :
    ∃ avg, (printRowD N ntimes (aggregateD ntimes times (initStats v)) j).avgtime =
        .finite avg ∧
      (printRowD N ntimes (aggregateD ntimes times (initStats v)) j).mintime ≤
        (printRowD N ntimes (aggregateD ntimes times (initStats v)) j).maxtime ∧
      (printRowD N ntimes (aggregateD ntimes times (initStats v)) j).mintime *
        (1 - 1 / 2 ^ 53) ^ ntimes ≤ avg ∧
      avg ≤ (printRowD N ntimes (aggregateD ntimes times (initStats v)) j).maxtime *
        (1 + 1 / 2 ^ 53) ^ ntimes := by
  obtain ⟨a1, a2, a3⟩ := aggregateD_initStats ntimes times v j hj
  have hpos : (0 : ℚ) < (ntimes : ℚ) - 1 := by
    have : (2 : ℚ) ≤ (ntimes : ℚ) := by exact_mod_cast hn
    linarith
  obtain ⟨b1, b2⟩ := average_bounds ntimes times j hn (fun k _ _ => hnonneg j k)
  refine ⟨roundDouble ((timings ntimes times j).foldl (fun s t => roundDouble (s + t)) 0 /
    ((ntimes : ℚ) - 1)), ?_, ?_, ?_, ?_⟩
  · simp only [printRowD, a1, int_pred_cast, fdivD, if_pos (ne_of_gt hpos)]
  · simp only [printRowD, a2, a3]
    exact foldl_MIN_le_foldl_MAX ntimes times j hn
  · simp only [printRowD, a2]
    exact b1
  · simp only [printRowD, a3]
    exact b2

/-- Claim C7, an instance: the timings `[100, 1, 2, 3]`, kernel `0`. -/
theorem average_near_min_max_witness :
    (0 < NUMBENCH ∧ 2 ≤ 4 ∧ ∀ (_i k : Nat), (0 : ℚ) ≤ [100, 1, 2, 3].getD k 0) ∧
    ∃ avg, (printRowD SIZE 4 (aggregateD 4 (fun _ k => [100, 1, 2, 3].getD k 0)
        (initStats zeroStats)) 0).avgtime = .finite avg ∧
      (printRowD SIZE 4 (aggregateD 4 (fun _ k => [100, 1, 2, 3].getD k 0)
        (initStats zeroStats)) 0).mintime ≤
        (printRowD SIZE 4 (aggregateD 4 (fun _ k => [100, 1, 2, 3].getD k 0)
          (initStats zeroStats)) 0).maxtime ∧
      (printRowD SIZE 4 (aggregateD 4 (fun _ k => [100, 1, 2, 3].getD k 0)
        (initStats zeroStats)) 0).mintime * (1 - 1 / 2 ^ 53) ^ 4 ≤ avg ∧
      avg ≤ (printRowD SIZE 4 (aggregateD 4 (fun _ k => [100, 1, 2, 3].getD k 0)
        (initStats zeroStats)) 0).maxtime * (1 + 1 / 2 ^ 53) ^ 4 := by
  have hnonneg : ∀ (_i k : Nat), (0 : ℚ) ≤ [100, 1, 2, 3].getD k 0 := by
    intro _ k
    rcases k with _ | _ | _ | _ | k <;> simp
  exact ⟨⟨by decide, by decide, hnonneg⟩,
    average_near_min_max SIZE 4 (fun _ k => [100, 1, 2, 3].getD k 0) zeroStats 0 (by decide)
      (by decide) hnonneg⟩

/-- Claim C7 as stated fails in `double` arithmetic, in the reference configuration
`NTIMES = 10`. When every timing of kernel `0` is the double `tenth` (`0.1`), the nine
non-warm-up timings accumulate to `0.8999999999999999` and the printed average is
`0.09999999999999999`, below the printed minimum `0.1`. When every timing is the double
`sevenTenths` (`0.7`), the printed average is `0.7000000000000001`, above the printed
maximum `0.7`. -/
theorem average_counterexample :
    (2 ≤ NTIMES ∧ roundDouble 0.1 = tenth ∧ roundDouble tenth = tenth ∧ 0 ≤ tenth ∧
      (printRowD SIZE NTIMES (aggregateD NTIMES (fun _ _ => tenth) (initStats zeroStats))
        0).mintime = tenth ∧
      (printRowD SIZE NTIMES (aggregateD NTIMES (fun _ _ => tenth) (initStats zeroStats))
        0).avgtime = .finite (7205759403792793 / 72057594037927936) ∧
      (7205759403792793 / 72057594037927936 : ℚ) < tenth) ∧
    (roundDouble 0.7 = sevenTenths ∧ roundDouble sevenTenths = sevenTenths ∧
      0 ≤ sevenTenths ∧
      (printRowD SIZE NTIMES
        (aggregateD NTIMES (fun _ _ => sevenTenths) (initStats zeroStats)) 0).maxtime =
          sevenTenths ∧
      (printRowD SIZE NTIMES
        (aggregateD NTIMES (fun _ _ => sevenTenths) (initStats zeroStats)) 0).avgtime =
          .finite (6305039478318695 / 9007199254740992) ∧
      sevenTenths < (6305039478318695 / 9007199254740992 : ℚ)) := by
  obtain ⟨a1, a2, -⟩ := aggregateD_initStats NTIMES (fun _ _ => tenth) zeroStats 0
    (by decide)
  obtain ⟨b1, -, b3⟩ := aggregateD_initStats NTIMES (fun _ _ => sevenTenths) zeroStats 0
    (by decide)
  refine ⟨⟨by decide, tenth_nearest, roundDouble_tenth, by norm_num [tenth], ?_, ?_,
      by norm_num [tenth]⟩,
    sevenTenths_nearest, roundDouble_sevenTenths, by norm_num [sevenTenths], ?_, ?_,
    by norm_num [sevenTenths]⟩
  · simp only [printRowD, a2]
    exact foldl_MIN_const tenth (by norm_num [tenth, FLT_MAX])
  · simp only [printRowD, a1]
    exact tenth_average
  · simp only [printRowD, b3]
    exact foldl_MAX_const sevenTenths (by norm_num [sevenTenths])
  · simp only [printRowD, b1]
    exact sevenTenths_average

/-- Claim C9. For every kernel `j` in enumeration order, `bytes[j]` is
`N * sizeof(double) * multiplier[j]` with the multipliers exactly `1, 1, 2, 2, 3, 3, 4, 4`,
as long as the `size_t` products do not wrap; for the reference `N = 20,000,000` and
8-byte elements they do not wrap and `bytes[j] = 160,000,000 * multiplier[j]`. -/
theorem bytes_formula :
    (∀ N : Nat, 4 * sizeofDouble * N < 2 ^ 64 →
      bytes N =
        [1, 1, 2, 2, 3, 3, 4, 4].map (fun m : Nat => ((N * sizeofDouble * m : Nat) : ℚ))) ∧
    (∀ (N : Nat) (j : benchmark), 4 * sizeofDouble * N < 2 ^ 64 →
      (bytes N).getD j.idx 0 = ((N * sizeofDouble * multiplier j : Nat) : ℚ)) ∧
    4 * sizeofDouble * SIZE < 2 ^ 64 ∧
    bytes SIZE = [1, 1, 2, 2, 3, 3, 4, 4].map (fun m : Nat => (160000000 : ℚ) * m) := by
  have hS : 4 * sizeofDouble * SIZE < 2 ^ 64 := by
    norm_num [sizeofDouble, SIZE]
  refine ⟨bytes_no_overflow, ?_, hS, ?_⟩
  · intro N j h
    rw [bytes_no_overflow N h]
    cases j <;> rfl
  · rw [bytes_no_overflow SIZE hS]
    norm_num [SIZE, sizeofDouble]

/-- Claim C9, an instance: kernel Copy with `N = 1,000,000` has `bytes = 16,000,000`. -/
theorem bytes_formula_witness :
    4 * sizeofDouble * 1000000 < 2 ^ 64 ∧
    (bytes 1000000).getD benchmark.COPY.idx 0 = 16000000 := by
  have h := bytes_formula.2.1 1000000 benchmark.COPY (by norm_num [sizeofDouble])
  refine ⟨by norm_num [sizeofDouble], ?_⟩
  rw [h]
  norm_num [sizeofDouble, multiplier]

/-- Claim C10. Every completed run of `main` returns `EXIT_SUCCESS`, whichever branch
`check` takes; a run completes whenever `N ≤ INT_MAX` and (`ntimes = 0` or `N ≥ 11`),
whatever the kernels compute; and a run in which `check` prints
`Failed Validation on array a[]` returns the same status as one in which it prints
`Solution Validates`. -/
theorem main_exit_status :
    (∀ (K : Kernels) (N n : Nat) (u : LoopState) (v : Stats) (out : Output),
      main K N n u v = some out → out.status = EXIT_SUCCESS) ∧
    (∀ (K : Kernels) (N n : Nat) (u : LoopState) (v : Stats),
      N ≤ INT_MAX → (n = 0 ∨ 10 < N) → ∃ out, main K N n u v = some out) ∧
    (∃ out1 out2,
      main (contractKernels fun _ _ => 0) 11 1 zeroState zeroStats = some out1 ∧
      out1.validation = [.solutionValidates] ∧
      main idleKernels 11 1 zeroState zeroStats = some out2 ∧
      out2.validation = [.failedValidation .a, .expectedValue 121, .observedValue 22] ∧
      out1.status = out2.status) := by
  refine ⟨?_, ?_, ?_⟩
  · intro K N n u v out h
    obtain ⟨s, -, hout⟩ := main_eq_some K N n u v out h
    rw [hout]
  · intro K N n u v hN h
    obtain ⟨s, hs⟩ := runKernels_defined K N n u hN h
    exact ⟨_, main_of_runKernels K N n u v s hs⟩
  · obtain ⟨s1, hs1, hu1⟩ := runKernels_contract (fun _ _ => 0) 11 1 zeroState (by decide)
      (Or.inr (by decide))
    obtain ⟨s2, hs2, hu2⟩ := idle_run
    refine ⟨_, _, main_of_runKernels _ _ _ _ zeroStats s1 hs1, ?_,
      main_of_runKernels _ _ _ _ zeroStats s2 hs2, ?_, rfl⟩
    · show check 1 s1.a s1.b s1.c s1.d ((11 : Nat) : Int) = _
      unfold check
      rw [observed_uniform s1.a s1.b s1.c s1.d 11 (trackers 1) hu1]
      exact compare_exact (expected 1 _)
    · show check 1 s2.a s2.b s2.c s2.d ((11 : Nat) : Int) = _
      unfold check
      rw [observed_uniform s2.a s2.b s2.c s2.d 11 trackerInit hu2]
      simp only [compare, expected, trackers, trackerStep, trackerInit,
        ← decide_relativeErrorExceeds, relativeErrorExceeds]
      norm_num

/-- Claim C10, an instance: the run with idle kernels, `N = 11` and one repetition
completes. -/
theorem main_exit_status_witness :
    (11 ≤ INT_MAX ∧ (1 = 0 ∨ 10 < 11)) ∧
    ∃ out, main idleKernels 11 1 zeroState zeroStats = some out :=
  ⟨⟨by decide, Or.inr (by decide)⟩,
    main_exit_status.2.1 idleKernels 11 1 zeroState zeroStats (by decide)
      (Or.inr (by decide))⟩

/-- Claim C11. With `N > 10`, the timing loop performs exactly `n` repetitions
`0, ..., n - 1`; each executes the eight statements of the body once, in the fixed order
Init, Sum, Copy, Update, Triad, Daxpy, STriad, SDaxpy; repetition `n` starts from the
variables repetition `n - 1` left, with nothing re-initialised in between; every statement
stores the value its kernel returned in `times[j][k]`; so the log of the loop has `8 * n`
entries, one for every kernel `j` and every `k < n`, the timing record ends up holding
every logged value at its place, and no other entry of it is written. -/
theorem timing_loop_record (K : Kernels) (scalar : ℚ) (N n : Nat) (s0 : LoopState)
    (hN : 10 < N) :
    (∀ (k : Nat) (s : LoopState),
      repetition K scalar N k s = steps K scalar N k order s) ∧
    (∀ (k : Nat) (j : benchmark) (s : LoopState) (log : List Event),
      ∃ s1, stepsLog K scalar N k [j] (s, log) =
          some (s1, log ++ [⟨j, k, returned K scalar N k j s⟩]) ∧
        s1.times = setTime s.times j.idx k (returned K scalar N k j s)) ∧
    timingLoop K scalar N (n + 1) s0 =
      (timingLoop K scalar N n s0).bind (repetition K scalar N n) ∧
    ∃ s log,
      timingLoopLog K scalar N n (s0, []) = some (s, log) ∧
      timingLoop K scalar N n s0 = some s ∧
      log.map (fun e => (e.rep, e.kernel)) = List.range n ×ˢ order ∧
      log.length = 8 * n ∧
      (∀ (j : benchmark) (k : Nat), k < n →
        (log.filter (fun e => decide ((e.rep, e.kernel) = (k, j)))).length = 1) ∧
      (∀ e ∈ log, s.times e.kernel.idx e.rep = e.value) ∧
      (∀ j k, (∀ e ∈ log, ¬ (e.kernel.idx = j ∧ e.rep = k)) → s.times j k = s0.times j k) := by
  refine ⟨fun k s => repetition_eq_steps K scalar N k s, ?_, rfl, ?_⟩
  · intro k j s log
    obtain ⟨s1, hs1, ht⟩ := step_times K scalar N k j s hN
    exact ⟨s1, by simp only [stepsLog, hs1, Option.some_bind], ht⟩
  · obtain ⟨s, log, hs, hrec, hkeys⟩ := timingLoopLog_spec K scalar N hN s0 n
    have hnd : (log.map (fun e => (e.rep, e.kernel))).Nodup := by
      rw [hkeys]
      exact List.Nodup.product (List.nodup_range n) order_nodup
    refine ⟨s, log, hs, ?_, hkeys, ?_, ?_, hrec.1, hrec.2⟩
    · rw [← timingLoopLog_fst K scalar N n s0 [], hs]
      rfl
    · have := congrArg List.length hkeys
      rw [List.length_map, List.length_product, List.length_range] at this
      rw [this, mul_comm]
      rfl
    · intro j k hk
      apply filter_key_length_one (fun e : Event => (e.rep, e.kernel)) log hnd
      rw [hkeys]
      exact List.mem_product.mpr ⟨List.mem_range.mpr hk, mem_order j⟩

/-- Claim C11, an instance: the reference `N = SIZE` and `n = NTIMES`, idle kernels. -/
theorem timing_loop_record_witness :
    10 < SIZE ∧
    ∃ s log,
      timingLoopLog idleKernels 3.0 SIZE NTIMES (zeroState, []) = some (s, log) ∧
      timingLoop idleKernels 3.0 SIZE NTIMES zeroState = some s ∧
      log.map (fun e => (e.rep, e.kernel)) = List.range NTIMES ×ˢ order ∧
      log.length = 8 * NTIMES ∧
      (∀ (j : benchmark) (k : Nat), k < NTIMES →
        (log.filter (fun e => decide ((e.rep, e.kernel) = (k, j)))).length = 1) ∧
      (∀ e ∈ log, s.times e.kernel.idx e.rep = e.value) ∧
      (∀ j k, (∀ e ∈ log, ¬ (e.kernel.idx = j ∧ e.rep = k)) →
        s.times j k = zeroState.times j k) :=
  ⟨by decide, (timing_loop_record idleKernels 3.0 SIZE NTIMES zeroState (by decide)).2.2.2⟩

/-- Claim C12, amended. Closed form of the recurrence of `check` in `double` arithmetic:
after `k` iterations from `aj = 2.0`, `bj = 2.0`, `cj = 0.5`, `dj = 1.0` with scalar
`3.0`, `aj = 3 * 4 ^ k - 1` for every `k` with `0 ≤ k ≤ 25`, for every `k ≥ 1` `bj = 3`
and `dj = 1`, and `cj = 3 * 4 ^ (k - 1) - 1` for every `k` with `1 ≤ k ≤ 26`; hence for
`NTIMES = 10` the expected sums are `3145727 * N`, `3 * N`, `786431 * N` and `N`, for
every value `N` of the type `int`. -/
theorem recurrence_closed_form :
    (∀ k : Nat, k ≤ 25 → (trackersD k).aj = 3 * 4 ^ k - 1) ∧
    (∀ k : Nat, 1 ≤ k → (trackersD k).bj = 3 ∧ (trackersD k).dj = 1) ∧
    (∀ k : Nat, 1 ≤ k → k ≤ 26 → (trackersD k).cj = 3 * 4 ^ (k - 1) - 1) ∧
    (∀ N : Int, -2147483648 ≤ N → N ≤ INT_MAX → expectedD NTIMES N =
      { aj := 3145727 * N, bj := 3 * N, cj := 786431 * N, dj := N }) := by
  refine ⟨trackersD_aj, ?_, ?_, expectedD_ten⟩
  · intro k hk
    obtain ⟨m, rfl⟩ : ∃ m, k = m + 1 := ⟨k - 1, by omega⟩
    exact ⟨trackersD_bj m, trackersD_dj _⟩
  · intro k hk1 hk2
    obtain ⟨m, rfl⟩ : ∃ m, k = m + 1 := ⟨k - 1, by omega⟩
    rw [trackersD_cj, trackersD_aj m (by omega)]
    simp

/-- Claim C12, instances: `k = 10`, and the expected sums for `N = SIZE`. -/
theorem recurrence_closed_form_witness :
    (10 ≤ 25 ∧ (trackersD 10).aj = 3 * 4 ^ 10 - 1) ∧
    (1 ≤ 10 ∧ (trackersD 10).bj = 3 ∧ (trackersD 10).dj = 1) ∧
    ((1 ≤ 10 ∧ 10 ≤ 26) ∧ (trackersD 10).cj = 3 * 4 ^ (10 - 1) - 1) ∧
    ((-2147483648 ≤ (SIZE : Int) ∧ (SIZE : Int) ≤ INT_MAX) ∧
      expectedD NTIMES SIZE =
        { aj := 3145727 * (SIZE : Int), bj := 3 * (SIZE : Int), cj := 786431 * (SIZE : Int),
          dj := (SIZE : Int) }) :=
  ⟨⟨by decide, recurrence_closed_form.1 10 (by decide)⟩,
    ⟨by decide, recurrence_closed_form.2.1 10 (by decide)⟩,
    ⟨⟨by decide, by decide⟩, recurrence_closed_form.2.2.1 10 (by decide) (by decide)⟩,
    ⟨⟨by decide, by decide⟩, recurrence_closed_form.2.2.2 SIZE (by decide) (by decide)⟩⟩

/-- Claim C12 as stated fails in `double` arithmetic from the 26th iteration on. In that
iteration `cj = 3377699720527871` and the product `bj * cj = 10133099161583613` is an
odd number above `2 ^ 53`, which is not a `double`; it is rounded to
`10133099161583612`, and `aj` becomes `13510798882111486` instead of
`3 * 4 ^ 26 - 1 = 13510798882111487`. The next iteration copies that value to `cj`. -/
theorem recurrence_counterexample :
    (trackersD 26).aj = 13510798882111486 ∧
    (trackersD 26).aj ≠ 3 * 4 ^ 26 - 1 ∧
    roundDouble (3 * 4 ^ 26 - 1) ≠ 3 * 4 ^ 26 - 1 ∧
    (trackersD 27).cj ≠ 3 * 4 ^ (27 - 1) - 1 := by
  have h : (trackersD 26).aj = 13510798882111486 := trackersD_twentysix
  have hr : roundDouble 13510798882111487 = 13510798882111488 := by
    rw [roundDouble_cert 53 6755399441055744 (by norm_num) (by norm_num)
      (roundHalfEven_tie_odd 6755399441055743 (by norm_num) (by norm_num))]
    norm_num
  refine ⟨h, ?_, ?_, ?_⟩
  · rw [h]
    norm_num
  · norm_num
    rw [hr]
    norm_num
  · rw [trackersD_cj, h]
    norm_num

/-- Claim C13. For every `N ≥ 11` and whatever buffer the `sum` kernel returns for the
one it is given, index `10` is within bounds and the Sum step of a repetition (save
`a[10]`, call `sum`, restore `a[10]`) is defined, leaves `a[10]` holding the value it had
before the step, leaves the other cells of `a` as `sum` left them, and leaves `b`, `c`,
`d` as they were; if `sum` returns its buffer unchanged, `a` is unchanged as well. -/
theorem sum_step_restores (K : Kernels) (scalar : ℚ) (N k : Nat) (s : LoopState)
    (hN : 11 ≤ N) :
    10 < N ∧
    ∃ s1, step K scalar N k .SUM s = some s1 ∧
      sumStep K N k s.a = some (s1.a, (K.sum k s.a N).2) ∧
      s1.a 10 = s.a 10 ∧
      (∀ i, i ≠ 10 → s1.a i = (K.sum k s.a N).1 i) ∧
      s1.b = s.b ∧ s1.c = s.c ∧ s1.d = s.d ∧
      ((K.sum k s.a N).1 = s.a → s1.a = s.a) := by
  have h10 : 10 < N := hN
  refine ⟨h10, { s with a := setCell (K.sum k s.a N).1 10 (s.a 10),
                        times := setTime s.times benchmark.SUM.idx k (K.sum k s.a N).2 },
    ?_, sumStep_of_lt K N k s.a h10, ?_, ?_, rfl, rfl, rfl, ?_⟩
  · simp only [step, sumStep_of_lt K N k s.a h10]
  · exact setCell_same (K.sum k s.a N).1 10 (s.a 10)
  · intro i hi
    exact setCell_other (K.sum k s.a N).1 10 i (s.a 10) hi
  · intro h
    show setCell (K.sum k s.a N).1 10 (s.a 10) = s.a
    rw [h]
    exact setCell_self _ _

/-- Claim C13, an instance: `N = 11` and a `sum` kernel that zeroes the buffer; `a[10]`
is `2.0` after the step as before, while `a[9]` is left at zero. -/
theorem sum_step_restores_witness :
    11 ≤ 11 ∧
    ∃ s1, step scribbleKernels 3.0 11 0 .SUM (initArrays 11 zeroState) = some s1 ∧
      s1.a 10 = 2 ∧ s1.a 9 = 0 ∧ s1.b = (initArrays 11 zeroState).b := by
  obtain ⟨-, s1, h1, -, h10, hother, hb, -, -, -⟩ :=
    sum_step_restores scribbleKernels 3.0 11 0 (initArrays 11 zeroState) le_rfl
  refine ⟨le_rfl, s1, h1, ?_, ?_, hb⟩
  · rw [h10]
    norm_num [initArrays]
  · rw [hother 9 (by decide)]
    rfl

/-- Claim C14, amended. In `double` arithmetic, for `ntimes ≥ 2`, when every non-warm-up
timing of kernel `j` is strictly positive and at most `FLT_MAX`, the printed rate
`1e-6 * bytes[j] / mintime[j]` is a finite number, equals the maximum over the
repetitions `k` in `[1, ntimes)` of the per-repetition rate
`1e-6 * bytes[j] / times[j][k]`, and is at least `(1 - 2 ^ (-53)) ^ (ntimes + 2)` times
the rate `1e-6 * bytes[j] / avgtime[j]` computed from the printed average time; it is
at least that rate itself whenever `avgtime[j] ≥ mintime[j]`. -/
theorem rate_is_best (N ntimes : Nat) (times : Nat → Nat → ℚ) (v : Stats) (j : Nat)
    (hj : j < NUMBENCH) (hn : 2 ≤ ntimes)
    (ht : ∀ k, 1 ≤ k → k < ntimes → 0 < times j k ∧ times j k ≤ FLT_MAX) :
    ∃ r, (printRowD N ntimes (aggregateD ntimes times (initStats v)) j).rate = .finite r ∧
      IsMaximumOf r ntimes
        (fun k => roundDouble
          (roundDouble (roundDouble 1.0e-6 * (bytesD N).getD j 0) / times j k)) ∧
      (∀ k, 1 ≤ k → k < ntimes →
        fdivD (roundDouble (roundDouble 1.0e-6 * (bytesD N).getD j 0)) (times j k) =
          .finite (roundDouble
            (roundDouble (roundDouble 1.0e-6 * (bytesD N).getD j 0) / times j k))) ∧
      ∃ avg q, (printRowD N ntimes (aggregateD ntimes times (initStats v)) j).avgtime =
          .finite avg ∧
        fdivD (roundDouble (roundDouble 1.0e-6 * (bytesD N).getD j 0)) avg = .finite q ∧
        q * (1 - 1 / 2 ^ 53) ^ (ntimes + 2) ≤ r ∧
        ((printRowD N ntimes (aggregateD ntimes times (initStats v)) j).mintime ≤ avg →
          q ≤ r) := by
  obtain ⟨a1, a2, a3⟩ := aggregateD_initStats ntimes times v j hj
  have hc := rate_numerator_nonneg N j
  obtain ⟨⟨k0, hk1, hk2, hk0⟩, hmin⟩ := foldl_MIN_isMinimum ntimes times j
    ⟨1, le_rfl, by omega, (ht 1 le_rfl (by omega)).2⟩
  have hm : 0 < (timings ntimes times j).foldl MIN FLT_MAX := by
    rw [← hk0]
    exact (ht k0 hk1 hk2).1
  have hpos : (0 : ℚ) < (ntimes : ℚ) - 1 := by
    have : (2 : ℚ) ≤ (ntimes : ℚ) := by exact_mod_cast hn
    linarith
  obtain ⟨b1, -⟩ := average_bounds ntimes times j hn (fun k h1 h2 => (ht k h1 h2).1.le)
  have hL : 0 < (timings ntimes times j).foldl MIN FLT_MAX * (1 - 1 / 2 ^ 53) ^ ntimes :=
    mul_pos hm (pow_pos (by norm_num) _)
  have havg := lt_of_lt_of_le hL b1
  refine ⟨roundDouble (roundDouble (roundDouble 1.0e-6 * (bytesD N).getD j 0) /
      (timings ntimes times j).foldl MIN FLT_MAX),
    ?_, ⟨⟨k0, hk1, hk2, ?_⟩, ?_⟩, ?_,
    roundDouble ((timings ntimes times j).foldl (fun s t => roundDouble (s + t)) 0 /
      ((ntimes : ℚ) - 1)),
    roundDouble (roundDouble (roundDouble 1.0e-6 * (bytesD N).getD j 0) /
      roundDouble ((timings ntimes times j).foldl (fun s t => roundDouble (s + t)) 0 /
        ((ntimes : ℚ) - 1))),
    ?_, ?_, ?_, ?_⟩
  · simp only [printRowD, a2, fdivD, if_pos (ne_of_gt hm)]
  · simp only [hk0]
  · intro k h1 h2
    exact roundDouble_mono (div_nonneg hc (ht k h1 h2).1.le)
      (div_le_div_of_nonneg_left hc hm (hmin k h1 h2))
  · intro k h1 h2
    simp only [fdivD, if_pos (ne_of_gt (ht k h1 h2).1)]
  · simp only [printRowD, a1, int_pred_cast, fdivD, if_pos (ne_of_gt hpos)]
  · simp only [fdivD, if_pos (ne_of_gt havg)]
  · exact rate_from_average_le _ _ _ ntimes hc hm b1
  · intro hle
    simp only [printRowD, a2] at hle
    exact roundDouble_mono (div_nonneg hc havg.le) (div_le_div_of_nonneg_left hc hm hle)

/-- Claim C14, an instance: the timings `[100, 1, 2, 3]`, kernel `0`, `N = SIZE`. -/
theorem rate_is_best_witness :
    (0 < NUMBENCH ∧ 2 ≤ 4 ∧
      ∀ k, 1 ≤ k → k < 4 →
        (0 : ℚ) < [100, 1, 2, 3].getD k 0 ∧ [(100 : ℚ), 1, 2, 3].getD k 0 ≤ FLT_MAX) ∧
    ∃ r, (printRowD SIZE 4 (aggregateD 4 (fun _ k => [100, 1, 2, 3].getD k 0)
        (initStats zeroStats)) 0).rate = .finite r ∧
      IsMaximumOf r 4
        (fun k => roundDouble
          (roundDouble (roundDouble 1.0e-6 * (bytesD SIZE).getD 0 0) /
            [(100 : ℚ), 1, 2, 3].getD k 0)) := by
  have ht : ∀ k, 1 ≤ k → k < 4 →
      (0 : ℚ) < [100, 1, 2, 3].getD k 0 ∧ [(100 : ℚ), 1, 2, 3].getD k 0 ≤ FLT_MAX := by
    intro k h1 h4
    interval_cases k <;> norm_num [FLT_MAX]
  obtain ⟨r, hr, hmax, -⟩ := rate_is_best SIZE 4 (fun _ k => [(100 : ℚ), 1, 2, 3].getD k 0)
    zeroStats 0 (by decide) (by decide) ht
  exact ⟨⟨by decide, by decide, ht⟩, r, hr, hmax⟩

/-- Claim C14 as stated fails in `double` arithmetic, in the reference configuration
`N = SIZE`, `NTIMES = 10`. When every timing of kernel `0` is the double `tenth` (`0.1`),
the printed rate is `1600.0` and the printed average time is `0.09999999999999999`; the
rate computed from the average time is `1600.0000000000002`, above the printed rate. -/
theorem rate_counterexample :
    (roundDouble 0.1 = tenth ∧ roundDouble tenth = tenth) ∧
    (2 ≤ NTIMES ∧ ∀ k, 1 ≤ k → k < NTIMES → 0 < tenth ∧ tenth ≤ FLT_MAX) ∧
    (printRowD SIZE NTIMES (aggregateD NTIMES (fun _ _ => tenth) (initStats zeroStats))
      0).rate = .finite 1600 ∧
    (printRowD SIZE NTIMES (aggregateD NTIMES (fun _ _ => tenth) (initStats zeroStats))
      0).avgtime = .finite (7205759403792793 / 72057594037927936) ∧
    fdivD (roundDouble (roundDouble 1.0e-6 * (bytesD SIZE).getD 0 0))
      (7205759403792793 / 72057594037927936) = .finite (7036874417766401 / 4398046511104) ∧
    (1600 : ℚ) < 7036874417766401 / 4398046511104 := by
  obtain ⟨a1, a2, -⟩ := aggregateD_initStats NTIMES (fun _ _ => tenth) zeroStats 0
    (by decide)
  refine ⟨⟨tenth_nearest, roundDouble_tenth⟩,
    ⟨by decide, fun _ _ _ => ⟨by norm_num [tenth], by norm_num [tenth, FLT_MAX]⟩⟩,
    ?_, ?_, ?_, by norm_num⟩
  · simp only [printRowD, a2, foldl_MIN_const tenth (by norm_num [tenth, FLT_MAX]),
      rate_numerator_SIZE]
    unfold fdivD tenth
    rw [if_pos (by norm_num), rate_tenth]
  · simp only [printRowD, a1]
    exact tenth_average
  · rw [rate_numerator_SIZE]
    unfold fdivD
    rw [if_pos (by norm_num), rate_tenth_avg]

/-- Claim C15. No division by zero in the aggregator under the non-degenerate
precondition: for `ntimes ≥ 2` the averaging divisor `ntimes - 1` is non-zero (`9` for
`NTIMES = 10`) and the printed average is a finite number; if every non-warm-up timing
of kernel `j` is strictly positive then `mintime[j] > 0`, so the bandwidth division
`1e-6 * bytes[j] / mintime[j]` yields a finite number. -/
theorem no_division_by_zero (N ntimes : Nat) (times : Nat → Nat → ℚ) (v : Stats) (j : Nat)
    (hj : j < NUMBENCH) :
    ((NTIMES : Int) - 1 = 9) ∧
    (2 ≤ ntimes →
      (((ntimes : Int) - 1 : Int) : ℚ) ≠ 0 ∧
      ∃ avg, (printRow N ntimes (aggregate ntimes times (initStats v)) j).avgtime =
        .finite avg) ∧
    ((∀ k, 1 ≤ k → k < ntimes → 0 < times j k) →
      0 < (aggregate ntimes times (initStats v)).mintime j ∧
      ∃ r, (printRow N ntimes (aggregate ntimes times (initStats v)) j).rate = .finite r) := by
  obtain ⟨a1, a2, a3⟩ := aggregate_initStats ntimes times v j hj
  refine ⟨by decide, ?_, ?_⟩
  · intro hn
    have hne : (((ntimes : Int) - 1 : Int) : ℚ) ≠ 0 := by
      rw [int_pred_cast]
      have : (2 : ℚ) ≤ (ntimes : ℚ) := by exact_mod_cast hn
      linarith
    exact ⟨hne, (aggregate ntimes times (initStats v)).avgtime j / (((ntimes : Int) - 1 : Int) : ℚ),
      by simp only [printRow, fdiv, if_pos hne]⟩
  · intro hpos
    have hm : 0 < (aggregate ntimes times (initStats v)).mintime j := by
      rw [a2]
      apply foldl_MIN_pos
      intro x hx
      obtain ⟨k, h1, h2, rfl⟩ := (mem_timings _ _ _ _).mp hx
      exact hpos k h1 h2
    exact ⟨hm, 1.0e-6 * (bytes N).getD j 0 / (aggregate ntimes times (initStats v)).mintime j,
      by simp only [printRow, fdiv, if_pos (ne_of_gt hm)]⟩

/-- Claim C15, an instance: the timings `[100, 1, 2, 3]`, kernel `0`. -/
theorem no_division_by_zero_witness :
    (0 < NUMBENCH ∧ 2 ≤ 4 ∧
      ∀ k, 1 ≤ k → k < 4 → (0 : ℚ) < [100, 1, 2, 3].getD k 0) ∧
    ((((4 : Nat) : Int) - 1 : Int) : ℚ) ≠ 0 ∧
    (∃ avg, (printRow SIZE 4 (aggregate 4 (fun _ k => [100, 1, 2, 3].getD k 0)
        (initStats zeroStats)) 0).avgtime = .finite avg) ∧
    0 < (aggregate 4 (fun _ k => [100, 1, 2, 3].getD k 0) (initStats zeroStats)).mintime 0 ∧
    ∃ r, (printRow SIZE 4 (aggregate 4 (fun _ k => [100, 1, 2, 3].getD k 0)
        (initStats zeroStats)) 0).rate = .finite r := by
  have hpos : ∀ k, 1 ≤ k → k < 4 → (0 : ℚ) < [100, 1, 2, 3].getD k 0 := by
    intro k h1 h4
    interval_cases k <;> norm_num
  have h := no_division_by_zero SIZE 4 (fun _ k => [(100 : ℚ), 1, 2, 3].getD k 0) zeroStats 0
    (by decide)
  exact ⟨⟨by decide, by decide, hpos⟩, (h.2.1 (by decide)).1, (h.2.1 (by decide)).2,
    (h.2.2 hpos).1, (h.2.2 hpos).2⟩

end BandwidthBenchmark
